import Mathlib

/-! DX-FT8 TimeSync / PSKReporter: record encoder and report aggregator

A shallow embedding of `src/src/PSKReporter.cpp`, `src/src/workqueue.cpp`,
`src/src/SafeString.cpp` and the payload helpers of `src/src/main.cpp`, and
theorems about them.

Modelling conventions

* A byte is a `Fin 256`.  Memory reachable through a `const uint8_t *` is a
  function from offsets to bytes (`Mem`); a null pointer is `none`.
* Inside the aggregator a `SafeString` is modelled by the value a handle
  denotes: the `length` bytes that `c_str()` points to.
* The reference counting of `SafeString` is modelled on a heap (`Store`): the
  `StringData` blocks by address, the `SafeString` objects by identity, and
  the static `EmptyChar`.  `new` is taken to succeed, as the source assumes,
  and hands out addresses that were never used.  An access through NULL,
  outside an array, or through a destroyed object is a `MemFault`.
* The work queue is the slot array together with the FIFO of slot indices;
  calls are made one after the other.
* An output buffer written through a bumped pointer (`*p++ = ...`) is modelled
  by the list of bytes lying between the start of the buffer and the pointer.
  The packet buffer of `send` is created zero-filled, so bytes that are
  skipped rather than written are `0`.  The array of that buffer has
  `MAX_BUFFER_SIZE + 1` elements: `send` compares the size of the packet with
  it and reports a larger packet as an overrun, without a datagram.
* `uint32_t`, `uint16_t` and `uint8_t` conversions are explicit `%`.
  `size_t` and `int` are 32 bits wide on the target; an `int` is an `Int`
  in the range of two's complement, converted with `toInt32` and `toUInt32`.
-/

namespace PskSpec

/-! ## Bytes and memory -/

/-- One octet. -/
abbrev Byte := Fin 256

/-- Conversion `(uint8_t)n`. -/
def toByte (n : Nat) : Byte := ⟨n % 256, Nat.mod_lt n (by decide)⟩

/-- Memory readable through a `const uint8_t *`: the byte at each offset. -/
abbrev Mem := Nat → Byte

/-- The memory holding the bytes `l` (zero beyond them). -/
def Mem.ofList (l : List Byte) : Mem := fun i => l.getD i 0

/-- `memcpy`-style read of `n` bytes of `m` starting at offset `p`. -/
def Mem.read (m : Mem) (p n : Nat) : List Byte := (List.range n).map (fun i => m (p + i))

/-- The four bytes stored by `*((uint32_t *)p) = htonl(x)`: most significant
byte first, whatever the host byte order. -/
def htonl (x : Nat) : List Byte :=
  [toByte (x / 2 ^ 24), toByte (x / 2 ^ 16), toByte (x / 2 ^ 8), toByte x]

/-- The two bytes stored by `*((uint16_t *)p) = htons(x)`. -/
def htons (x : Nat) : List Byte := [toByte (x / 2 ^ 8), toByte x]

/-- Conversion `(uint32_t)i` of an `int`. -/
def toUInt32 (i : Int) : Nat := (i % 2 ^ 32).toNat

/-- Conversion `(int)x` of a `uint32_t` on the target: two's complement, 32 bits. -/
def toInt32 (x : Nat) : Int :=
  if x % 2 ^ 32 < 2 ^ 31 then ((x % 2 ^ 32 : Nat) : Int) else ((x % 2 ^ 32 : Nat) : Int) - 2 ^ 32

/-- The value `*(const uint32_t *)p` on the little-endian target. -/
def loadLE32 (m : Mem) (p : Nat) : Nat :=
  (m p).val + 2 ^ 8 * (m (p + 1)).val + 2 ^ 16 * (m (p + 2)).val + 2 ^ 24 * (m (p + 3)).val

/-- Big-endian 16-bit field of a byte list at offset `off`. -/
def readBE16 (l : List Byte) (off : Nat) : Nat :=
  2 ^ 8 * (l.getD off 0).val + (l.getD (off + 1) 0).val

/-- Big-endian 32-bit field of a byte list at offset `off`. -/
def readBE32 (l : List Byte) (off : Nat) : Nat :=
  2 ^ 24 * (l.getD off 0).val + 2 ^ 16 * (l.getD (off + 1) 0).val
    + 2 ^ 8 * (l.getD (off + 2) 0).val + (l.getD (off + 3) 0).val

/-- Overwrite the bytes of `buf` from offset `off` on with `bytes`
(`p = start + off; *((uint16_t *)p) = ...`). -/
def poke : List Byte → Nat → List Byte → List Byte
  | buf, _, [] => buf
  | buf, off, b :: bs => poke (buf.set off b) (off + 1) bs

/-- The region of `size` bytes that starts where a callee wrote `out` into the
zero-filled buffer: the caller does `p += size`. -/
def region (out : List Byte) (size : Nat) : List Byte :=
  (out ++ List.replicate (size - out.length) 0).take size

/-! ## SafeString (value view) -/

/-- The bytes a `SafeString` handle denotes (`c_str()` over `length()` bytes). -/
structure SafeString where
  data : List Byte
deriving DecidableEq

namespace SafeString

/-- `SafeString::SafeString()`. -/
def empty : SafeString := ⟨[]⟩

/-- `SafeString::length`. -/
def length (s : SafeString) : Nat := s.data.length

/-- `SafeString::c_str`. -/
def c_str (s : SafeString) : List Byte := s.data

/-- `strlen`. -/
def strlen : List Byte → Nat
  | [] => 0
  | b :: bs => if b = 0 then 0 else strlen bs + 1

/-- `SafeString::SafeString(const char *s)` for a non-null `s`. -/
def ofCStr (s : List Byte) : SafeString := ⟨s.take (strlen s)⟩

/-- `SafeString::SafeString(const char *s, size_t len)` for a non-null `s`
pointing at offset `p` of `m`. -/
def ofBuf (m : Mem) (p len : Nat) : SafeString := ⟨m.read p len⟩

/-- `memcmp` over the first `n` bytes. -/
def memcmp : List Byte → List Byte → Nat → Int
  | _, _, 0 => 0
  | a :: as, b :: bs, n + 1 => if a = b then memcmp as bs n else (a.val : Int) - (b.val : Int)
  | _, _, _ + 1 => 0

/-- `SafeString::operator==`. -/
def opEq (s other : SafeString) : Bool :=
  s.length == other.length && memcmp s.data other.data s.length == 0

end SafeString

/-! ## Constants of PSKReporter.cpp -/

def PSK_REPORTER_PORT : Nat := 4739
def PSK_REPORTER_TEST_PORT : Nat := 14739
def PSK_MAX_RECORDS : Nat := 40
def MAX_BUFFER_SIZE : Nat := 1471

/-- Template descriptor for receiver callsign, receiver locator, decoding software. -/
def rxFormatHeader : List Byte :=
  [0x00, 0x03, 0x00, 0x24, 0x99, 0x92, 0x00, 0x03, 0x00, 0x00,
   0x80, 0x02, 0xFF, 0xFF, 0x00, 0x00, 0x76, 0x8F,
   0x80, 0x04, 0xFF, 0xFF, 0x00, 0x00, 0x76, 0x8F,
   0x80, 0x08, 0xFF, 0xFF, 0x00, 0x00, 0x76, 0x8F,
   0x00, 0x00]

/-- Template descriptor for sender callsign, frequency, SNR, mode, information
source, flow start seconds. -/
def txFormatHeader : List Byte :=
  [0x00, 0x02, 0x00, 0x34, 0x99, 0x93, 0x00, 0x06,
   0x80, 0x01, 0xFF, 0xFF, 0x00, 0x00, 0x76, 0x8F,
   0x80, 0x05, 0x00, 0x04, 0x00, 0x00, 0x76, 0x8F,
   0x80, 0x06, 0x00, 0x01, 0x00, 0x00, 0x76, 0x8F,
   0x80, 0x0A, 0xFF, 0xFF, 0x00, 0x00, 0x76, 0x8F,
   0x80, 0x0B, 0x00, 0x01, 0x00, 0x00, 0x76, 0x8F,
   0x00, 0x96, 0x00, 0x04]

/-! ## Length-prefixed strings -/

/-- `writeLengthPrefixedString`: `buf` is the buffer up to the write pointer,
the result is the buffer up to the returned pointer. -/
def writeLengthPrefixedString (buf : List Byte) (str : SafeString) : List Byte :=
  let length := str.length
  let buf := buf ++ [toByte length]
  buf ++ str.c_str.take length

/-- `readLengthPrefixedString`: reads at offset `p` of `buf`; returns the string
assigned to `str` and the returned pointer. -/
def readLengthPrefixedString (buf : Mem) (p : Nat) : SafeString × Nat :=
  let length := (buf p).val
  let p := p + 1
  (SafeString.ofBuf buf p length, p + length)

/-! ## ReceivedRecord -/

structure ReceivedRecord where
  callsign : SafeString
  frequency : Nat
  snr : Byte
  mode : SafeString
  infoSource : Byte
  /-- declared `int` -/
  flowTimeSeconds : Int
deriving DecidableEq

/-- The C string "FT8". -/
def modeFT8 : List Byte := [0x46, 0x54, 0x38, 0x00]

/-- `ReceivedRecord::ReceivedRecord(callsign, frequency, snr)`; `now` is `time(0)`. -/
def ReceivedRecord.new (callsign : SafeString) (frequency : Nat) (snr : Byte) (now : Nat) :
    ReceivedRecord :=
  { callsign := callsign
    frequency := frequency
    snr := snr
    mode := SafeString.ofCStr modeFT8
    infoSource := 1
    -- flowTimeSeconds((uint32_t)time(0)), stored in an int
    flowTimeSeconds := toInt32 (now % 2 ^ 32) }

/-- `ReceivedRecord::encode`: `bufIn` is the buffer up to the write pointer;
returns the buffer up to the final pointer and the number of bytes written. -/
def ReceivedRecord.encode (r : ReceivedRecord) (bufIn : List Byte) : List Byte × Nat :=
  -- Callsign
  let buf := writeLengthPrefixedString bufIn r.callsign
  -- Frequency (network byte order)
  let buf := buf ++ htonl r.frequency
  -- SNR
  let buf := buf ++ [r.snr]
  -- Mode
  let buf := writeLengthPrefixedString buf r.mode
  -- Info source
  let buf := buf ++ [r.infoSource]
  -- Flow start time (network byte order)
  let buf := buf ++ htonl (toUInt32 r.flowTimeSeconds)
  (buf, buf.length - bufIn.length)

/-! ## PskReporter -/

structure PskReporter where
  currentSequenceNumber : Nat
  randomIdentifier : Nat
  testMode : Bool
  reporterCallsign : SafeString
  reporterGridSquare : SafeString
  decodingSoftware : SafeString
  recordList : List ReceivedRecord
deriving DecidableEq

/-- What `send` reads from its collaborators. -/
structure Env where
  /-- `WiFi.status() == WL_CONNECTED` -/
  wifiConnected : Bool
  /-- `WiFi.getMode() == WIFI_STA` -/
  wifiSta : Bool
  /-- `packet.c_str() != NULL` -/
  allocOk : Bool
  /-- `time(0)` -/
  time : Nat
  /-- value returned by `wifiUdp.write` -/
  udpWritten : Nat

/-- What `send` hands to `wifiUdp`: the port of `beginPacket` and the bytes of `write`. -/
structure Datagram where
  port : Nat
  data : List Byte
deriving DecidableEq

/-- Outcome of `send`: the aggregator afterwards, the returned `bool`, the
datagram handed to the UDP sender, if any, and whether the packet was larger
than the array of `packet`.  In that case `send` has written and read past the
end of the array and its behaviour is undefined: no datagram is given, and
`self` and `result` are what the statements of `send` yield when the accesses
outside the array disturb nothing else. -/
structure SendResult where
  self : PskReporter
  result : Bool
  datagram : Option Datagram
  overrun : Bool
deriving DecidableEq

/-- `pad4`. -/
def pad4 (size : Nat) : Nat := ((size + 3) % 2 ^ 32) &&& 0xfffffffc

namespace PskReporter

/-- `PskReporter::PskReporter`. -/
def new (randomIdentifierIn : Nat) (testModeIn : Bool) : PskReporter :=
  { currentSequenceNumber := 0
    randomIdentifier := randomIdentifierIn
    testMode := testModeIn
    reporterCallsign := SafeString.empty
    reporterGridSquare := SafeString.empty
    decodingSoftware := SafeString.empty
    recordList := [] }

/-- `PskReporter::createSenderRecord`. -/
def createSenderRecord (self : PskReporter) (encodedBuf : Option Mem) : PskReporter × Bool :=
  match encodedBuf with
  | none => (self, false)
  | some buf =>
    let (callsign, p) := readLengthPrefixedString buf 0
    let (grid, _) := readLengthPrefixedString buf p
    ({ self with reporterCallsign := callsign, reporterGridSquare := grid }, true)

/-- `PskReporter::createSenderSoftwareRecord`. -/
def createSenderSoftwareRecord (self : PskReporter) (encodedBuf : Option Mem) :
    PskReporter × Bool :=
  match encodedBuf with
  | none => (self, false)
  | some buf =>
    let (software, _) := readLengthPrefixedString buf 0
    ({ self with decodingSoftware := software }, true)

/-- The loop of `PskReporter::alreadyLogged`. -/
def alreadyLoggedLoop (callsign : SafeString) : List ReceivedRecord → Bool
  | [] => false
  | item :: rest =>
    if item.callsign.opEq callsign then true else alreadyLoggedLoop callsign rest

/-- `PskReporter::alreadyLogged`. -/
def alreadyLogged (self : PskReporter) (callsign : SafeString) : Bool :=
  alreadyLoggedLoop callsign self.recordList

/-- `PskReporter::addReceivedRecord`; `now` is `time(0)`. -/
def addReceivedRecord (self : PskReporter) (now : Nat) (encodedBuf : Option Mem) :
    PskReporter × Bool :=
  match encodedBuf with
  | none => (self, false)
  | some buf =>
    let (callsign, p) := readLengthPrefixedString buf 0
    let frequency := loadLE32 buf p
    let p := p + 4
    let snr := buf p
    if self.recordList.length < PSK_MAX_RECORDS && !self.alreadyLogged callsign then
      ({ self with
          recordList := self.recordList ++ [ReceivedRecord.new callsign frequency snr now] },
        true)
    else
      (self, false)

/-- `PskReporter::encodeReporterRecord`: the bytes written from `bufStart` on and
the returned size. -/
def encodeReporterRecord (self : PskReporter) : List Byte × Nat :=
  let buf : List Byte := [0x99, 0x92]
  -- room for the size
  let buf := buf ++ [0, 0]
  let buf := writeLengthPrefixedString buf self.reporterCallsign
  let buf := writeLengthPrefixedString buf self.reporterGridSquare
  let buf := writeLengthPrefixedString buf self.decodingSoftware
  let size := buf.length
  let size := pad4 size
  let buf := poke buf 2 (htons (size % 2 ^ 16))
  (buf, size)

/-- The loop of `PskReporter::encodeReceivedRecords`. -/
def encodeLoop : List ReceivedRecord → List Byte → Nat → List Byte × Nat
  | [], buf, size => (buf, size)
  | rec :: rest, buf, size =>
    let (buf1, bufSize) := rec.encode buf
    encodeLoop rest buf1 (size + bufSize)

/-- `PskReporter::encodeReceivedRecords`: the bytes written from `bufStart` on
and the returned size. -/
def encodeReceivedRecords (self : PskReporter) : List Byte × Nat :=
  if self.recordList.isEmpty then
    ([], 0)
  else
    let buf : List Byte := [0x99, 0x93]
    -- room for the size
    let buf := buf ++ [0, 0]
    let size := 4
    let (buf, size) := encodeLoop self.recordList buf size
    let size := pad4 size
    let buf := poke buf 2 (htons (size % 2 ^ 16))
    (buf, size)

/-- `PskReporter::send`.  The packet is built in the array of
`SafeString packet(MAX_BUFFER_SIZE)`, which has `MAX_BUFFER_SIZE + 1` elements;
the writes through `p` and the read of `wifiUdp.write` cover the `size` bytes
from `ptrStart`, so they stay inside the array exactly when `size` is at most
`MAX_BUFFER_SIZE + 1`. -/
def send (self : PskReporter) (env : Env) : SendResult :=
  if self.recordList.length > 0 && env.wifiConnected && env.wifiSta then
    if !env.allocOk then
      ⟨self, false, none, false⟩ -- Memory allocation failed
    else
      -- Encode packet header and fields
      let p : List Byte := [0x00, 0x0A]
      let p := p ++ [0, 0]
      let p := p ++ htonl (env.time % 2 ^ 32)
      let p := p ++ htonl self.currentSequenceNumber
      let self := { self with currentSequenceNumber := (self.currentSequenceNumber + 1) % 2 ^ 32 }
      let p := p ++ htonl self.randomIdentifier
      let p := p ++ rxFormatHeader
      let p := if !self.recordList.isEmpty then p ++ txFormatHeader else p
      let (out, size) := self.encodeReporterRecord
      let p := p ++ region out size
      let (out, size) := self.encodeReceivedRecords
      let p := p ++ region out size
      let self1 := { self with recordList := [] }
      let port := if self.testMode then PSK_REPORTER_TEST_PORT else PSK_REPORTER_PORT
      let size := p.length
      let p := poke p 2 (htons (size % 2 ^ 16))
      let written := env.udpWritten
      if size ≤ MAX_BUFFER_SIZE + 1 then
        ⟨self1, written != 0, some ⟨port, p.take size⟩, false⟩
      else
        ⟨self1, written != 0, none, true⟩
  else
    ⟨self, false, none, false⟩

end PskReporter

/-- Every string of the aggregator fits the one-byte length of its wire form
(at most 255 bytes) and the pending list its capacity. -/
def PskReporter.Bounded (self : PskReporter) : Prop :=
  self.reporterCallsign.length ≤ 255 ∧ self.reporterGridSquare.length ≤ 255 ∧
    self.decodingSoftware.length ≤ 255 ∧ self.recordList.length ≤ PSK_MAX_RECORDS ∧
    ∀ r ∈ self.recordList, r.callsign.length ≤ 255 ∧ r.mode.length ≤ 255

instance (self : PskReporter) : Decidable self.Bounded := by
  unfold PskReporter.Bounded
  infer_instance

/-! ## Call sequences -/

/-- The callsign `addReceivedRecord` parses from the payload `buf`. -/
def payloadCallsign (buf : Mem) : SafeString := (readLengthPrefixedString buf 0).1

/-- The frequency `addReceivedRecord` reads from the payload `buf`. -/
def payloadFrequency (buf : Mem) : Nat := loadLE32 buf (readLengthPrefixedString buf 0).2

/-- The SNR byte `addReceivedRecord` reads from the payload `buf`. -/
def payloadSnr (buf : Mem) : Byte := buf ((readLengthPrefixedString buf 0).2 + 4)

/-- One call of a public member function of `PskReporter`, with what it reads
from outside: the payload pointer, `time(0)`, the collaborators of `send`. -/
inductive Call where
  | createSenderRecord (encodedBuf : Option Mem)
  | createSenderSoftwareRecord (encodedBuf : Option Mem)
  | addReceivedRecord (now : Nat) (encodedBuf : Option Mem)
  | send (env : Env)

namespace PskReporter

/-- The aggregator after one call. -/
def step (self : PskReporter) : Call → PskReporter
  | .createSenderRecord b => (self.createSenderRecord b).1
  | .createSenderSoftwareRecord b => (self.createSenderSoftwareRecord b).1
  | .addReceivedRecord now b => (self.addReceivedRecord now b).1
  | .send env => (self.send env).self

/-- The aggregator after a sequence of calls. -/
def run (self : PskReporter) : List Call → PskReporter
  | [] => self
  | c :: rest => run (self.step c) rest

/-- The outcomes of the `send` calls of a sequence of calls, in call order. -/
def sendResults (self : PskReporter) : List Call → List SendResult
  | [] => []
  | .send env :: rest => self.send env :: sendResults (self.send env).self rest
  | .createSenderRecord b :: rest => sendResults (self.createSenderRecord b).1 rest
  | .createSenderSoftwareRecord b :: rest => sendResults (self.createSenderSoftwareRecord b).1 rest
  | .addReceivedRecord now b :: rest => sendResults (self.addReceivedRecord now b).1 rest

/-- Successive `addReceivedRecord` calls, one per pair of `time(0)` and payload:
the aggregator afterwards and the returned values in call order. -/
def addReceivedRecords (self : PskReporter) : List (Nat × Mem) → PskReporter × List Bool
  | [] => (self, [])
  | (now, buf) :: rest =>
    let r := self.addReceivedRecord now (some buf)
    let rs := addReceivedRecords r.1 rest
    (rs.1, r.2 :: rs.2)

end PskReporter

/-! ## Payload helpers of main.cpp -/

/-- The four bytes stored by `memcpy(ptr, &frequency, sizeof(frequency))` on the
little-endian target: least significant byte first. -/
def storeLE32 (x : Nat) : List Byte :=
  [toByte x, toByte (x / 2 ^ 8), toByte (x / 2 ^ 16), toByte (x / 2 ^ 24)]

namespace Main

/-- The array `encodedBuff` of `TestTask` after `memset(encodedBuff, 0, sizeof(encodedBuff))`. -/
def encodedBuff : List Byte := List.replicate 32 0

/-- The static helper `addSenderRecord` of main.cpp: the buffer afterwards and
the returned size.  `callsign` and `gridSquare` are the bytes found at the two
`const char *` arguments. -/
def addSenderRecord (buffer : List Byte) (bufferSizeIn : Nat) (callsign gridSquare : List Byte) :
    List Byte × Nat :=
  let callsignLength := SafeString.strlen callsign
  let gridSquareLength := SafeString.strlen gridSquare
  let bufferSize := 1 + callsignLength + 1 + gridSquareLength
  if bufferSize < bufferSizeIn then
    let ptr : List Byte := []
    -- Add callsign as length-delimited
    let ptr := ptr ++ [toByte callsignLength]
    let ptr := ptr ++ callsign.take callsignLength
    -- Add gridSquare as length-delimited
    let ptr := ptr ++ [toByte gridSquareLength]
    let ptr := ptr ++ gridSquare.take gridSquareLength
    (poke buffer 0 ptr, ptr.length)
  else
    (buffer, 0)

/-- The static helper `addSenderSoftwareRecord` of main.cpp. -/
def addSenderSoftwareRecord (buffer : List Byte) (bufferSizeIn : Nat) (software : List Byte) :
    List Byte × Nat :=
  let softwareLength := SafeString.strlen software
  let bufferSize := 1 + softwareLength
  if bufferSize < bufferSizeIn then
    let ptr : List Byte := []
    -- Add software as length-delimited
    let ptr := ptr ++ [toByte softwareLength]
    let ptr := ptr ++ software.take softwareLength
    (poke buffer 0 ptr, ptr.length)
  else
    (buffer, 0)

/-- The static helper `addReceivedRecord` of main.cpp. -/
def addReceivedRecord (buffer : List Byte) (bufferSizeIn : Nat) (callsign : List Byte)
    (frequency : Nat) (snr : Byte) : List Byte × Nat :=
  let callsignLength := SafeString.strlen callsign
  let bufferSize := 1 + callsignLength + 4 + 1
  if bufferSize < bufferSizeIn then
    let ptr : List Byte := []
    -- Add callsign as length-delimited
    let ptr := ptr ++ [toByte callsignLength]
    let ptr := ptr ++ callsign.take callsignLength
    -- Add frequency
    let ptr := ptr ++ storeLE32 frequency
    -- Add SNR (1 byte)
    let ptr := ptr ++ [snr]
    (poke buffer 0 ptr, ptr.length)
  else
    (buffer, 0)

/-- The aggregator after the ingestion steps of `TestTask` for one received
record: the three payloads are built in `encodedBuff` by the helpers above and
handed to `createSenderRecord`, `createSenderSoftwareRecord` and
`PskReporter::addReceivedRecord`. -/
def ingest (self : PskReporter) (callsign gridSquare software : List Byte)
    (spotCallsign : List Byte) (frequency : Nat) (snr : Byte) (now : Nat) : PskReporter :=
  let b := (addSenderRecord encodedBuff 32 callsign gridSquare).1
  let self := (self.createSenderRecord (some (Mem.ofList b))).1
  let b := (addSenderSoftwareRecord encodedBuff 32 software).1
  let self := (self.createSenderSoftwareRecord (some (Mem.ofList b))).1
  let b := (addReceivedRecord encodedBuff 32 spotCallsign frequency snr).1
  (self.addReceivedRecord now (some (Mem.ofList b))).1

end Main

/-! ## Work queue (workqueue.h, workqueue.cpp) -/

inductive I2COperation where
  | OP_TIME_REQUEST
  | OP_SENDER_RECORD
  | OP_SENDER_SOFTWARE_RECORD
  | OP_RECEIVER_RECORD
  | OP_SEND_REQUEST
deriving DecidableEq

def BUFFER_SIZE : Nat := 32

inductive WorkItemState where
  | ITEM_FREE
  | ITEM_ALLOCATED
deriving DecidableEq

structure WorkItem where
  state : WorkItemState
  operation : I2COperation
  buffer : List Byte
deriving DecidableEq

def MAX_WORK_ITEMS : Nat := 20

/-- The array `workItems[MAX_WORK_ITEMS]`. -/
abbrev WorkItems := Fin MAX_WORK_ITEMS → WorkItem

/-- The file-scope state of workqueue.cpp: the slot array and the FreeRTOS queue
`workQueue` of slot indices, head first. -/
structure WorkQueue where
  workItems : WorkItems
  workQueue : List Nat

/-- Ways a call fails to return normally. -/
inductive Fault where
  /-- an access outside the slot array or outside a slot buffer -/
  | outOfBounds
  /-- `xQueueSend(..., portMAX_DELAY)` on a full queue, with nobody to empty it -/
  | blocked
deriving DecidableEq

/-- The `process...` function that `processWorkQueue` calls, with its argument. -/
inductive Handler where
  | processTimeRequest (buffer : List Byte)
  | processSenderRecord (buffer : List Byte)
  | processSenderSoftwareRecord (buffer : List Byte)
  | processReceiverRecord (buffer : List Byte)
  | processSendRequest
deriving DecidableEq

/-- The loop of `allocateWorkItem` with `n` iterations left, that is at
`i = MAX_WORK_ITEMS - n`: the array afterwards and the value of `index`. -/
def allocateLoop (workItems : WorkItems) : Nat → WorkItems × Int
  | 0 => (workItems, -1)
  | n + 1 =>
    let i : Fin MAX_WORK_ITEMS := ⟨MAX_WORK_ITEMS - (n + 1), Nat.sub_lt (by decide) (Nat.succ_pos n)⟩
    if (workItems i).state = WorkItemState.ITEM_FREE then
      (Function.update workItems i { workItems i with state := WorkItemState.ITEM_ALLOCATED },
        (i.val : Int))
    else
      allocateLoop workItems n

/-- `allocateWorkItem`. -/
def allocateWorkItem (workItems : WorkItems) : WorkItems × Int :=
  allocateLoop workItems MAX_WORK_ITEMS

/-- `addWorkQueueItem`. -/
def addWorkQueueItem (q : WorkQueue) (operation : I2COperation) (buffer : Option Mem)
    (bufferSize : Int) : Except Fault WorkQueue :=
  let (workItems, index) := allocateWorkItem q.workItems
  if index ≥ 0 then
    if h : index.toNat < MAX_WORK_ITEMS then
      let slot : Fin MAX_WORK_ITEMS := ⟨index.toNat, h⟩
      let workItem := { workItems slot with operation := operation }
      let copied : Except Fault WorkItem :=
        match buffer with
        | some buf =>
          if bufferSize > 0 then
            if bufferSize.toNat ≤ BUFFER_SIZE then
              -- memcpy of bufferSize bytes, memset of the other bytes of the buffer
              .ok { workItem with
                    buffer := buf.read 0 bufferSize.toNat
                      ++ List.replicate (BUFFER_SIZE - bufferSize.toNat) 0 }
            else
              .error Fault.outOfBounds
          else
            .ok workItem
        | none => .ok workItem
      match copied with
      | .error e => .error e
      | .ok workItem =>
        -- xQueueSend(workQueue, &index, portMAX_DELAY)
        if q.workQueue.length < MAX_WORK_ITEMS then
          .ok { workItems := Function.update workItems slot workItem
                workQueue := q.workQueue ++ [index.toNat] }
        else
          .error Fault.blocked
    else
      .error Fault.outOfBounds
  else
    .ok q

/-- `initialiseWorkQueue`: an empty queue and `memset(workItems, 0, sizeof(workItems))`. -/
def initialiseWorkQueue : WorkQueue :=
  { workItems := fun _ =>
      { state := WorkItemState.ITEM_FREE
        operation := I2COperation.OP_TIME_REQUEST
        buffer := List.replicate BUFFER_SIZE 0 }
    workQueue := [] }

/-- The `switch (operation)` of `processWorkQueue`. -/
def dispatch (operation : I2COperation) (buffer : List Byte) : Handler :=
  match operation with
  | .OP_TIME_REQUEST => .processTimeRequest buffer
  | .OP_SENDER_RECORD => .processSenderRecord buffer
  | .OP_SENDER_SOFTWARE_RECORD => .processSenderSoftwareRecord buffer
  | .OP_RECEIVER_RECORD => .processReceiverRecord buffer
  | .OP_SEND_REQUEST => .processSendRequest

/-- `processWorkQueue`: the state afterwards and the handler called, if any. -/
def processWorkQueue (q : WorkQueue) : Except Fault (WorkQueue × Option Handler) :=
  match q.workQueue with
  | [] => .ok (q, none)
  | index :: rest =>
    if h : index < MAX_WORK_ITEMS then
      let slot : Fin MAX_WORK_ITEMS := ⟨index, h⟩
      let workItem := q.workItems slot
      let operation := workItem.operation
      let called := dispatch operation workItem.buffer
      .ok ({ workItems := Function.update q.workItems slot
                { workItem with state := WorkItemState.ITEM_FREE }
             workQueue := rest }, some called)
    else
      .error Fault.outOfBounds

/-- One `addWorkQueueItem` request. -/
structure Request where
  operation : I2COperation
  buffer : Option Mem
  bufferSize : Int

/-- The slot buffer a request asks for: its `bufferSize` bytes, zero-filled to
`BUFFER_SIZE`; all zero when it carries no payload. -/
def Request.payload (r : Request) : List Byte :=
  match r.buffer with
  | some buf =>
    if r.bufferSize > 0 then
      buf.read 0 r.bufferSize.toNat ++ List.replicate (BUFFER_SIZE - r.bufferSize.toNat) 0
    else List.replicate BUFFER_SIZE 0
  | none => List.replicate BUFFER_SIZE 0

/-- The request carries a payload: a non-null pointer and a positive size. -/
def Request.hasPayload (r : Request) : Bool :=
  r.buffer.isSome && decide (r.bufferSize > 0)

/-- The payload of the request, if it carries one, is no longer than a slot
buffer. -/
def Request.Fits (r : Request) : Prop :=
  r.buffer.isSome = true → r.bufferSize ≤ (BUFFER_SIZE : Int)

instance (r : Request) : Decidable r.Fits := by
  unfold Request.Fits
  infer_instance

/-- A call on the work queue: the producer's `addWorkQueueItem` or the
consumer's `processWorkQueue`. -/
inductive QueueCall where
  | add (r : Request)
  | process

/-- The request of an `addWorkQueueItem` call fits a slot buffer. -/
def QueueCall.Fits : QueueCall → Prop
  | .add r => r.Fits
  | .process => True

instance (c : QueueCall) : Decidable c.Fits := by
  cases c with
  | add r => exact inferInstanceAs (Decidable r.Fits)
  | process => exact inferInstanceAs (Decidable True)

/-- The buffer of slot `index` (empty outside the array). -/
def WorkQueue.bufferAt (q : WorkQueue) (index : Nat) : List Byte :=
  if h : index < MAX_WORK_ITEMS then (q.workItems ⟨index, h⟩).buffer else []

/-- A run of the work queue: the state, the requests accepted so far, each with
the buffer its slot held when `addWorkQueueItem` returned, and the handlers
called so far, both in order. -/
structure QueueRun where
  queue : WorkQueue
  accepted : List (Request × List Byte)
  called : List Handler

/-- One call of a sequential run. -/
def QueueRun.step (s : QueueRun) : QueueCall → Except Fault QueueRun
  | .add r =>
    match addWorkQueueItem s.queue r.operation r.buffer r.bufferSize with
    | .error e => .error e
    | .ok q =>
      let index := (allocateWorkItem s.queue.workItems).2
      .ok { queue := q
            accepted :=
              if index ≥ 0 then s.accepted ++ [(r, q.bufferAt index.toNat)] else s.accepted
            called := s.called }
  | .process =>
    match processWorkQueue s.queue with
    | .error e => .error e
    | .ok (q, h) =>
      .ok { queue := q
            accepted := s.accepted
            called := match h with
              | some c => s.called ++ [c]
              | none => s.called }

/-- A sequence of calls, one after the other. -/
def QueueRun.run (s : QueueRun) : List QueueCall → Except Fault QueueRun
  | [] => .ok s
  | c :: rest =>
    match s.step c with
    | .error e => .error e
    | .ok s1 => s1.run rest

/-- The run that starts with `initialiseWorkQueue`. -/
def QueueRun.start : QueueRun := { queue := initialiseWorkQueue, accepted := [], called := [] }

/-- Every index waiting in the FIFO occurs once and names an ALLOCATED slot of
the array. -/
def WorkQueue.Consistent (q : WorkQueue) : Prop :=
  q.workQueue.Nodup ∧
    ∀ index ∈ q.workQueue, ∃ h : index < MAX_WORK_ITEMS,
      (q.workItems ⟨index, h⟩).state = WorkItemState.ITEM_ALLOCATED

instance (q : WorkQueue) : Decidable q.Consistent := by
  unfold WorkQueue.Consistent
  infer_instance

/-- Slot `index` of the array is ALLOCATED and still holds the operation tag
and the buffer with which request `a` was enqueued. -/
def WorkQueue.Holds (q : WorkQueue) (index : Nat) (a : Request × List Byte) : Prop :=
  ∃ h : index < MAX_WORK_ITEMS,
    (q.workItems ⟨index, h⟩).state = WorkItemState.ITEM_ALLOCATED ∧
      (q.workItems ⟨index, h⟩).operation = a.1.operation ∧
      (q.workItems ⟨index, h⟩).buffer = a.2

/-- The handler `called` is the one the accepted request `a` is to be
dispatched to: the `process...` function that belongs to its operation tag,
with the buffer it was enqueued with (`processSendRequest` takes no argument). -/
def DispatchedAs (a : Request × List Byte) (called : Handler) : Prop :=
  (a.1.operation = I2COperation.OP_TIME_REQUEST → called = Handler.processTimeRequest a.2) ∧
  (a.1.operation = I2COperation.OP_SENDER_RECORD → called = Handler.processSenderRecord a.2) ∧
  (a.1.operation = I2COperation.OP_SENDER_SOFTWARE_RECORD →
    called = Handler.processSenderSoftwareRecord a.2) ∧
  (a.1.operation = I2COperation.OP_RECEIVER_RECORD →
    called = Handler.processReceiverRecord a.2) ∧
  (a.1.operation = I2COperation.OP_SEND_REQUEST → called = Handler.processSendRequest)

instance (a : Request × List Byte) (called : Handler) : Decidable (DispatchedAs a called) := by
  unfold DispatchedAs
  infer_instance

/-- The buffer an accepted request was enqueued with is its payload, when it
carries one. -/
def StoredPayload (a : Request × List Byte) : Prop :=
  a.1.hasPayload = true → a.2 = a.1.payload

/-- The accepted requests are the dispatched ones followed by the waiting
ones: each handler called so far belongs to the request at its position, and
the FIFO lists, in order and without repetition, the slots that hold the
requests still waiting. -/
def QueueRun.Ordered (s : QueueRun) : Prop :=
  s.queue.workQueue.Nodup ∧ (∀ a ∈ s.accepted, StoredPayload a) ∧
    ∃ done pending, s.accepted = done ++ pending ∧
      List.Forall₂ DispatchedAs done s.called ∧
      List.Forall₂ s.queue.Holds s.queue.workQueue pending

/-- The number of ALLOCATED slots of the array. -/
def WorkQueue.allocated (q : WorkQueue) : Nat :=
  ((List.finRange MAX_WORK_ITEMS).filter
    (fun i => decide ((q.workItems i).state = WorkItemState.ITEM_ALLOCATED))).length

/-! ## SafeString (handles, storage blocks and reference counts) -/

/-- `SafeString::StringData`: the `char` array behind `data` (`none` is NULL),
`length` and `refCount`.  The count is an `int`; it is not wrapped, since it
never exceeds the number of live objects. -/
structure StringData where
  data : Option (List Byte)
  length : Nat
  refCount : Int
deriving DecidableEq

namespace StringData

/-- `StringData::StringData()`. -/
def empty : StringData := { data := none, length := 0, refCount := 1 }

/-- `StringData::StringData(const char *s, size_t len)`; `new char[length + 1]`
gives an array, as the source assumes. -/
def ofBuf (s : Option Mem) (len : Nat) : StringData :=
  { length := len
    refCount := 1
    data := some (match s with
      -- memcpy(data, s, length); data[length] = 0
      | some m => m.read 0 len ++ [0]
      -- memset(data, 0, length + 1)
      | none => List.replicate (len + 1) 0) }

/-- The array behind `data` has `length + 1` elements, and `length` is 0 when
`data` is NULL. -/
def WellFormed (sd : StringData) : Prop :=
  match sd.data with
  | none => sd.length = 0
  | some d => d.length = sd.length + 1

end StringData

/-- Ways an access to the heap goes wrong. -/
inductive MemFault where
  /-- a read or write through a NULL pointer -/
  | nullPointer
  /-- a read or write outside the array pointed to -/
  | outOfStorage
  /-- use of a destroyed `SafeString` or of a deleted `StringData` -/
  | dangling
deriving DecidableEq

/-- What a `char &` returned by `operator[]` refers to. -/
inductive CharRef where
  /-- the static `SafeString::EmptyChar` -/
  | EmptyChar
  /-- element `index` of the array of the block at address `p` -/
  | cell (p : Nat) (index : Nat)
deriving DecidableEq

/-- The heap as `SafeString` uses it: the `StringData` blocks by address (`none`
where no block is allocated), the address the next `new StringData` gets, the
`SafeString` objects by identity, each with its `pData` (`none` once
destroyed), and the static `EmptyChar`. -/
structure Store where
  blocks : Nat → Option StringData
  next : Nat
  handles : List (Option Nat)
  EmptyChar : Byte

namespace Store

/-- No block, no object, `EmptyChar = 0`. -/
def init : Store := { blocks := fun _ => none, next := 0, handles := [], EmptyChar := 0 }

/-- `this->pData`. -/
def pData (s : Store) (this : Nat) : Except MemFault Nat :=
  match s.handles.getD this none with
  | some p => .ok p
  | none => .error MemFault.dangling

/-- The block `*p`. -/
def deref (s : Store) (p : Nat) : Except MemFault StringData :=
  match s.blocks p with
  | some sd => .ok sd
  | none => .error MemFault.dangling

/-- Assignment to the block at address `p` (`none` deletes it). -/
def setBlock (s : Store) (p : Nat) (sd : Option StringData) : Store :=
  { s with blocks := Function.update s.blocks p sd }

/-- `new StringData(...)`: the store and the address of the block. -/
def alloc (s : Store) (sd : StringData) : Store × Nat :=
  ({ s with blocks := Function.update s.blocks s.next (some sd), next := s.next + 1 }, s.next)

/-- A new `SafeString` object whose `pData` is `p`: the store and the object. -/
def newObject (s : Store) (p : Nat) : Store × Nat :=
  ({ s with handles := s.handles ++ [some p] }, s.handles.length)

/-- `SafeString::SafeString()`. -/
def construct (s : Store) : Store × Nat :=
  let (s, p) := s.alloc StringData.empty
  s.newObject p

/-- `SafeString::SafeString(const char *s)`. -/
def constructCStr (s : Store) (str : Option (List Byte)) : Store × Nat :=
  match str with
  | some l =>
    let (s, p) := s.alloc (StringData.ofBuf (some (Mem.ofList l)) (SafeString.strlen l))
    s.newObject p
  | none =>
    let (s, p) := s.alloc StringData.empty
    s.newObject p

/-- `SafeString::SafeString(const char *s, size_t len)`. -/
def constructBuf (s : Store) (str : Option Mem) (len : Nat) : Store × Nat :=
  match str with
  | some m =>
    let (s, p) := s.alloc (StringData.ofBuf (some m) len)
    s.newObject p
  | none =>
    let (s, p) := s.alloc StringData.empty
    s.newObject p

/-- `SafeString::SafeString(size_t len)`. -/
def constructLen (s : Store) (len : Nat) : Store × Nat :=
  let (s, p) := s.alloc (StringData.ofBuf none len)
  s.newObject p

/-- `SafeString::SafeString(const SafeString &other)`. -/
def copy (s : Store) (other : Nat) : Except MemFault (Store × Nat) := do
  let p ← s.pData other
  let sd ← s.deref p
  let s := s.setBlock p (some { sd with refCount := sd.refCount + 1 })
  pure (s.newObject p)

/-- The statement `if (--pData->refCount == 0) delete pData;` for `pData = p`. -/
def release (s : Store) (p : Nat) : Except MemFault Store := do
  let sd ← s.deref p
  let refCount := sd.refCount - 1
  if refCount = 0 then
    pure (s.setBlock p none)
  else
    pure (s.setBlock p (some { sd with refCount := refCount }))

/-- `SafeString::~SafeString()`; the object `this` is gone afterwards. -/
def destroy (s : Store) (this : Nat) : Except MemFault Store := do
  let p ← s.pData this
  let s ← s.release p
  pure { s with handles := s.handles.set this none }

/-- `SafeString::operator=`. -/
def assign (s : Store) (this other : Nat) : Except MemFault Store := do
  -- Check for self-assignment
  if this = other then
    pure s
  else
    -- Decrement the old reference count
    let p ← s.pData this
    let s ← s.release p
    -- Point to the new data and increment its reference count
    let q ← s.pData other
    let sd ← s.deref q
    let s := s.setBlock q (some { sd with refCount := sd.refCount + 1 })
    pure { s with handles := s.handles.set this (some q) }

/-- `SafeString::detach`. -/
def detach (s : Store) (this : Nat) : Except MemFault Store := do
  let p ← s.pData this
  let sd ← s.deref p
  if sd.refCount > 1 then
    let (s, newData) := s.alloc (StringData.ofBuf (sd.data.map Mem.ofList) sd.length)
    let s := s.setBlock p (some { sd with refCount := sd.refCount - 1 })
    pure { s with handles := s.handles.set this (some newData) }
  else
    pure s

/-- Read through a `char &`. -/
def load (s : Store) : CharRef → Except MemFault Byte
  | .EmptyChar => pure s.EmptyChar
  | .cell p index => do
    let sd ← s.deref p
    match sd.data with
    | none => throw MemFault.nullPointer
    | some d => if h : index < d.length then pure (d.get ⟨index, h⟩) else throw MemFault.outOfStorage

/-- Write through a `char &`. -/
def store (s : Store) (r : CharRef) (v : Byte) : Except MemFault Store :=
  match r with
  | .EmptyChar => pure { s with EmptyChar := v }
  | .cell p index => do
    let sd ← s.deref p
    match sd.data with
    | none => throw MemFault.nullPointer
    | some d =>
      if index < d.length then pure (s.setBlock p (some { sd with data := some (d.set index v) }))
      else throw MemFault.outOfStorage

/-- `char &SafeString::operator[](int index)`: the store and what the returned
reference refers to. -/
def opIndex (s : Store) (this : Nat) (index : Int) : Except MemFault (Store × CharRef) := do
  let p ← s.pData this
  let sd ← s.deref p
  if index < 0 ∨ index.toNat ≥ sd.length then
    pure (s, CharRef.EmptyChar)
  else
    let s ← s.detach this
    let p ← s.pData this
    pure (s, CharRef.cell p index.toNat)

/-- `SafeString::get`: the store and the pointer returned, as the address of
the block whose array it points to (`none` is NULL). -/
def get (s : Store) (this : Nat) : Except MemFault (Store × Option Nat) := do
  let s ← s.detach this
  let p ← s.pData this
  let sd ← s.deref p
  pure (s, sd.data.map (fun _ => p))

/-- The write `ptr[index] = v` through a pointer returned by `get`. -/
def storeAt (s : Store) (ptr : Option Nat) (index : Nat) (v : Byte) : Except MemFault Store :=
  match ptr with
  | none => throw MemFault.nullPointer
  | some p => s.store (CharRef.cell p index) v

/-- `const char &SafeString::operator[](int index) const`: the `char` referred to. -/
def opIndexConst (s : Store) (this : Nat) (index : Int) : Except MemFault Byte := do
  let p ← s.pData this
  let sd ← s.deref p
  if index < 0 ∨ index.toNat > sd.length then
    pure s.EmptyChar
  else
    s.load (CharRef.cell p index.toNat)

/-- `SafeString::c_str`: the array pointed to (`none` is NULL). -/
def c_str (s : Store) (this : Nat) : Except MemFault (Option (List Byte)) := do
  let p ← s.pData this
  let sd ← s.deref p
  pure sd.data

/-- `SafeString::length`. -/
def length (s : Store) (this : Nat) : Except MemFault Nat := do
  let p ← s.pData this
  let sd ← s.deref p
  pure sd.length

/-- `SafeString::getRefCount`. -/
def getRefCount (s : Store) (this : Nat) : Except MemFault Int := do
  let p ← s.pData this
  let sd ← s.deref p
  pure sd.refCount

/-- What `vsnprintf(data, size + 1, fmt, args)` does to the array of the block at
`p` when the formatted text is `text` and `size` its length: it stores the text
and a NUL. -/
def vsnprintf (s : Store) (p : Nat) (text : List Byte) : Except MemFault Store := do
  let sd ← s.deref p
  match sd.data with
  | none => throw MemFault.nullPointer
  | some d =>
    if text.length + 1 ≤ d.length then
      pure (s.setBlock p (some { sd with data := some (text ++ [0] ++ d.drop (text.length + 1)) }))
    else throw MemFault.outOfStorage

/-- `SafeString::Format`.  `text` is what the format and its arguments expand
to; `none` stands for `vsnprintf` reporting an error (`size < 0`). -/
def Format (s : Store) (this : Nat) (text : Option (List Byte)) :
    Except MemFault (Store × Bool) :=
  match text with
  | none => pure (s, false)
  | some text => do
    let size := text.length
    -- Ensure unique copy before modifying
    let s ← s.detach this
    let p ← s.pData this
    let sd ← s.deref p
    if sd.length ≥ size then
      let s ← s.vsnprintf p text
      pure (s, true)
    else
      -- Allocate buffer (+1 for null terminator)
      let (s, temp) := s.constructLen size
      let q ← s.pData temp
      let s ← s.vsnprintf q text
      let s ← s.assign this temp
      let s ← s.destroy temp
      pure (s, true)

/-- `SafeString::operator==`. -/
def opEq (s : Store) (this other : Nat) : Except MemFault Bool := do
  let p ← s.pData this
  let sd ← s.deref p
  let q ← s.pData other
  let od ← s.deref q
  pure (sd.length == od.length &&
    SafeString.memcmp (sd.data.getD []) (od.data.getD []) sd.length == 0)

end Store

/-- One statement of a program that uses `SafeString` objects. -/
inductive Stmt where
  /-- `SafeString x;` -/
  | construct
  /-- `SafeString x(str);` -/
  | constructCStr (str : Option (List Byte))
  /-- `SafeString x(str, len);` -/
  | constructBuf (str : Option Mem) (len : Nat)
  /-- `SafeString x(len);` -/
  | constructLen (len : Nat)
  /-- `SafeString x(other);` -/
  | copy (other : Nat)
  /-- the end of the lifetime of `this` -/
  | destroy (this : Nat)
  /-- `this = other;` -/
  | assign (this other : Nat)
  /-- `this[index];` on a non-const object, nothing written -/
  | opIndex (this : Nat) (index : Int)
  /-- `this.get();` nothing written -/
  | get (this : Nat)
  /-- `this[index] = v;` -/
  | setIndex (this : Nat) (index : Int) (v : Byte)
  /-- `this.get()[index] = v;` -/
  | setGet (this : Nat) (index : Nat) (v : Byte)
  /-- `this.Format(...)` -/
  | Format (this : Nat) (text : Option (List Byte))

namespace Store

/-- The store after one statement. -/
def exec (s : Store) : Stmt → Except MemFault Store
  | .construct => pure s.construct.1
  | .constructCStr str => pure (s.constructCStr str).1
  | .constructBuf str len => pure (s.constructBuf str len).1
  | .constructLen len => pure (s.constructLen len).1
  | .copy other => do
    let (s, _) ← s.copy other
    pure s
  | .destroy this => s.destroy this
  | .assign this other => s.assign this other
  | .opIndex this index => do
    let (s, _) ← s.opIndex this index
    pure s
  | .get this => do
    let (s, _) ← s.get this
    pure s
  | .setIndex this index v => do
    let (s, r) ← s.opIndex this index
    s.store r v
  | .setGet this index v => do
    let (s, ptr) ← s.get this
    s.storeAt ptr index v
  | .Format this text => do
    let (s, _) ← s.Format this text
    pure s

/-- The store after a sequence of statements. -/
def run (s : Store) : List Stmt → Except MemFault Store
  | [] => pure s
  | c :: rest => do
    let s ← s.exec c
    s.run rest

/-- The number of live `SafeString` objects whose `pData` is `p`. -/
def handleCount (s : Store) (p : Nat) : Nat := s.handles.count (some p)

/-- Every allocated block has an address below `next`, a well-formed array and
a reference count that is at least 1 and equals the number of live objects
pointing to it; no live object points to an address without a block. -/
structure Valid (s : Store) : Prop where
  fresh : ∀ p, s.next ≤ p → s.blocks p = none
  freed : ∀ p, s.blocks p = none → s.handleCount p = 0
  counted : ∀ p sd, s.blocks p = some sd →
    sd.refCount = (s.handleCount p : Int) ∧ 1 ≤ sd.refCount ∧ sd.WellFormed

end Store

/-- What a write of `v` at `index` through the object `a` leaves to be seen,
compared with the store `s` before it: another object `b` has the length, the
array and every indexed read it had; `a` has the length it had, reads `v` at
`index`, and reads what it read before at every other index in range. -/
def Store.WroteThrough (s s3 : Store) (a b : Nat) (index : Int) (v : Byte) : Prop :=
  s3.length b = s.length b ∧ s3.c_str b = s.c_str b ∧
    (∀ j : Int, s3.opIndexConst b j = s.opIndexConst b j) ∧
    s3.length a = s.length a ∧ s3.opIndexConst a index = .ok v ∧
    ∀ (j : Int) (n : Nat), s.length a = .ok n → 0 ≤ j → j < n → j ≠ index →
      s3.opIndexConst a j = s.opIndexConst a j

/-! ## Concrete inputs -/

/-- Payload of a received-record request: callsign "G8KIG-0", frequency
14031000 Hz (little-endian), SNR -10 dB. -/
def demoSpot : Mem :=
  Mem.ofList [7, 0x47, 0x38, 0x4B, 0x49, 0x47, 0x2D, 0x30, 0x98, 0x18, 0xD6, 0x00, 0xF6]

/-- Payload with the callsign of `demoSpot` and another frequency and SNR. -/
def demoSpotAgain : Mem :=
  Mem.ofList [7, 0x47, 0x38, 0x4B, 0x49, 0x47, 0x2D, 0x30, 0x40, 0x42, 0x0F, 0x00, 0x05]

/-- Payload with another callsign, "M0XYZ": frequency 1000000 Hz, SNR 5 dB. -/
def demoOtherSpot : Mem :=
  Mem.ofList [5, 0x4D, 0x30, 0x58, 0x59, 0x5A, 0x40, 0x42, 0x0F, 0x00, 0x05]

/-- Payload of a sender-record request: callsign "G8KIG", grid "IO91iq". -/
def demoSender : Mem :=
  Mem.ofList [5, 0x47, 0x38, 0x4B, 0x49, 0x47, 6, 0x49, 0x4F, 0x39, 0x31, 0x69, 0x71]

/-- Payload of a sender-software request: "Test". -/
def demoSoftware : Mem := Mem.ofList [4, 0x54, 0x65, 0x73, 0x74]

/-- An aggregator with identity set and one pending record. -/
def demoPending : PskReporter :=
  (((((PskReporter.new 0xDEADBEEF true).createSenderRecord (some demoSender)).1
    |>.createSenderSoftwareRecord (some demoSoftware)).1
    |>.addReceivedRecord 1700000000 (some demoSpot)).1)

/-- Collaborators of `send` with the network up and the write accepted. -/
def envOnline : Env :=
  { wifiConnected := true, wifiSta := true, allocOk := true, time := 1700000005, udpWritten := 156 }

/-- Collaborators of `send` with WiFi not connected. -/
def envOffline : Env := { envOnline with wifiConnected := false, udpWritten := 0 }

/-- An aggregator whose callsign has 255 bytes, whose grid locator is empty and
whose decoding software is 255 NUL bytes. -/
def demoExtreme : PskReporter :=
  { PskReporter.new 1 false with
    reporterCallsign := ⟨List.replicate 255 0x41⟩
    reporterGridSquare := ⟨[]⟩
    decodingSoftware := ⟨List.replicate 255 0x00⟩ }

/-- Three rounds of one received record followed by a `send` with the network
up, on top of the identity requests. -/
def demoRounds : List Call :=
  [ .createSenderRecord (some demoSender),
    .createSenderSoftwareRecord (some demoSoftware),
    .addReceivedRecord 1700000000 (some demoSpot),
    .send envOnline,
    .addReceivedRecord 1700000300 (some demoSpot),
    .addReceivedRecord 1700000301 (some demoSpotAgain),
    .send { envOnline with time := 1700000305 },
    .createSenderRecord none,
    .addReceivedRecord 1700000600 (some demoSpotAgain),
    .send { envOnline with time := 1700000605 } ]

/-- Forty-one received-record requests with the one-byte callsigns
`A`, `B`, ... (0x41 + i), made one second apart. -/
def demoBurst : List (Nat × Mem) :=
  (List.range 41).map (fun i => (1700000000 + i, Mem.ofList [1, toByte (0x41 + i), 0, 0, 0, 0, 0]))

/-- The characters of "G8KIG". -/
def demoCallsign : List Byte := [0x47, 0x38, 0x4B, 0x49, 0x47]

/-- The characters of "IO91iq". -/
def demoGrid : List Byte := [0x49, 0x4F, 0x39, 0x31, 0x69, 0x71]

/-- The characters of "Test". -/
def demoSoftwareName : List Byte := [0x54, 0x65, 0x73, 0x74]

/-- The characters of "G8KIG-0". -/
def demoSpotCallsign : List Byte := [0x47, 0x38, 0x4B, 0x49, 0x47, 0x2D, 0x30]

/-- A request with the bytes `bytes` as payload. -/
def demoRequest (operation : I2COperation) (bytes : List Byte) : Request :=
  { operation := operation, buffer := some (Mem.ofList bytes), bufferSize := bytes.length }

/-- A send request: no payload. -/
def demoSendRequest : Request :=
  { operation := I2COperation.OP_SEND_REQUEST, buffer := none, bufferSize := 0 }

/-- A sender record is queued and processed, then a send request is queued: it
gets the slot the sender record had. -/
def demoReuse : List QueueCall :=
  [ .add (demoRequest I2COperation.OP_SENDER_RECORD [0x41, 0x42, 0x43]),
    .process,
    .add demoSendRequest ]

/-- Twenty-three received-record requests in a row. -/
def demoFlood : List Request :=
  (List.range 23).map (fun i => demoRequest I2COperation.OP_RECEIVER_RECORD [1, toByte (0x41 + i)])

/-- A sender record and a received record are queued, one item is processed and
a send request is queued: the received record and the send request wait. -/
def demoBacklog : List QueueCall :=
  [ .add (demoRequest I2COperation.OP_SENDER_RECORD [5, 0x47, 0x38, 0x4B, 0x49, 0x47, 0]),
    .add (demoRequest I2COperation.OP_RECEIVER_RECORD [1, 0x41, 0, 0, 0, 0, 0]),
    .process,
    .add demoSendRequest ]

/-- Producer and consumer taking turns. -/
def demoTraffic : List QueueCall :=
  [ .add (demoRequest I2COperation.OP_SENDER_RECORD [5, 0x47, 0x38, 0x4B, 0x49, 0x47, 0]),
    .add (demoRequest I2COperation.OP_RECEIVER_RECORD [1, 0x41, 0, 0, 0, 0, 0]),
    .process,
    .add demoSendRequest,
    .process,
    .process,
    .process ]

/-- A slot array whose slots 0 and 1 are ALLOCATED and whose other slots are FREE. -/
def demoSlots : WorkItems := fun i =>
  { state := if i.val < 2 then WorkItemState.ITEM_ALLOCATED else WorkItemState.ITEM_FREE
    operation := I2COperation.OP_RECEIVER_RECORD
    buffer := List.replicate BUFFER_SIZE 0x55 }

/-- A queue whose twenty slots are all ALLOCATED and waiting. -/
def demoFull : WorkQueue :=
  { workItems := fun _ =>
      { state := WorkItemState.ITEM_ALLOCATED
        operation := I2COperation.OP_SEND_REQUEST
        buffer := List.replicate BUFFER_SIZE 0 }
    workQueue := List.range 20 }

/-- A queue with slots 0 and 1 waiting, slot 1 first. -/
def demoWaiting : WorkQueue := { workItems := demoSlots, workQueue := [1, 0] }

/-- Forty received-record slot buffers of 32 bytes, each a 31-byte request
zero-filled: a 25-byte callsign (24 times `A` and a last character `0` + i),
the frequency 14031000 and the SNR -10 dB, made one second apart. -/
def demoLongSpots : List (Nat × Mem) :=
  (List.range 40).map (fun i => (1700000000 + i,
    Mem.ofList (25 :: (List.replicate 24 0x41 ++
      [toByte (0x30 + i), 0x98, 0x18, 0xD6, 0x00, 0xF6, 0x00]))))

/-- The C string "hello". -/
def demoHello : List Byte := [0x68, 0x65, 0x6C, 0x6C, 0x6F, 0x00]

/-- The characters of "hi". -/
def demoHi : List Byte := [0x68, 0x69]

/-- A store with one `SafeString`, object 0, constructed from "hello". -/
def demoShared : Store := (Store.init.constructCStr (some demoHello)).1

/-- A store with one default-constructed `SafeString`, object 0. -/
def demoDefault : Store := Store.init.construct.1

/-- A program that constructs, copies, assigns, writes, formats and destroys. -/
def demoProgram : List Stmt :=
  [ .constructCStr (some demoHello),
    .construct,
    .copy 0,
    .assign 1 0,
    .assign 1 1,
    .assign 2 1,
    .setIndex 1 0 0x48,
    .setIndex 1 9 0x21,
    .opIndex 0 2,
    .get 1,
    .constructBuf (some (Mem.ofList demoHi)) 2,
    .constructLen 3,
    .setGet 4 3 0x7A,
    .Format 2 (some demoHi),
    .Format 3 (some demoHello),
    .Format 0 none,
    .destroy 0,
    .destroy 2,
    .copy 1 ]

/-- The store after `demoProgram`. -/
def demoFinal : Store :=
  match Store.init.run demoProgram with
  | .ok s => s
  | .error _ => Store.init

/-- A `SafeString` constructed from "hello", object 0, and a copy of it, object 1. -/
def demoCopyProgram : List Stmt := [.constructCStr (some demoHello), .copy 0]

/-- The store after `demoCopyProgram`. -/
def demoCopied : Store :=
  match Store.init.run demoCopyProgram with
  | .ok s => s
  | .error _ => Store.init

/-! ## Lemmas: SafeString equality and the duplicate check -/

open PskReporter

theorem SafeString.memcmp_eq_zero_iff (a b : List Byte) (h : a.length = b.length) :
    SafeString.memcmp a b a.length = 0 ↔ a = b := by
  induction a generalizing b with
  | nil =>
    cases b with
    | nil => simp [SafeString.memcmp]
    | cons y ys => simp at h
  | cons x xs ih =>
    cases b with
    | nil => simp at h
    | cons y ys =>
      simp only [List.length_cons, Nat.add_right_cancel_iff] at h
      by_cases hxy : x = y
      · subst hxy
        simp [SafeString.memcmp, ih ys h]
      · have hv : (x.val : Int) - (y.val : Int) ≠ 0 := by
          intro h0
          apply hxy
          apply Fin.ext
          omega
        simp [SafeString.memcmp, hxy, hv]

theorem SafeString.opEq_iff (s t : SafeString) : s.opEq t = true ↔ s = t := by
  cases s with
  | mk a =>
    cases t with
    | mk b =>
      simp only [SafeString.opEq, SafeString.length, Bool.and_eq_true, beq_iff_eq,
        SafeString.mk.injEq]
      constructor
      · rintro ⟨hl, hm⟩
        exact (SafeString.memcmp_eq_zero_iff a b hl).1 hm
      · intro hab
        subst hab
        exact ⟨rfl, (SafeString.memcmp_eq_zero_iff a a rfl).2 rfl⟩

theorem alreadyLoggedLoop_iff (c : SafeString) (l : List ReceivedRecord) :
    alreadyLoggedLoop c l = true ↔ c ∈ l.map (fun r => r.callsign) := by
  induction l with
  | nil => simp [alreadyLoggedLoop]
  | cons item rest ih =>
    by_cases h : item.callsign.opEq c = true
    · have h2 := (SafeString.opEq_iff _ _).1 h
      have h3 : alreadyLoggedLoop c (item :: rest) = true := by
        simp only [alreadyLoggedLoop, h, if_true]
      simp [h3, h2]
    · have h2 : ¬ c = item.callsign := fun e => h ((SafeString.opEq_iff _ _).2 e.symm)
      simp [alreadyLoggedLoop, h, h2, ih]

/-! ## Lemmas: the pending list across `send` and `addReceivedRecord` -/

theorem send_recordList_eq (self : PskReporter) (env : Env) :
    (self.send env).self.recordList =
      if env.wifiConnected && env.wifiSta && env.allocOk then [] else self.recordList := by
  unfold PskReporter.send
  cases hl : self.recordList <;> cases env.wifiConnected <;> cases env.wifiSta <;>
    cases env.allocOk <;> simp [hl, apply_ite SendResult.self]

theorem addReceivedRecord_some (self : PskReporter) (now : Nat) (buf : Mem) :
    self.addReceivedRecord now (some buf) =
      if self.recordList.length < 40 ∧
          payloadCallsign buf ∉ self.recordList.map (fun r => r.callsign) then
        ({ self with
            recordList := self.recordList ++
              [ReceivedRecord.new (payloadCallsign buf) (payloadFrequency buf)
                (payloadSnr buf) now] }, true)
      else (self, false) := by
  have hlog : self.alreadyLogged (payloadCallsign buf) = true ↔
      payloadCallsign buf ∈ self.recordList.map (fun r => r.callsign) := by
    unfold PskReporter.alreadyLogged
    exact alreadyLoggedLoop_iff _ _
  by_cases hc : self.recordList.length < 40
  · by_cases hm : payloadCallsign buf ∈ self.recordList.map (fun r => r.callsign)
    · have hl := hlog.2 hm
      simp only [payloadCallsign] at hl
      rw [if_neg (by simp only [hm, not_true_eq_false, and_false, not_false_eq_true])]
      simp [PskReporter.addReceivedRecord, hl]
    · have hl : self.alreadyLogged (payloadCallsign buf) = false := by
        cases h : self.alreadyLogged (payloadCallsign buf) with
        | false => rfl
        | true => exact absurd (hlog.1 h) hm
      simp only [payloadCallsign] at hl
      rw [if_pos ⟨hc, hm⟩]
      simp [PskReporter.addReceivedRecord, hl, PSK_MAX_RECORDS, hc, payloadCallsign,
        payloadFrequency, payloadSnr]
  · rw [if_neg (fun h => hc h.1)]
    simp [PskReporter.addReceivedRecord, PSK_MAX_RECORDS, hc]

theorem addReceivedRecord_full (self : PskReporter) (now : Nat) (encodedBuf : Option Mem)
    (h : self.recordList.length = 40) : self.addReceivedRecord now encodedBuf = (self, false) := by
  cases encodedBuf with
  | none => rfl
  | some buf =>
    rw [addReceivedRecord_some, if_neg]
    omega

theorem addReceivedRecords_append (self : PskReporter) (a b : List (Nat × Mem)) :
    self.addReceivedRecords (a ++ b) =
      (((self.addReceivedRecords a).1.addReceivedRecords b).1,
        (self.addReceivedRecords a).2 ++ ((self.addReceivedRecords a).1.addReceivedRecords b).2) := by
  induction a generalizing self with
  | nil => simp [PskReporter.addReceivedRecords]
  | cons c rest ih =>
    obtain ⟨now, buf⟩ := c
    rw [List.cons_append]
    simp only [PskReporter.addReceivedRecords]
    rw [ih]
    rfl

theorem addReceivedRecords_fresh (calls : List (Nat × Mem)) (self : PskReporter)
    (hnd : (calls.map (fun c => payloadCallsign c.2)).Nodup)
    (hdisj : ∀ c ∈ calls, payloadCallsign c.2 ∉ self.recordList.map (fun r => r.callsign))
    (hcap : self.recordList.length + calls.length ≤ 40) :
    (self.addReceivedRecords calls).2 = List.replicate calls.length true ∧
      (self.addReceivedRecords calls).1.recordList.map (fun r => r.callsign) =
        self.recordList.map (fun r => r.callsign) ++ calls.map (fun c => payloadCallsign c.2) := by
  induction calls generalizing self with
  | nil => simp [PskReporter.addReceivedRecords]
  | cons c rest ih =>
    obtain ⟨now, buf⟩ := c
    simp only [List.map_cons, List.nodup_cons, List.mem_map, not_exists, not_and] at hnd
    simp only [List.length_cons] at hcap
    have hfresh := hdisj (now, buf) (List.mem_cons_self _ _)
    have hstep := addReceivedRecord_some self now buf
    rw [if_pos ⟨by omega, hfresh⟩] at hstep
    have hrec := ih (self.addReceivedRecord now (some buf)).1 hnd.2
      (by
        intro c hc
        rw [hstep]
        simp only [List.map_append, List.map_cons, List.map_nil, List.mem_append,
          List.mem_singleton, ReceivedRecord.new, not_or]
        refine ⟨hdisj c (List.mem_cons_of_mem _ hc), ?_⟩
        intro heq
        exact hnd.1 c hc heq)
      (by rw [hstep]; simp only [List.length_append, List.length_singleton]; omega)
    simp only [PskReporter.addReceivedRecords, List.length_cons, List.replicate_succ,
      List.map_cons]
    refine ⟨?_, ?_⟩
    · rw [hrec.1, hstep]
    · rw [hrec.2, hstep]
      simp [ReceivedRecord.new]

theorem step_preserves_pending (self : PskReporter) (c : Call)
    (hlen : self.recordList.length ≤ 40)
    (hnd : (self.recordList.map (fun r => r.callsign)).Nodup) :
    (self.step c).recordList.length ≤ 40 ∧
      ((self.step c).recordList.map (fun r => r.callsign)).Nodup := by
  cases c with
  | createSenderRecord b =>
    cases b with
    | none => exact ⟨hlen, hnd⟩
    | some buf => exact ⟨hlen, hnd⟩
  | createSenderSoftwareRecord b =>
    cases b with
    | none => exact ⟨hlen, hnd⟩
    | some buf => exact ⟨hlen, hnd⟩
  | addReceivedRecord now b =>
    cases b with
    | none => exact ⟨hlen, hnd⟩
    | some buf =>
      simp only [PskReporter.step]
      rw [addReceivedRecord_some]
      split
      · next h =>
        refine ⟨?_, ?_⟩
        · simp only [List.length_append, List.length_singleton]
          omega
        · simp only [List.map_append, List.map_cons, List.map_nil]
          rw [List.nodup_append]
          refine ⟨hnd, List.nodup_singleton _, ?_⟩
          intro a ha hb
          simp only [List.mem_singleton] at hb
          subst hb
          exact h.2 ha
      · exact ⟨hlen, hnd⟩
  | send env =>
    simp only [PskReporter.step]
    rw [send_recordList_eq]
    split
    · simp
    · exact ⟨hlen, hnd⟩

theorem run_preserves_pending (calls : List Call) (self : PskReporter)
    (hlen : self.recordList.length ≤ 40)
    (hnd : (self.recordList.map (fun r => r.callsign)).Nodup) :
    (self.run calls).recordList.length ≤ 40 ∧
      ((self.run calls).recordList.map (fun r => r.callsign)).Nodup := by
  induction calls generalizing self with
  | nil => exact ⟨hlen, hnd⟩
  | cons c rest ih =>
    have h := step_preserves_pending self c hlen hnd
    exact ih (self.step c) h.1 h.2

/-! ## Lemmas: padding, cursor writes and the encoders -/

theorem land_mask_eq (x : Nat) (h : x < 2 ^ 32) : x &&& 0xfffffffc = x / 4 * 4 := by
  apply Nat.eq_of_testBit_eq
  intro i
  have hm : (0xfffffffc : Nat) = (2 ^ 30 - 1) <<< 2 := by decide
  have hx : x / 4 * 4 = (x >>> 2) <<< 2 := by
    rw [Nat.shiftLeft_eq, Nat.shiftRight_eq_div_pow]
  rw [hx, Nat.testBit_land, hm, Nat.testBit_shiftLeft, Nat.testBit_shiftLeft,
    Nat.testBit_two_pow_sub_one, Nat.testBit_shiftRight]
  by_cases h2 : 2 ≤ i
  · have e : 2 + (i - 2) = i := by omega
    rw [e]
    by_cases h30 : i - 2 < 30
    · simp [h2, h30]
    · have hf : x.testBit i = false := by
        apply Nat.testBit_lt_two_pow
        calc x < 2 ^ 32 := h
          _ ≤ 2 ^ i := Nat.pow_le_pow_right (by decide) (by omega)
      simp [hf]
  · simp [h2]

theorem pad4_eq (n : Nat) (h : n + 3 < 2 ^ 32) : pad4 n = (n + 3) / 4 * 4 := by
  unfold pad4
  rw [Nat.mod_eq_of_lt h]
  exact land_mask_eq _ h

theorem pad4_bounds (n : Nat) (h : n + 3 < 2 ^ 32) :
    pad4 n % 4 = 0 ∧ n ≤ pad4 n ∧ pad4 n < n + 4 := by
  rw [pad4_eq n h]
  omega

theorem writeLengthPrefixedString_eq (buf : List Byte) (str : SafeString) :
    writeLengthPrefixedString buf str = buf ++ toByte str.length :: str.data := by
  simp [writeLengthPrefixedString, SafeString.length, SafeString.c_str]

theorem encode_eq (r : ReceivedRecord) (bufIn : List Byte) :
    r.encode bufIn = (bufIn ++ (r.encode []).1, (r.encode []).1.length) := by
  simp only [ReceivedRecord.encode, writeLengthPrefixedString_eq, List.nil_append,
    List.length_nil, Nat.sub_zero, List.append_assoc, List.cons_append, List.length_append,
    List.length_cons, Prod.mk.injEq, true_and]
  omega

theorem encode_length (r : ReceivedRecord) :
    (r.encode []).1.length = 12 + r.callsign.length + r.mode.length := by
  simp only [ReceivedRecord.encode, writeLengthPrefixedString_eq, List.nil_append,
    List.length_append, List.length_cons, htonl, List.length_nil, SafeString.length]
  omega

theorem encodeLoop_eq (recs : List ReceivedRecord) (buf : List Byte) (size : Nat) :
    encodeLoop recs buf size =
      (buf ++ (recs.map (fun r => (r.encode []).1)).flatten,
        size + ((recs.map (fun r => (r.encode []).1)).flatten).length) := by
  induction recs generalizing buf size with
  | nil => simp [encodeLoop]
  | cons r rest ih =>
    simp only [encodeLoop]
    rw [encode_eq r buf]
    simp only [ih, List.map_cons, List.flatten_cons, List.append_assoc, List.length_append,
      Prod.mk.injEq, true_and]
    omega

theorem poke_two (a b c d x y : Byte) (rest : List Byte) :
    poke (a :: b :: c :: d :: rest) 2 [x, y] = a :: b :: x :: y :: rest := by
  simp [poke]

theorem region_eq (out : List Byte) (size : Nat) (h : out.length ≤ size) :
    region out size = out ++ List.replicate (size - out.length) 0 := by
  unfold region
  apply List.take_of_length_le
  simp only [List.length_append, List.length_replicate]
  omega

theorem region_length (out : List Byte) (size : Nat) : (region out size).length = size := by
  unfold region
  simp only [List.length_take, List.length_append, List.length_replicate]
  omega

theorem poke_length (bytes buf : List Byte) (off : Nat) : (poke buf off bytes).length = buf.length := by
  induction bytes generalizing buf off with
  | nil => rfl
  | cons b bs ih => simp [poke, ih]

theorem encodeReporterRecord_eq (self : PskReporter) :
    self.encodeReporterRecord =
      (0x99 :: 0x92 :: (htons (pad4 (7 + self.reporterCallsign.length
            + self.reporterGridSquare.length + self.decodingSoftware.length) % 2 ^ 16) ++
        (toByte self.reporterCallsign.length :: self.reporterCallsign.data ++
          (toByte self.reporterGridSquare.length :: self.reporterGridSquare.data ++
            (toByte self.decodingSoftware.length :: self.decodingSoftware.data)))),
        pad4 (7 + self.reporterCallsign.length + self.reporterGridSquare.length
          + self.decodingSoftware.length)) := by
  have hlen : ([0x99, 0x92] ++ [0, 0] ++
      (toByte self.reporterCallsign.length :: self.reporterCallsign.data) ++
      (toByte self.reporterGridSquare.length :: self.reporterGridSquare.data) ++
      (toByte self.decodingSoftware.length :: self.decodingSoftware.data) : List Byte).length =
      7 + self.reporterCallsign.length + self.reporterGridSquare.length
        + self.decodingSoftware.length := by
    simp only [List.length_append, List.length_cons, List.length_nil, SafeString.length]
    omega
  simp only [PskReporter.encodeReporterRecord, writeLengthPrefixedString_eq, hlen]
  simp only [htons, List.cons_append, List.nil_append, List.append_assoc, poke_two]

theorem encodeReceivedRecords_eq (self : PskReporter) (hne : self.recordList ≠ []) :
    self.encodeReceivedRecords =
      (0x99 :: 0x93 :: (htons (pad4 (4 + ((self.recordList.map
            (fun r => (r.encode []).1)).flatten).length) % 2 ^ 16) ++
          (self.recordList.map (fun r => (r.encode []).1)).flatten),
        pad4 (4 + ((self.recordList.map (fun r => (r.encode []).1)).flatten).length)) := by
  have he : self.recordList.isEmpty = false := by
    cases h : self.recordList with
    | nil => exact absurd h hne
    | cons a l => rfl
  simp only [PskReporter.encodeReceivedRecords, he, encodeLoop_eq]
  simp only [htons, List.cons_append, List.nil_append, List.append_assoc, poke_two,
    Bool.false_eq_true, if_false]

theorem send_eq_of_guard (self : PskReporter) (env : Env) (hne : self.recordList ≠ [])
    (hc : env.wifiConnected = true) (hs : env.wifiSta = true) (ha : env.allocOk = true) :
    self.send env =
      if 104 + self.encodeReporterRecord.2 + self.encodeReceivedRecords.2
          ≤ MAX_BUFFER_SIZE + 1 then
        ⟨{ self with
            currentSequenceNumber := (self.currentSequenceNumber + 1) % 2 ^ 32
            recordList := [] },
          env.udpWritten != 0,
          some ⟨if self.testMode then PSK_REPORTER_TEST_PORT else PSK_REPORTER_PORT,
            0x00 :: 0x0A :: (htons ((104 + self.encodeReporterRecord.2
                + self.encodeReceivedRecords.2) % 2 ^ 16) ++
              (htonl (env.time % 2 ^ 32) ++ (htonl self.currentSequenceNumber ++
                (htonl self.randomIdentifier ++ (rxFormatHeader ++ (txFormatHeader ++
                  (region self.encodeReporterRecord.1 self.encodeReporterRecord.2 ++
                    region self.encodeReceivedRecords.1
                      self.encodeReceivedRecords.2)))))))⟩, false⟩
      else
        ⟨{ self with
            currentSequenceNumber := (self.currentSequenceNumber + 1) % 2 ^ 32
            recordList := [] },
          env.udpWritten != 0, none, true⟩ := by
  have hpos : self.recordList.length > 0 := List.length_pos.2 hne
  have he : self.recordList.isEmpty = false := by
    cases h : self.recordList with
    | nil => exact absurd h hne
    | cons a l => rfl
  have hrep : ∀ n : Nat, PskReporter.encodeReporterRecord
      { self with currentSequenceNumber := n } = self.encodeReporterRecord := fun _ => rfl
  have hrec : ∀ n : Nat, PskReporter.encodeReceivedRecords
      { self with currentSequenceNumber := n } = self.encodeReceivedRecords := fun _ => rfl
  unfold PskReporter.send
  simp only [hpos, hc, hs, ha, he, hrep, hrec, decide_True, Bool.and_self, Bool.not_true,
    Bool.not_false, if_true, Bool.false_eq_true, if_false]
  have hlenP : ([0, 10] ++ [0, 0] ++ htonl (env.time % 2 ^ 32) ++ htonl self.currentSequenceNumber ++
      htonl self.randomIdentifier ++ rxFormatHeader ++ txFormatHeader ++
      region self.encodeReporterRecord.1 self.encodeReporterRecord.2 ++
      region self.encodeReceivedRecords.1 self.encodeReceivedRecords.2 : List Byte).length =
      104 + self.encodeReporterRecord.2 + self.encodeReceivedRecords.2 := by
    simp only [List.length_append, List.length_cons, List.length_nil, htonl, rxFormatHeader,
      txFormatHeader, region_length]
  rw [hlenP, List.take_of_length_le (by rw [poke_length, hlenP])]
  simp only [htons, htonl, List.cons_append, List.nil_append, List.append_assoc, poke_two]

/-! ## Lemmas: the packet of `send` -/

theorem send_result_true (self : PskReporter) (env : Env) (h : (self.send env).result = true) :
    self.recordList ≠ [] ∧ env.wifiConnected = true ∧ env.wifiSta = true ∧
      env.allocOk = true := by
  unfold PskReporter.send at h
  cases hl : self.recordList with
  | nil => simp [hl] at h
  | cons a l =>
    cases hc : env.wifiConnected <;> cases hs : env.wifiSta <;> cases ha : env.allocOk <;>
      simp [hl, hc, hs, ha, apply_ite SendResult.result] at h ⊢

theorem send_fit_of_not_overrun (self : PskReporter) (env : Env) (hne : self.recordList ≠ [])
    (hc : env.wifiConnected = true) (hs : env.wifiSta = true) (ha : env.allocOk = true)
    (h : (self.send env).overrun = false) :
    104 + self.encodeReporterRecord.2 + self.encodeReceivedRecords.2 ≤ MAX_BUFFER_SIZE + 1 := by
  by_contra hcon
  rw [send_eq_of_guard self env hne hc hs ha, if_neg hcon] at h
  exact Bool.noConfusion h

theorem send_eq_of_ok (self : PskReporter) (env : Env) (hok : (self.send env).result = true)
    (hfit : (self.send env).overrun = false) :
    104 + self.encodeReporterRecord.2 + self.encodeReceivedRecords.2 ≤ MAX_BUFFER_SIZE + 1 ∧
    self.send env =
      ⟨{ self with
          currentSequenceNumber := (self.currentSequenceNumber + 1) % 2 ^ 32
          recordList := [] },
        env.udpWritten != 0,
        some ⟨if self.testMode then PSK_REPORTER_TEST_PORT else PSK_REPORTER_PORT,
          0x00 :: 0x0A :: (htons ((104 + self.encodeReporterRecord.2
              + self.encodeReceivedRecords.2) % 2 ^ 16) ++
            (htonl (env.time % 2 ^ 32) ++ (htonl self.currentSequenceNumber ++
              (htonl self.randomIdentifier ++ (rxFormatHeader ++ (txFormatHeader ++
                (region self.encodeReporterRecord.1 self.encodeReporterRecord.2 ++
                  region self.encodeReceivedRecords.1 self.encodeReceivedRecords.2)))))))⟩,
        false⟩ := by
  obtain ⟨hne, hc, hs, ha⟩ := send_result_true self env hok
  have hsize := send_fit_of_not_overrun self env hne hc hs ha hfit
  exact ⟨hsize, by rw [send_eq_of_guard self env hne hc hs ha, if_pos hsize]⟩

theorem toByte_val (n : Nat) : (toByte n).val = n % 256 := rfl

theorem toUInt32_lt (i : Int) : toUInt32 i < 2 ^ 32 := by
  unfold toUInt32
  omega

theorem toUInt32_toInt32 (x : Nat) : toUInt32 (toInt32 x) = x % 2 ^ 32 := by
  unfold toUInt32 toInt32
  split <;> omega

theorem toInt32_of_lt (x : Nat) (h : x < 2 ^ 31) : toInt32 x = (x : Int) := by
  unfold toInt32
  have e : x % 2 ^ 32 = x := Nat.mod_eq_of_lt (by omega)
  rw [e, if_pos h]

theorem encoded_length_le (recs : List ReceivedRecord)
    (h : ∀ r ∈ recs, r.callsign.length ≤ 255 ∧ r.mode.length ≤ 255) :
    ((recs.map (fun r => (r.encode []).1)).flatten).length ≤ 522 * recs.length := by
  induction recs with
  | nil => simp
  | cons r rest ih =>
    have hr := h r (List.mem_cons_self _ _)
    have hrest := ih (fun x hx => h x (List.mem_cons_of_mem _ hx))
    simp only [List.map_cons, List.flatten_cons, List.length_append, List.length_cons,
      encode_length]
    omega

theorem encoded_length_sum (recs : List ReceivedRecord) :
    ((recs.map (fun r => (r.encode []).1)).flatten).length =
      (recs.map (fun r => 12 + r.callsign.length + r.mode.length)).sum := by
  induction recs with
  | nil => simp
  | cons r rest ih =>
    simp only [List.map_cons, List.flatten_cons, List.length_append, encode_length,
      List.sum_cons, ih]

theorem reporter_size_bound (self : PskReporter) (hb : self.Bounded) :
    self.encodeReporterRecord.2 ≤ 772 := by
  obtain ⟨h1, h2, h3, -, -⟩ := hb
  rw [encodeReporterRecord_eq]
  have hp := pad4_eq (7 + self.reporterCallsign.length + self.reporterGridSquare.length
    + self.decodingSoftware.length) (by omega)
  simp only [hp]
  omega

theorem received_size_bound (self : PskReporter) (hb : self.Bounded) :
    self.encodeReceivedRecords.2 ≤ 20884 := by
  obtain ⟨-, -, -, h4, h5⟩ := hb
  by_cases hne : self.recordList = []
  · simp [PskReporter.encodeReceivedRecords, hne]
  · rw [encodeReceivedRecords_eq self hne]
    have hl := encoded_length_le self.recordList h5
    simp only [PSK_MAX_RECORDS] at h4
    have hp := pad4_eq (4 + ((self.recordList.map (fun r => (r.encode []).1)).flatten).length)
      (by omega)
    simp only [hp]
    omega

theorem step_seq_of_not_send (self : PskReporter) :
    (∀ b, (self.createSenderRecord b).1.currentSequenceNumber = self.currentSequenceNumber) ∧
    (∀ b, (self.createSenderSoftwareRecord b).1.currentSequenceNumber
        = self.currentSequenceNumber) ∧
    (∀ now b, (self.addReceivedRecord now b).1.currentSequenceNumber
        = self.currentSequenceNumber) := by
  refine ⟨?_, ?_, ?_⟩
  · intro b
    cases b <;> rfl
  · intro b
    cases b <;> rfl
  · intro now b
    cases b with
    | none => rfl
    | some buf =>
      rw [addReceivedRecord_some]
      split <;> rfl

theorem send_seq_field (self : PskReporter) (env : Env) (hok : (self.send env).result = true)
    (hfit : (self.send env).overrun = false) :
    (self.send env).self.currentSequenceNumber = (self.currentSequenceNumber + 1) % 2 ^ 32 ∧
      ∃ d, (self.send env).datagram = some d ∧
        readBE32 d.data 8 = self.currentSequenceNumber % 2 ^ 32 := by
  rw [(send_eq_of_ok self env hok hfit).2]
  refine ⟨rfl, _, rfl, ?_⟩
  simp only [htons, htonl, readBE32, List.cons_append, List.nil_append, List.getD_cons_succ,
    List.getD_cons_zero, toByte_val]
  omega

theorem send_seq_cases (self : PskReporter) (env : Env) :
    (self.send env).self.currentSequenceNumber = self.currentSequenceNumber ∨
      (self.send env).self.currentSequenceNumber = (self.currentSequenceNumber + 1) % 2 ^ 32 := by
  unfold PskReporter.send
  cases hl : self.recordList <;> cases env.wifiConnected <;> cases env.wifiSta <;>
    cases env.allocOk <;> simp [hl, apply_ite SendResult.self]

theorem run_seq_lt (calls : List Call) (self : PskReporter)
    (hseq : self.currentSequenceNumber < 2 ^ 32) :
    (self.run calls).currentSequenceNumber < 2 ^ 32 := by
  induction calls generalizing self with
  | nil => exact hseq
  | cons c rest ih =>
    have hs := step_seq_of_not_send self
    apply ih
    cases c with
    | createSenderRecord b => simp only [PskReporter.step]; rw [hs.1 b]; exact hseq
    | createSenderSoftwareRecord b => simp only [PskReporter.step]; rw [hs.2.1 b]; exact hseq
    | addReceivedRecord now b => simp only [PskReporter.step]; rw [hs.2.2 now b]; exact hseq
    | send env =>
      simp only [PskReporter.step]
      rcases send_seq_cases self env with h | h
      · rw [h]; exact hseq
      · rw [h]; exact Nat.mod_lt _ (by decide)

theorem sendResults_seq (calls : List Call) (self : PskReporter)
    (hok : ∀ r ∈ self.sendResults calls, r.result = true ∧ r.overrun = false) :
    (∀ (i : Nat) (hi : i < (self.sendResults calls).length),
        ∃ d, ((self.sendResults calls).get ⟨i, hi⟩).datagram = some d ∧
          readBE32 d.data 8 = (self.currentSequenceNumber + i) % 2 ^ 32) ∧
      (self.run calls).currentSequenceNumber % 2 ^ 32 =
        (self.currentSequenceNumber + (self.sendResults calls).length) % 2 ^ 32 := by
  induction calls generalizing self with
  | nil =>
    refine ⟨?_, ?_⟩
    · intro i hi
      simp [PskReporter.sendResults] at hi
    · simp [PskReporter.sendResults, PskReporter.run]
  | cons c rest ih =>
    have hs := step_seq_of_not_send self
    cases c with
    | createSenderRecord b =>
      have h := ih (self.createSenderRecord b).1 hok
      rw [hs.1 b] at h
      exact h
    | createSenderSoftwareRecord b =>
      have h := ih (self.createSenderSoftwareRecord b).1 hok
      rw [hs.2.1 b] at h
      exact h
    | addReceivedRecord now b =>
      have h := ih (self.addReceivedRecord now b).1 hok
      rw [hs.2.2 now b] at h
      exact h
    | send env =>
      simp only [PskReporter.sendResults, List.mem_cons, forall_eq_or_imp] at hok
      obtain ⟨hseq, d, hd, hfield⟩ := send_seq_field self env hok.1.1 hok.1.2
      have h := ih (self.send env).self hok.2
      rw [hseq] at h
      refine ⟨?_, ?_⟩
      · intro i hi
        cases i with
        | zero => exact ⟨d, hd, by simpa using hfield⟩
        | succ j =>
          simp only [PskReporter.sendResults, List.length_cons, Nat.add_lt_add_iff_right] at hi
          obtain ⟨d2, hd2, hf2⟩ := h.1 j hi
          refine ⟨d2, hd2, ?_⟩
          rw [hf2]
          omega
      · have h2 := h.2
        simp only [PskReporter.sendResults, PskReporter.run, PskReporter.step,
          List.length_cons] at h2 ⊢
        rw [h2]
        omega

/-! ## Lemmas: reading back length-prefixed strings -/

theorem Mem.ofList_append_left (a b : List Byte) (i : Nat) (h : i < a.length) :
    Mem.ofList (a ++ b) i = Mem.ofList a i := by
  simp only [Mem.ofList, List.getD_eq_getElem?_getD]
  rw [List.getElem?_append_left h]

theorem Mem.ofList_append_right (a b : List Byte) (i : Nat) :
    Mem.ofList (a ++ b) (a.length + i) = Mem.ofList b i := by
  simp only [Mem.ofList, List.getD_eq_getElem?_getD]
  rw [List.getElem?_append_right (by omega)]
  simp

theorem Mem.read_ofList_self (s tail : List Byte) :
    Mem.read (Mem.ofList (s ++ tail)) 0 s.length = s := by
  apply List.ext_getElem
  · simp [Mem.read]
  · intro i h1 h2
    simp only [Mem.read, List.getElem_map, List.getElem_range, Nat.zero_add]
    rw [Mem.ofList_append_left s tail i h2]
    simp [Mem.ofList, List.getD_eq_getElem?_getD, List.getElem?_eq_getElem h2]

theorem Mem.read_ofList_shift (a b : List Byte) (p n : Nat) :
    Mem.read (Mem.ofList (a ++ b)) (a.length + p) n = Mem.read (Mem.ofList b) p n := by
  simp only [Mem.read]
  apply List.map_congr_left
  intro i _
  rw [Nat.add_assoc, Mem.ofList_append_right]

theorem readLengthPrefixedString_ofList (pre s tail : List Byte) (h : s.length ≤ 255) :
    readLengthPrefixedString (Mem.ofList (pre ++ (toByte s.length :: s ++ tail))) pre.length =
      (⟨s⟩, pre.length + 1 + s.length) := by
  have h0 : Mem.ofList (pre ++ (toByte s.length :: s ++ tail)) pre.length = toByte s.length := by
    have := Mem.ofList_append_right pre (toByte s.length :: s ++ tail) 0
    simpa [Mem.ofList] using this
  have hv : (toByte s.length).val = s.length := by
    rw [toByte_val]
    omega
  simp only [readLengthPrefixedString, SafeString.ofBuf, h0, hv, Prod.mk.injEq,
    SafeString.mk.injEq, and_true]
  have e : pre ++ (toByte s.length :: s ++ tail) = (pre ++ [toByte s.length]) ++ (s ++ tail) := by
    simp
  have e2 : pre.length + 1 = (pre ++ [toByte s.length]).length + 0 := by simp
  rw [e, e2, Mem.read_ofList_shift, Mem.read_ofList_self]

theorem read_three_strings (hdr a b c tail : List Byte) (ha : a.length ≤ 255)
    (hb : b.length ≤ 255) (hc : c.length ≤ 255) :
    readLengthPrefixedString (Mem.ofList (hdr ++ (toByte a.length :: a ++
        (toByte b.length :: b ++ (toByte c.length :: c ++ tail))))) hdr.length =
      (⟨a⟩, hdr.length + 1 + a.length) ∧
    readLengthPrefixedString (Mem.ofList (hdr ++ (toByte a.length :: a ++
        (toByte b.length :: b ++ (toByte c.length :: c ++ tail)))))
        (hdr.length + 1 + a.length) =
      (⟨b⟩, hdr.length + 1 + a.length + 1 + b.length) ∧
    readLengthPrefixedString (Mem.ofList (hdr ++ (toByte a.length :: a ++
        (toByte b.length :: b ++ (toByte c.length :: c ++ tail)))))
        (hdr.length + 1 + a.length + 1 + b.length) =
      (⟨c⟩, hdr.length + 1 + a.length + 1 + b.length + 1 + c.length) := by
  refine ⟨readLengthPrefixedString_ofList hdr a _ ha, ?_, ?_⟩
  · have e : hdr ++ (toByte a.length :: a ++ (toByte b.length :: b ++
        (toByte c.length :: c ++ tail))) =
        (hdr ++ toByte a.length :: a) ++ (toByte b.length :: b ++ (toByte c.length :: c ++ tail)) := by
      simp
    have el : hdr.length + 1 + a.length = (hdr ++ toByte a.length :: a).length := by
      simp only [List.length_append, List.length_cons]
      omega
    rw [e, el]
    exact readLengthPrefixedString_ofList _ b _ hb
  · have e : hdr ++ (toByte a.length :: a ++ (toByte b.length :: b ++
        (toByte c.length :: c ++ tail))) =
        (hdr ++ toByte a.length :: a ++ toByte b.length :: b) ++ (toByte c.length :: c ++ tail) := by
      simp
    have el : hdr.length + 1 + a.length + 1 + b.length =
        (hdr ++ toByte a.length :: a ++ toByte b.length :: b).length := by
      simp only [List.length_append, List.length_cons]
      omega
    rw [e, el]
    exact readLengthPrefixedString_ofList _ c _ hc

/-! ## Lemmas: reachable aggregators are bounded -/

theorem readLengthPrefixedString_length_le (buf : Mem) (p : Nat) :
    (readLengthPrefixedString buf p).1.length ≤ 255 := by
  have h := (buf p).isLt
  simp only [readLengthPrefixedString, SafeString.ofBuf, SafeString.length, Mem.read,
    List.length_map, List.length_range]
  omega

theorem send_self_cases (self : PskReporter) (env : Env) :
    (self.send env).self = self ∨
      (self.send env).self =
        { self with
          currentSequenceNumber := (self.currentSequenceNumber + 1) % 2 ^ 32
          recordList := [] } := by
  unfold PskReporter.send
  cases hl : self.recordList <;> cases env.wifiConnected <;> cases env.wifiSta <;>
    cases env.allocOk <;> simp [hl, apply_ite SendResult.self]

theorem step_bounded (self : PskReporter) (c : Call) (hb : self.Bounded) :
    (self.step c).Bounded := by
  obtain ⟨h1, h2, h3, h4, h5⟩ := hb
  cases c with
  | createSenderRecord b =>
    cases b with
    | none => exact ⟨h1, h2, h3, h4, h5⟩
    | some buf =>
      exact ⟨readLengthPrefixedString_length_le buf 0,
        readLengthPrefixedString_length_le buf _, h3, h4, h5⟩
  | createSenderSoftwareRecord b =>
    cases b with
    | none => exact ⟨h1, h2, h3, h4, h5⟩
    | some buf => exact ⟨h1, h2, readLengthPrefixedString_length_le buf 0, h4, h5⟩
  | addReceivedRecord now b =>
    cases b with
    | none => exact ⟨h1, h2, h3, h4, h5⟩
    | some buf =>
      simp only [PskReporter.step]
      rw [addReceivedRecord_some]
      split
      · next h =>
        refine ⟨h1, h2, h3, ?_, ?_⟩
        · simp only [List.length_append, List.length_singleton, PSK_MAX_RECORDS]
          omega
        · intro r hr
          simp only [List.mem_append, List.mem_singleton] at hr
          rcases hr with hr | hr
          · exact h5 r hr
          · subst hr
            exact ⟨readLengthPrefixedString_length_le buf 0,
              show (SafeString.ofCStr modeFT8).length ≤ 255 by decide⟩
      · exact ⟨h1, h2, h3, h4, h5⟩
  | send env =>
    simp only [PskReporter.step]
    rcases send_self_cases self env with h | h
    · rw [h]
      exact ⟨h1, h2, h3, h4, h5⟩
    · rw [h]
      refine ⟨h1, h2, h3, by simp, ?_⟩
      intro r hr
      simp at hr

theorem run_bounded (calls : List Call) (self : PskReporter) (hb : self.Bounded) :
    (self.run calls).Bounded := by
  induction calls generalizing self with
  | nil => exact hb
  | cons c rest ih => exact ih (self.step c) (step_bounded self c hb)

theorem new_bounded (randomIdentifier : Nat) (testMode : Bool) :
    (PskReporter.new randomIdentifier testMode).Bounded := by
  refine ⟨Nat.zero_le _, Nat.zero_le _, Nat.zero_le _, Nat.zero_le _, ?_⟩
  intro r hr
  simp [PskReporter.new] at hr

/-! ## Claims about the pending list -/

/-- C1 (as stated, refuted): with WiFi not connected, `send` leaves the
pending record of `demoPending` in the list. -/
theorem send_offline_keeps_pending :
    envOffline.wifiConnected = false ∧ demoPending.recordList ≠ [] ∧
      (demoPending.send envOffline).self.recordList = demoPending.recordList ∧
      (demoPending.send envOffline).self.recordList ≠ [] := by
  decide

/-- C1 (amended): after `send` the pending list is empty when the call got as far
as the network (WiFi connected in station mode, packet buffer allocated),
whatever the UDP write returned; otherwise, in particular when WiFi is not
connected, it is exactly the list from before. -/
theorem send_clears_only_when_attempted (self : PskReporter) (env : Env) :
    (self.send env).self.recordList =
      if env.wifiConnected && env.wifiSta && env.allocOk then [] else self.recordList := by
  unfold PskReporter.send
  cases hl : self.recordList with
  | nil => cases env.wifiConnected <;> cases env.wifiSta <;> cases env.allocOk <;> simp [hl]
  | cons a l =>
    cases env.wifiConnected <;> cases env.wifiSta <;> cases env.allocOk <;>
      simp [hl, apply_ite SendResult.self]

/-- C5: when the pending list is empty or the network is not connected (WiFi
status not connected, or not in station mode), `send` returns false, hands no
datagram to the UDP sender and leaves the whole aggregator as it was. -/
theorem send_noop_unless_pending_and_connected (self : PskReporter) (env : Env)
    (h : self.recordList = [] ∨ ¬ (env.wifiConnected = true ∧ env.wifiSta = true)) :
    (self.send env).result = false ∧ (self.send env).datagram = none ∧
      (self.send env).self = self := by
  unfold PskReporter.send
  rcases h with h | h
  · simp [h]
  · have hg : (decide (self.recordList.length > 0) && env.wifiConnected && env.wifiSta) = false := by
      cases hc : env.wifiConnected <;> cases hs : env.wifiSta <;> simp_all
    simp [hg]

theorem send_noop_unless_pending_and_connected_witness :
    (demoPending.send envOffline).result = false ∧ (demoPending.send envOffline).datagram = none ∧
      (demoPending.send envOffline).self = demoPending :=
  send_noop_unless_pending_and_connected demoPending envOffline (by decide)

/-- C3: a payload whose callsign equals (same length, same bytes) the callsign
of a pending record is rejected: `addReceivedRecord` returns false and the
aggregator, hence the pending list, is unchanged, for every frequency and SNR
that follow the callsign in the payload and every time of the call. -/
theorem addReceivedRecord_duplicate (self : PskReporter) (now : Nat) (buf : Mem)
    (h : ∃ item ∈ self.recordList,
      item.callsign.length = (payloadCallsign buf).length ∧
        item.callsign.c_str = (payloadCallsign buf).c_str) :
    self.addReceivedRecord now (some buf) = (self, false) := by
  obtain ⟨item, hmem, -, hdata⟩ := h
  have hlog : self.alreadyLogged (readLengthPrefixedString buf 0).1 = true := by
    unfold PskReporter.alreadyLogged
    rw [alreadyLoggedLoop_iff]
    refine List.mem_map.2 ⟨item, hmem, ?_⟩
    cases hc : item.callsign with
    | mk d =>
      rw [hc] at hdata
      simp only [SafeString.c_str, payloadCallsign] at hdata
      cases hp : (readLengthPrefixedString buf 0).1 with
      | mk e =>
        rw [hp] at hdata
        simp only at hdata
        rw [hdata]
  simp only [PskReporter.addReceivedRecord, hlog]
  simp

theorem addReceivedRecord_duplicate_witness :
    demoPending.addReceivedRecord 1700000060 (some demoSpotAgain) = (demoPending, false) :=
  addReceivedRecord_duplicate demoPending 1700000060 demoSpotAgain (by decide)

/-- C2: from an empty pending list, 41 `addReceivedRecord` calls with non-null
payloads whose callsigns are pairwise distinct return true 40 times and then
false, and leave exactly 40 pending records; and in every state with 40
pending records `addReceivedRecord` returns false and changes nothing, for
every payload and time. -/
theorem capacity_forty (self : PskReporter) (calls : List (Nat × Mem))
    (hempty : self.recordList = [])
    (hlen : calls.length = 41)
    (hnd : (calls.map (fun c => payloadCallsign c.2)).Nodup) :
    (self.addReceivedRecords calls).2 = List.replicate 40 true ++ [false] ∧
      (self.addReceivedRecords calls).1.recordList.length = 40 ∧
      ∀ (full : PskReporter) (now : Nat) (encodedBuf : Option Mem),
        full.recordList.length = 40 → full.addReceivedRecord now encodedBuf = (full, false) := by
  refine ⟨?_, ?_, fun full now encodedBuf h => addReceivedRecord_full full now encodedBuf h⟩
  all_goals
    have hsplit : calls = calls.take 40 ++ calls.drop 40 := (List.take_append_drop 40 calls).symm
    have htake : (calls.take 40).length = 40 := by rw [List.length_take]; omega
    have hdrop : (calls.drop 40).length = 1 := by rw [List.length_drop]; omega
    obtain ⟨c, hc⟩ := List.length_eq_one.1 hdrop
    have hnd40 : ((calls.take 40).map (fun c => payloadCallsign c.2)).Nodup := by
      rw [hsplit, List.map_append] at hnd
      exact (List.nodup_append.1 hnd).1
    have h40 := addReceivedRecords_fresh (calls.take 40) self hnd40
      (by intro c _; rw [hempty]; simp) (by rw [hempty, htake]; simp)
    have hlen40 : (self.addReceivedRecords (calls.take 40)).1.recordList.length = 40 := by
      have hl := congrArg List.length h40.2
      rw [hempty] at hl
      simp only [List.length_map, List.map_nil, List.nil_append] at hl
      rw [hl, htake]
    obtain ⟨now, buf⟩ := c
    have hlast := addReceivedRecord_full (self.addReceivedRecords (calls.take 40)).1 now
      (some buf) hlen40
    rw [hsplit, addReceivedRecords_append, hc]
    simp only [PskReporter.addReceivedRecords, hlast, h40.1, htake]
  · exact hlen40

theorem capacity_forty_witness :
    ((PskReporter.new 7 false).addReceivedRecords demoBurst).2 = List.replicate 40 true ++ [false] ∧
      ((PskReporter.new 7 false).addReceivedRecords demoBurst).1.recordList.length = 40 ∧
      ((PskReporter.new 7 false).addReceivedRecords demoBurst).1.addReceivedRecord 1700000100
          (some demoSpot) =
        (((PskReporter.new 7 false).addReceivedRecords demoBurst).1, false) :=
  have h := capacity_forty (PskReporter.new 7 false) demoBurst (by decide) (by decide) (by decide)
  ⟨h.1, h.2.1, h.2.2 _ 1700000100 (some demoSpot) h.2.1⟩

/-- C4: in every state reached from a freshly constructed `PskReporter` by any
sequence of `createSenderRecord`, `createSenderSoftwareRecord`,
`addReceivedRecord` and `send` calls (any payloads, null or not, any times, any
network conditions), the pending list holds at most 40 records and no two
pending records have the same callsign. -/
theorem pending_bounded_and_distinct (randomIdentifier : Nat) (testMode : Bool)
    (calls : List Call) :
    ((PskReporter.new randomIdentifier testMode).run calls).recordList.length ≤ PSK_MAX_RECORDS ∧
      ((PskReporter.new randomIdentifier testMode).run calls).recordList.Pairwise
        (fun a b => a.callsign.opEq b.callsign = false) := by
  have h := run_preserves_pending calls (PskReporter.new randomIdentifier testMode)
    (by simp [PskReporter.new]) (by simp [PskReporter.new])
  refine ⟨h.1, ?_⟩
  have hp := List.pairwise_map.1 h.2
  refine hp.imp ?_
  intro a b hab
  cases hq : a.callsign.opEq b.callsign with
  | false => rfl
  | true => exact absurd ((SafeString.opEq_iff _ _).1 hq) hab

/-! ## Claims about the packet and the record encoders -/

/-- C6: a freshly constructed aggregator has sequence counter 0.  In any
sequence of calls in which every `send` succeeds (it returns true, so it had a
record pending, and its packet fitted the packet buffer), the i-th `send`
(counting from 0) hands over a packet whose big-endian 32-bit field at offset 8
is `seq0 + i` modulo 2^32, `seq0` being the sequence counter at the start, and
after the N sends of the sequence the counter is `seq0 + N` modulo 2^32.  From
a freshly constructed aggregator the i-th packet therefore carries `i`. -/
theorem sequence_numbers_consecutive (self : PskReporter) (calls : List Call)
    (hseq : self.currentSequenceNumber < 2 ^ 32)
    (hok : ∀ r ∈ self.sendResults calls, r.result = true ∧ r.overrun = false) :
    (∀ (i : Nat) (hi : i < (self.sendResults calls).length),
        ∃ d, ((self.sendResults calls).get ⟨i, hi⟩).datagram = some d ∧
          readBE32 d.data 8 = (self.currentSequenceNumber + i) % 2 ^ 32) ∧
      (self.run calls).currentSequenceNumber =
        (self.currentSequenceNumber + (self.sendResults calls).length) % 2 ^ 32 ∧
      ∀ (randomIdentifier : Nat) (testMode : Bool) (fresh : List Call),
        (∀ r ∈ (PskReporter.new randomIdentifier testMode).sendResults fresh,
          r.result = true ∧ r.overrun = false) →
        (PskReporter.new randomIdentifier testMode).currentSequenceNumber = 0 ∧
        (∀ (i : Nat)
          (hi : i < ((PskReporter.new randomIdentifier testMode).sendResults fresh).length),
          ∃ d, (((PskReporter.new randomIdentifier testMode).sendResults fresh).get
              ⟨i, hi⟩).datagram = some d ∧
            readBE32 d.data 8 = i % 2 ^ 32) ∧
        ((PskReporter.new randomIdentifier testMode).run fresh).currentSequenceNumber =
          ((PskReporter.new randomIdentifier testMode).sendResults fresh).length % 2 ^ 32 := by
  have h := sendResults_seq calls self hok
  refine ⟨h.1, ?_, ?_⟩
  · rw [← h.2, Nat.mod_eq_of_lt (run_seq_lt calls self hseq)]
  · intro randomIdentifier testMode fresh hfresh
    have hf := sendResults_seq fresh (PskReporter.new randomIdentifier testMode) hfresh
    have h0 : (PskReporter.new randomIdentifier testMode).currentSequenceNumber = 0 := rfl
    refine ⟨h0, ?_, ?_⟩
    · intro i hi
      obtain ⟨d, hd, hfield⟩ := hf.1 i hi
      rw [h0, Nat.zero_add] at hfield
      exact ⟨d, hd, hfield⟩
    · have h2 := hf.2
      rw [h0, Nat.zero_add] at h2
      rw [← h2, Nat.mod_eq_of_lt (run_seq_lt fresh _ (by rw [h0]; decide))]

set_option maxRecDepth 8000 in
theorem sequence_numbers_consecutive_witness :
    (∃ d, (((PskReporter.new 0xDEADBEEF false).sendResults demoRounds).get
        ⟨2, by decide⟩).datagram = some d ∧ readBE32 d.data 8 = 2) ∧
      ((PskReporter.new 0xDEADBEEF false).run demoRounds).currentSequenceNumber = 3 :=
  have h := sequence_numbers_consecutive (PskReporter.new 0xDEADBEEF false) demoRounds
    (by decide) (by decide)
  have hf := h.2.2 0xDEADBEEF false demoRounds (by decide)
  ⟨hf.2.1 2 (by decide), hf.2.2.trans (by decide)⟩

/-- C7: a successful `send` (it returns true and its packet fits the packet
buffer) hands the UDP sender a packet that starts with 0x00 0x0A, whose
big-endian 16-bit field at offset 2 is the number of bytes of the packet, and
whose big-endian 32-bit fields at offsets 4, 8 and 12 are `(uint32_t)time(0)`,
the sequence counter before the call and the session identifier.  Holds for
every aggregator state. -/
theorem send_header_and_length (self : PskReporter) (env : Env)
    (hok : (self.send env).result = true) (hfit : (self.send env).overrun = false) :
    ∃ d, (self.send env).datagram = some d ∧
      d.data.take 16 = [0x00, 0x0A] ++ htons d.data.length ++ htonl (env.time % 2 ^ 32)
        ++ htonl self.currentSequenceNumber ++ htonl self.randomIdentifier ∧
      readBE16 d.data 2 = d.data.length ∧
      readBE32 d.data 4 = env.time % 2 ^ 32 ∧
      readBE32 d.data 8 = self.currentSequenceNumber % 2 ^ 32 ∧
      readBE32 d.data 12 = self.randomIdentifier % 2 ^ 32 := by
  obtain ⟨hsize, heq⟩ := send_eq_of_ok self env hok hfit
  have hcap : MAX_BUFFER_SIZE = 1471 := rfl
  rw [heq]
  refine ⟨_, rfl, ?_⟩
  have hlen : (0x00 :: 0x0A :: (htons ((104 + self.encodeReporterRecord.2
      + self.encodeReceivedRecords.2) % 2 ^ 16) ++
      (htonl (env.time % 2 ^ 32) ++ (htonl self.currentSequenceNumber ++
      (htonl self.randomIdentifier ++ (rxFormatHeader ++ (txFormatHeader ++
      (region self.encodeReporterRecord.1 self.encodeReporterRecord.2 ++
        region self.encodeReceivedRecords.1 self.encodeReceivedRecords.2))))))) : List Byte).length
      = 104 + self.encodeReporterRecord.2 + self.encodeReceivedRecords.2 := by
    simp only [List.length_append, List.length_cons, List.length_nil, htonl, htons,
      rxFormatHeader, txFormatHeader, region_length]
    omega
  have hmod : (104 + self.encodeReporterRecord.2 + self.encodeReceivedRecords.2) % 2 ^ 16 =
      104 + self.encodeReporterRecord.2 + self.encodeReceivedRecords.2 :=
    Nat.mod_eq_of_lt (by omega)
  simp only [hlen]
  rw [hmod]
  generalize 104 + self.encodeReporterRecord.2 + self.encodeReceivedRecords.2 = total at *
  refine ⟨?_, ?_, ?_, ?_, ?_⟩
  · simp [htons, htonl]
  · simp only [htons, htonl, readBE16, List.cons_append, List.nil_append, List.getD_cons_succ,
      List.getD_cons_zero, toByte_val]
    omega
  · simp only [htons, htonl, readBE32, List.cons_append, List.nil_append, List.getD_cons_succ,
      List.getD_cons_zero, toByte_val]
    omega
  · simp only [htons, htonl, readBE32, List.cons_append, List.nil_append, List.getD_cons_succ,
      List.getD_cons_zero, toByte_val]
    omega
  · simp only [htons, htonl, readBE32, List.cons_append, List.nil_append, List.getD_cons_succ,
      List.getD_cons_zero, toByte_val]
    omega

set_option maxRecDepth 8000 in
theorem send_header_and_length_witness :
    ∃ d, (demoPending.send envOnline).datagram = some d ∧
      d.data.take 16 = [0x00, 0x0A] ++ htons d.data.length ++ htonl (envOnline.time % 2 ^ 32)
        ++ htonl demoPending.currentSequenceNumber ++ htonl demoPending.randomIdentifier ∧
      readBE16 d.data 2 = d.data.length ∧
      readBE32 d.data 4 = envOnline.time % 2 ^ 32 ∧
      readBE32 d.data 8 = demoPending.currentSequenceNumber % 2 ^ 32 ∧
      readBE32 d.data 12 = demoPending.randomIdentifier % 2 ^ 32 :=
  send_header_and_length demoPending envOnline (by decide) (by decide)

/-- C8: the packet of a successful `send` (it returns true and its packet fits
the packet buffer) is, in this order, the 16-byte global header, the 36-byte
constant `rxFormatHeader`, the 52-byte constant `txFormatHeader`, the bytes of
`encodeReporterRecord` (its returned size many) and the bytes of
`encodeReceivedRecords`; bytes 2..3 of each template constant hold its own
size, and the reporter-identity record begins at offset 104. -/
theorem packet_layout (self : PskReporter) (env : Env)
    (hok : (self.send env).result = true) (hfit : (self.send env).overrun = false) :
    ∃ d, (self.send env).datagram = some d ∧
      d.data =
        ([0x00, 0x0A] ++ htons (d.data.length % 2 ^ 16) ++ htonl (env.time % 2 ^ 32)
            ++ htonl self.currentSequenceNumber ++ htonl self.randomIdentifier)
          ++ rxFormatHeader ++ txFormatHeader
          ++ region self.encodeReporterRecord.1 self.encodeReporterRecord.2
          ++ region self.encodeReceivedRecords.1 self.encodeReceivedRecords.2 ∧
      ([0x00, 0x0A] ++ htons (d.data.length % 2 ^ 16) ++ htonl (env.time % 2 ^ 32)
            ++ htonl self.currentSequenceNumber ++ htonl self.randomIdentifier).length = 16 ∧
      rxFormatHeader.length = 36 ∧ readBE16 rxFormatHeader 2 = 36 ∧
      txFormatHeader.length = 52 ∧ readBE16 txFormatHeader 2 = 52 ∧
      d.data.drop 104 =
        region self.encodeReporterRecord.1 self.encodeReporterRecord.2
          ++ region self.encodeReceivedRecords.1 self.encodeReceivedRecords.2 := by
  rw [(send_eq_of_ok self env hok hfit).2]
  refine ⟨_, rfl, ?_⟩
  have hlen : (0x00 :: 0x0A :: (htons ((104 + self.encodeReporterRecord.2
      + self.encodeReceivedRecords.2) % 2 ^ 16) ++
      (htonl (env.time % 2 ^ 32) ++ (htonl self.currentSequenceNumber ++
      (htonl self.randomIdentifier ++ (rxFormatHeader ++ (txFormatHeader ++
      (region self.encodeReporterRecord.1 self.encodeReporterRecord.2 ++
        region self.encodeReceivedRecords.1 self.encodeReceivedRecords.2))))))) : List Byte).length
      = 104 + self.encodeReporterRecord.2 + self.encodeReceivedRecords.2 := by
    simp only [List.length_append, List.length_cons, List.length_nil, htonl, htons,
      rxFormatHeader, txFormatHeader, region_length]
    omega
  simp only [hlen]
  refine ⟨?_, ?_, by decide, by decide, by decide, by decide, ?_⟩
  · simp only [List.cons_append, List.nil_append, List.append_assoc]
  · simp [htons, htonl]
  · simp [htons, htonl, rxFormatHeader, txFormatHeader]

set_option maxRecDepth 8000 in
theorem packet_layout_witness :
    ∃ d, (demoPending.send envOnline).datagram = some d ∧
      d.data =
        ([0x00, 0x0A] ++ htons (d.data.length % 2 ^ 16) ++ htonl (envOnline.time % 2 ^ 32)
            ++ htonl demoPending.currentSequenceNumber ++ htonl demoPending.randomIdentifier)
          ++ rxFormatHeader ++ txFormatHeader
          ++ region demoPending.encodeReporterRecord.1 demoPending.encodeReporterRecord.2
          ++ region demoPending.encodeReceivedRecords.1 demoPending.encodeReceivedRecords.2 ∧
      ([0x00, 0x0A] ++ htons (d.data.length % 2 ^ 16) ++ htonl (envOnline.time % 2 ^ 32)
            ++ htonl demoPending.currentSequenceNumber
            ++ htonl demoPending.randomIdentifier).length = 16 ∧
      rxFormatHeader.length = 36 ∧ readBE16 rxFormatHeader 2 = 36 ∧
      txFormatHeader.length = 52 ∧ readBE16 txFormatHeader 2 = 52 ∧
      d.data.drop 104 =
        region demoPending.encodeReporterRecord.1 demoPending.encodeReporterRecord.2
          ++ region demoPending.encodeReceivedRecords.1 demoPending.encodeReceivedRecords.2 :=
  packet_layout demoPending envOnline (by decide) (by decide)

/-- C9: for an aggregator whose strings have at most 255 bytes and which has 1
to 40 pending records, the size returned by `encodeReporterRecord` and the size
returned by `encodeReceivedRecords` are each a multiple of 4, not below the
number of bytes written (the 4-byte tag and length header plus the encoded
fields) and not above any other such multiple of 4, and the big-endian 16-bit
value at offset 2 of each record is the returned size. -/
theorem record_sizes_padded (self : PskReporter) (hb : self.Bounded)
    (hne : self.recordList ≠ []) :
    (self.encodeReporterRecord.2 % 4 = 0 ∧
      self.encodeReporterRecord.1.length ≤ self.encodeReporterRecord.2 ∧
      (∀ m, m % 4 = 0 → self.encodeReporterRecord.1.length ≤ m →
        self.encodeReporterRecord.2 ≤ m) ∧
      self.encodeReporterRecord.1.length =
        4 + (1 + self.reporterCallsign.length) + (1 + self.reporterGridSquare.length)
          + (1 + self.decodingSoftware.length) ∧
      readBE16 self.encodeReporterRecord.1 2 = self.encodeReporterRecord.2) ∧
    (self.encodeReceivedRecords.2 % 4 = 0 ∧
      self.encodeReceivedRecords.1.length ≤ self.encodeReceivedRecords.2 ∧
      (∀ m, m % 4 = 0 → self.encodeReceivedRecords.1.length ≤ m →
        self.encodeReceivedRecords.2 ≤ m) ∧
      self.encodeReceivedRecords.1.length =
        4 + (self.recordList.map
          (fun r => (1 + r.callsign.length) + 4 + 1 + (1 + r.mode.length) + 1 + 4)).sum ∧
      readBE16 self.encodeReceivedRecords.1 2 = self.encodeReceivedRecords.2) := by
  have hb0 := hb
  obtain ⟨h1, h2, h3, h4, h5⟩ := hb
  simp only [PSK_MAX_RECORDS] at h4
  constructor
  · have hr := reporter_size_bound self hb0
    rw [encodeReporterRecord_eq] at hr ⊢
    have hp := pad4_eq (7 + self.reporterCallsign.length + self.reporterGridSquare.length
      + self.decodingSoftware.length) (by omega)
    simp only [hp] at hr ⊢
    have hlen : (0x99 :: 0x92 :: (htons ((7 + self.reporterCallsign.length
          + self.reporterGridSquare.length + self.decodingSoftware.length + 3) / 4 * 4 % 2 ^ 16) ++
        (toByte self.reporterCallsign.length :: self.reporterCallsign.data ++
          (toByte self.reporterGridSquare.length :: self.reporterGridSquare.data ++
            (toByte self.decodingSoftware.length :: self.decodingSoftware.data)))) :
          List Byte).length =
        7 + self.reporterCallsign.length + self.reporterGridSquare.length
          + self.decodingSoftware.length := by
      simp only [List.length_append, List.length_cons, List.length_nil, htons,
        SafeString.length]
      omega
    rw [hlen]
    refine ⟨by omega, by omega, fun m hm hle => by omega, by omega, ?_⟩
    simp only [htons, readBE16, List.cons_append, List.nil_append, List.getD_cons_succ,
      List.getD_cons_zero, toByte_val]
    omega
  · have hr := received_size_bound self hb0
    have hl := encoded_length_le self.recordList h5
    have hsum := encoded_length_sum self.recordList
    rw [encodeReceivedRecords_eq self hne] at hr ⊢
    have hp := pad4_eq (4 + ((self.recordList.map (fun r => (r.encode []).1)).flatten).length)
      (by omega)
    simp only [hp] at hr ⊢
    have hfun : (fun r : ReceivedRecord =>
        (1 + r.callsign.length) + 4 + 1 + (1 + r.mode.length) + 1 + 4) =
        (fun r => 12 + r.callsign.length + r.mode.length) := by
      funext r
      omega
    rw [hfun, ← hsum]
    generalize ((self.recordList.map (fun r => (r.encode []).1)).flatten) = body at *
    have hlen : (0x99 :: 0x93 :: (htons ((4 + body.length + 3) / 4 * 4 % 2 ^ 16) ++ body) :
        List Byte).length = 4 + body.length := by
      simp only [List.length_append, List.length_cons, List.length_nil, htons]
      omega
    rw [hlen]
    refine ⟨by omega, by omega, fun m hm hle => by omega, rfl, ?_⟩
    simp only [htons, readBE16, List.cons_append, List.nil_append, List.getD_cons_succ,
      List.getD_cons_zero, toByte_val]
    omega

theorem record_sizes_padded_witness :
    demoPending.encodeReporterRecord.2 % 4 = 0 ∧
      readBE16 demoPending.encodeReporterRecord.1 2 = demoPending.encodeReporterRecord.2 ∧
      demoPending.encodeReceivedRecords.2 % 4 = 0 ∧
      readBE16 demoPending.encodeReceivedRecords.1 2 = demoPending.encodeReceivedRecords.2 :=
  have h := record_sizes_padded demoPending (by decide) (by decide)
  ⟨h.1.1, h.1.2.2.2.2, h.2.1, h.2.2.2.2.2⟩

/-- C10: for identity strings of 0 to 255 arbitrary bytes each,
`encodeReporterRecord` writes the tag 0x99 0x92, and reading three consecutive
length-prefixed strings with `readLengthPrefixedString` from offset 4 of what it
wrote (whatever memory follows) gives back the callsign, the grid locator and
the decoding software, ending at an offset no greater than the returned record
size. -/
theorem reporter_record_roundtrip (self : PskReporter) (tail : List Byte)
    (hc : self.reporterCallsign.length ≤ 255) (hg : self.reporterGridSquare.length ≤ 255)
    (hs : self.decodingSoftware.length ≤ 255) :
    self.encodeReporterRecord.1.take 2 = [0x99, 0x92] ∧
      (readLengthPrefixedString (Mem.ofList (self.encodeReporterRecord.1 ++ tail)) 4).1 =
        self.reporterCallsign ∧
      (readLengthPrefixedString (Mem.ofList (self.encodeReporterRecord.1 ++ tail))
        (readLengthPrefixedString (Mem.ofList (self.encodeReporterRecord.1 ++ tail)) 4).2).1 =
        self.reporterGridSquare ∧
      (readLengthPrefixedString (Mem.ofList (self.encodeReporterRecord.1 ++ tail))
        (readLengthPrefixedString (Mem.ofList (self.encodeReporterRecord.1 ++ tail))
          (readLengthPrefixedString
            (Mem.ofList (self.encodeReporterRecord.1 ++ tail)) 4).2).2).1 =
        self.decodingSoftware ∧
      (readLengthPrefixedString (Mem.ofList (self.encodeReporterRecord.1 ++ tail))
        (readLengthPrefixedString (Mem.ofList (self.encodeReporterRecord.1 ++ tail))
          (readLengthPrefixedString
            (Mem.ofList (self.encodeReporterRecord.1 ++ tail)) 4).2).2).2 ≤
        self.encodeReporterRecord.2 := by
  rw [encodeReporterRecord_eq]
  have hp := pad4_eq (7 + self.reporterCallsign.length + self.reporterGridSquare.length
    + self.decodingSoftware.length) (by omega)
  simp only [hp]
  simp only [htons, SafeString.length] at hc hg hs ⊢
  generalize toByte ((7 + self.reporterCallsign.data.length + self.reporterGridSquare.data.length
    + self.decodingSoftware.data.length + 3) / 4 * 4 % 2 ^ 16 / 2 ^ 8) = x
  generalize toByte ((7 + self.reporterCallsign.data.length + self.reporterGridSquare.data.length
    + self.decodingSoftware.data.length + 3) / 4 * 4 % 2 ^ 16) = y
  obtain ⟨r1, r2, r3⟩ := read_three_strings [0x99, 0x92, x, y] self.reporterCallsign.data
    self.reporterGridSquare.data self.decodingSoftware.data tail hc hg hs
  simp only [List.cons_append, List.nil_append, List.append_assoc, List.length_cons,
    List.length_nil] at r1 r2 r3 ⊢
  rw [r1]
  simp only []
  rw [r2]
  simp only []
  rw [r3]
  refine ⟨by simp, trivial, trivial, rfl, ?_⟩
  simp only []
  omega

theorem reporter_record_roundtrip_witness :
    demoExtreme.encodeReporterRecord.1.take 2 = [0x99, 0x92] ∧
      (readLengthPrefixedString (Mem.ofList (demoExtreme.encodeReporterRecord.1 ++ [0xAA])) 4).1 =
        demoExtreme.reporterCallsign ∧
      (readLengthPrefixedString (Mem.ofList (demoExtreme.encodeReporterRecord.1 ++ [0xAA]))
        (readLengthPrefixedString
          (Mem.ofList (demoExtreme.encodeReporterRecord.1 ++ [0xAA])) 4).2).1 =
        demoExtreme.reporterGridSquare ∧
      (readLengthPrefixedString (Mem.ofList (demoExtreme.encodeReporterRecord.1 ++ [0xAA]))
        (readLengthPrefixedString (Mem.ofList (demoExtreme.encodeReporterRecord.1 ++ [0xAA]))
          (readLengthPrefixedString
            (Mem.ofList (demoExtreme.encodeReporterRecord.1 ++ [0xAA])) 4).2).2).1 =
        demoExtreme.decodingSoftware ∧
      (readLengthPrefixedString (Mem.ofList (demoExtreme.encodeReporterRecord.1 ++ [0xAA]))
        (readLengthPrefixedString (Mem.ofList (demoExtreme.encodeReporterRecord.1 ++ [0xAA]))
          (readLengthPrefixedString
            (Mem.ofList (demoExtreme.encodeReporterRecord.1 ++ [0xAA])) 4).2).2).2 ≤
        demoExtreme.encodeReporterRecord.2 :=
  reporter_record_roundtrip demoExtreme [0xAA]
    (Nat.le_of_eq (List.length_replicate 255 (0x41 : Byte)))
    (Nat.zero_le 255)
    (Nat.le_of_eq (List.length_replicate 255 (0x00 : Byte)))

/-! ## Claims about record ingestion and the received-record encoding -/

/-- C12: for a record whose callsign and mode have at most 255 bytes,
`ReceivedRecord::encode` appends, in this order, one length byte and the
callsign, the frequency as four bytes most significant first, the SNR byte,
one length byte and the mode, the info-source byte and the flow-start time
(the `int` member converted to `uint32_t`) as four bytes most significant
first; it returns 12 + |callsign| + |mode|, which
is 15 + |callsign| for the mode "FT8"; and what `encodeReceivedRecords` writes
after its four header bytes is the concatenation of these encodings in
pending-list order. -/
theorem encode_layout (self : PskReporter) (r : ReceivedRecord) (bufIn : List Byte)
    (hc : r.callsign.length ≤ 255) (hm : r.mode.length ≤ 255) :
    r.encode bufIn =
        (bufIn ++ ([toByte r.callsign.length] ++ r.callsign.data ++ htonl r.frequency ++ [r.snr]
          ++ [toByte r.mode.length] ++ r.mode.data ++ [r.infoSource]
          ++ htonl (toUInt32 r.flowTimeSeconds)),
        12 + r.callsign.length + r.mode.length) ∧
      (toByte r.callsign.length).val = r.callsign.data.length ∧
      (toByte r.mode.length).val = r.mode.data.length ∧
      readBE32 (htonl r.frequency) 0 = r.frequency % 2 ^ 32 ∧
      readBE32 (htonl (toUInt32 r.flowTimeSeconds)) 0 = toUInt32 r.flowTimeSeconds ∧
      (ReceivedRecord.encode { r with mode := SafeString.ofCStr modeFT8 } bufIn).2
        = 15 + r.callsign.length ∧
      self.encodeReceivedRecords.1.drop 4 =
        (self.recordList.map (fun x =>
          [toByte x.callsign.length] ++ x.callsign.data ++ htonl x.frequency ++ [x.snr]
            ++ [toByte x.mode.length] ++ x.mode.data ++ [x.infoSource]
            ++ htonl (toUInt32 x.flowTimeSeconds))).flatten := by
  have henc : ∀ x : ReceivedRecord, (x.encode []).1 =
      [toByte x.callsign.length] ++ x.callsign.data ++ htonl x.frequency ++ [x.snr]
        ++ [toByte x.mode.length] ++ x.mode.data ++ [x.infoSource]
        ++ htonl (toUInt32 x.flowTimeSeconds) := by
    intro x
    simp [ReceivedRecord.encode, writeLengthPrefixedString_eq]
  refine ⟨?_, ?_, ?_, ?_, ?_, ?_, ?_⟩
  · rw [encode_eq, encode_length, henc]
  · rw [toByte_val]
    simp only [SafeString.length] at hc ⊢
    omega
  · rw [toByte_val]
    simp only [SafeString.length] at hm ⊢
    omega
  · simp only [htonl, readBE32, List.getD_cons_succ, List.getD_cons_zero, toByte_val]
    omega
  · have hlt := toUInt32_lt r.flowTimeSeconds
    simp only [htonl, readBE32, List.getD_cons_succ, List.getD_cons_zero, toByte_val]
    omega
  · rw [encode_eq, encode_length]
    have h3 : (SafeString.ofCStr modeFT8).length = 3 := by decide
    simp only [h3]
    omega
  · by_cases hne : self.recordList = []
    · simp [PskReporter.encodeReceivedRecords, hne]
    · rw [encodeReceivedRecords_eq self hne]
      simp only [htons, List.cons_append, List.nil_append, List.drop_succ_cons, List.drop_zero]
      congr 1
      apply List.map_congr_left
      intro x _
      rw [henc]
      simp

theorem encode_layout_witness :
    (ReceivedRecord.new ⟨[0x47, 0x38]⟩ 14031000 0xF6 1700000000).encode [0xAA] =
      ([0xAA, 2, 0x47, 0x38, 0x00, 0xD6, 0x18, 0x98, 0xF6, 3, 0x46, 0x54, 0x38, 1,
          0x65, 0x53, 0xF1, 0x00], 17) :=
  have h := encode_layout demoPending (ReceivedRecord.new ⟨[0x47, 0x38]⟩ 14031000 0xF6 1700000000)
    [0xAA] (by decide) (by decide)
  h.1.trans (by decide)

/-- C13: with fewer than 40 records pending and a non-null payload whose
callsign equals that of no pending record, `addReceivedRecord` returns true and
appends to the unchanged pending list one record: its callsign is the
`payload[0]` bytes after the length byte, its frequency the next four bytes
read as a little-endian 32-bit value, its SNR the byte after them, its mode
"FT8", its info-source 1 and its flow-start time `(uint32_t)time(0)` stored in
the `int` member; identity strings, sequence number, session identifier and
mode flag are unchanged.  The stored flow-start time is `time(0)` itself while
that is below 2^31, and in every case it is the `int` that converts back to
`time(0)` modulo 2^32, which is what `encode` sends. -/
theorem addReceivedRecord_appends (self : PskReporter) (now : Nat) (buf : Mem)
    (hcap : self.recordList.length < 40)
    (hnew : ∀ item ∈ self.recordList,
      item.callsign.opEq ⟨Mem.read buf 1 (buf 0).val⟩ = false) :
    self.addReceivedRecord now (some buf) =
      ({ currentSequenceNumber := self.currentSequenceNumber
         randomIdentifier := self.randomIdentifier
         testMode := self.testMode
         reporterCallsign := self.reporterCallsign
         reporterGridSquare := self.reporterGridSquare
         decodingSoftware := self.decodingSoftware
         recordList := self.recordList ++
          [{ callsign := ⟨Mem.read buf 1 (buf 0).val⟩
             frequency := (buf (1 + (buf 0).val)).val + 2 ^ 8 * (buf (1 + (buf 0).val + 1)).val
                + 2 ^ 16 * (buf (1 + (buf 0).val + 2)).val
                + 2 ^ 24 * (buf (1 + (buf 0).val + 3)).val
             snr := buf (1 + (buf 0).val + 4)
             mode := ⟨[0x46, 0x54, 0x38]⟩
             infoSource := 1
             flowTimeSeconds :=
              if now % 2 ^ 32 < 2 ^ 31 then ((now % 2 ^ 32 : Nat) : Int)
              else ((now % 2 ^ 32 : Nat) : Int) - 2 ^ 32 }] }, true) ∧
      (now < 2 ^ 31 →
        (if now % 2 ^ 32 < 2 ^ 31 then ((now % 2 ^ 32 : Nat) : Int)
          else ((now % 2 ^ 32 : Nat) : Int) - 2 ^ 32) = (now : Int)) ∧
      toUInt32 (if now % 2 ^ 32 < 2 ^ 31 then ((now % 2 ^ 32 : Nat) : Int)
        else ((now % 2 ^ 32 : Nat) : Int) - 2 ^ 32) = now % 2 ^ 32 := by
  have hcs : payloadCallsign buf = ⟨Mem.read buf 1 (buf 0).val⟩ := by
    simp [payloadCallsign, readLengthPrefixedString, SafeString.ofBuf]
  have hfresh : payloadCallsign buf ∉ self.recordList.map (fun r => r.callsign) := by
    intro hmem
    obtain ⟨item, hitem, heq⟩ := List.mem_map.1 hmem
    have hf := hnew item hitem
    rw [← hcs, ← heq] at hf
    have ht := (SafeString.opEq_iff item.callsign item.callsign).2 rfl
    rw [ht] at hf
    exact Bool.noConfusion hf
  have htime : toInt32 (now % 2 ^ 32) =
      if now % 2 ^ 32 < 2 ^ 31 then ((now % 2 ^ 32 : Nat) : Int)
      else ((now % 2 ^ 32 : Nat) : Int) - 2 ^ 32 := by
    unfold toInt32
    rw [Nat.mod_mod]
  refine ⟨?_, ?_, ?_⟩
  · rw [addReceivedRecord_some, if_pos ⟨hcap, hfresh⟩, hcs]
    have hp : (readLengthPrefixedString buf 0).2 = 1 + (buf 0).val := by
      simp [readLengthPrefixedString]
    have hmode : SafeString.ofCStr modeFT8 = ⟨[0x46, 0x54, 0x38]⟩ := by decide
    simp only [ReceivedRecord.new, payloadFrequency, payloadSnr, hp, loadLE32, hmode, htime]
  · intro hlt
    rw [← htime, Nat.mod_eq_of_lt (by omega)]
    exact toInt32_of_lt now hlt
  · rw [← htime, toUInt32_toInt32, Nat.mod_mod]

theorem addReceivedRecord_appends_witness :
    demoPending.recordList.length = 1 ∧
      (demoPending.addReceivedRecord 1700000300 (some demoOtherSpot)).2 = true ∧
      (demoPending.addReceivedRecord 1700000300 (some demoOtherSpot)).1.recordList =
        demoPending.recordList ++
          [{ callsign := ⟨[0x4D, 0x30, 0x58, 0x59, 0x5A]⟩
             frequency := 1000000
             snr := 0x05
             mode := ⟨[0x46, 0x54, 0x38]⟩
             infoSource := 1
             flowTimeSeconds := 1700000300 }] ∧
      (demoPending.addReceivedRecord 4000000000 (some demoOtherSpot)).1.recordList =
        demoPending.recordList ++
          [{ callsign := ⟨[0x4D, 0x30, 0x58, 0x59, 0x5A]⟩
             frequency := 1000000
             snr := 0x05
             mode := ⟨[0x46, 0x54, 0x38]⟩
             infoSource := 1
             flowTimeSeconds := -294967296 }] ∧
      toUInt32 (-294967296) = 4000000000 :=
  have h := addReceivedRecord_appends demoPending 1700000300 demoOtherSpot
    (by decide) (by decide)
  have h2 := addReceivedRecord_appends demoPending 4000000000 demoOtherSpot
    (by decide) (by decide)
  ⟨rfl, congrArg Prod.snd h.1, (congrArg (fun p => p.1.recordList) h.1).trans (by decide),
    (congrArg (fun p => p.1.recordList) h2.1).trans (by decide), h2.2.2⟩

/-- C14: for a non-null payload, `createSenderRecord` returns true, sets the
reporter callsign to the `payload[0]` bytes after the first length byte and the
grid locator to the length-prefixed string that follows, and leaves decoding
software, sequence number and pending list as they were;
`createSenderSoftwareRecord` returns true, sets the decoding software to the
first length-prefixed string and leaves everything else as it was. -/
theorem createSender_frame (self : PskReporter) (buf : Mem) :
    self.createSenderRecord (some buf) =
        ({ currentSequenceNumber := self.currentSequenceNumber
           randomIdentifier := self.randomIdentifier
           testMode := self.testMode
           reporterCallsign := ⟨Mem.read buf 1 (buf 0).val⟩
           reporterGridSquare :=
            ⟨Mem.read buf (1 + (buf 0).val + 1) (buf (1 + (buf 0).val)).val⟩
           decodingSoftware := self.decodingSoftware
           recordList := self.recordList }, true) ∧
      self.createSenderSoftwareRecord (some buf) =
        ({ currentSequenceNumber := self.currentSequenceNumber
           randomIdentifier := self.randomIdentifier
           testMode := self.testMode
           reporterCallsign := self.reporterCallsign
           reporterGridSquare := self.reporterGridSquare
           decodingSoftware := ⟨Mem.read buf 1 (buf 0).val⟩
           recordList := self.recordList }, true) := by
  constructor
  · simp only [PskReporter.createSenderRecord, readLengthPrefixedString, SafeString.ofBuf,
      Nat.zero_add, Prod.mk.injEq, and_true]
  · simp only [PskReporter.createSenderSoftwareRecord, readLengthPrefixedString,
      SafeString.ofBuf, Nat.zero_add]

/-- C15: called with a null payload, `createSenderRecord`,
`createSenderSoftwareRecord` and `addReceivedRecord` each return false and
leave the whole aggregator unchanged. -/
theorem null_payload_rejected (self : PskReporter) (now : Nat) :
    self.createSenderRecord none = (self, false) ∧
      self.createSenderSoftwareRecord none = (self, false) ∧
      self.addReceivedRecord now none = (self, false) := by
  refine ⟨?_, ?_, ?_⟩
  · simp only [PskReporter.createSenderRecord]
  · simp only [PskReporter.createSenderSoftwareRecord]
  · simp only [PskReporter.addReceivedRecord]

/-- C16: with an empty pending list `encodeReceivedRecords` returns 0 and writes
nothing, so the batch occupies no byte of the packet; with a non-empty list it
writes 0x99 0x93, the two-byte length field holding the returned size, and then
one encoding per pending record, in list order. -/
theorem empty_batch_omitted (idle busy : PskReporter)
    (hidle : idle.recordList = []) (hbusy : busy.recordList ≠ []) :
    idle.encodeReceivedRecords = ([], 0) ∧
      region idle.encodeReceivedRecords.1 idle.encodeReceivedRecords.2 = [] ∧
      busy.encodeReceivedRecords.1 =
        [0x99, 0x93] ++ htons (busy.encodeReceivedRecords.2 % 2 ^ 16)
          ++ (busy.recordList.map (fun r => (r.encode []).1)).flatten ∧
      (busy.recordList.map (fun r => (r.encode []).1)).length = busy.recordList.length := by
  have he : idle.encodeReceivedRecords = ([], 0) := by
    simp [PskReporter.encodeReceivedRecords, hidle]
  refine ⟨he, ?_, ?_, ?_⟩
  · rw [he]
    rfl
  · rw [encodeReceivedRecords_eq busy hbusy]
    simp
  · simp

theorem empty_batch_omitted_witness :
    (PskReporter.new 7 false).encodeReceivedRecords = ([], 0) ∧
      demoPending.encodeReceivedRecords.1.take 2 = [0x99, 0x93] :=
  have h := empty_batch_omitted (PskReporter.new 7 false) demoPending (by decide) (by decide)
  ⟨h.1, (congrArg (List.take 2) h.2.2.1).trans (by decide)⟩

/-! ## Lemmas: slot allocation -/

theorem allocateLoop_none (workItems : WorkItems) (n : Nat)
    (h : ∀ j : Fin MAX_WORK_ITEMS, MAX_WORK_ITEMS - n ≤ j.val →
      (workItems j).state ≠ WorkItemState.ITEM_FREE) :
    allocateLoop workItems n = (workItems, -1) := by
  induction n with
  | zero => rfl
  | succ n ih =>
    have hi := h ⟨MAX_WORK_ITEMS - (n + 1), Nat.sub_lt (by decide) (Nat.succ_pos n)⟩
      (Nat.le_refl _)
    simp only [allocateLoop, hi, if_false]
    apply ih
    intro j hj
    apply h j
    omega

theorem allocateLoop_first (workItems : WorkItems) (i : Fin MAX_WORK_ITEMS) (n : Nat)
    (hn : n ≤ MAX_WORK_ITEMS) (hstart : MAX_WORK_ITEMS - n ≤ i.val)
    (hfree : (workItems i).state = WorkItemState.ITEM_FREE)
    (hlow : ∀ j : Fin MAX_WORK_ITEMS, MAX_WORK_ITEMS - n ≤ j.val → j.val < i.val →
      (workItems j).state ≠ WorkItemState.ITEM_FREE) :
    allocateLoop workItems n =
      (Function.update workItems i
        { workItems i with state := WorkItemState.ITEM_ALLOCATED }, (i.val : Int)) := by
  induction n with
  | zero =>
    have := i.isLt
    omega
  | succ n ih =>
    have hlt := i.isLt
    by_cases heq : MAX_WORK_ITEMS - (n + 1) = i.val
    · have hi : (⟨MAX_WORK_ITEMS - (n + 1), Nat.sub_lt (by decide) (Nat.succ_pos n)⟩ :
          Fin MAX_WORK_ITEMS) = i := Fin.ext heq
      simp only [allocateLoop, hi, hfree, if_true]
      rw [heq]
    · have hne := hlow ⟨MAX_WORK_ITEMS - (n + 1), Nat.sub_lt (by decide) (Nat.succ_pos n)⟩
        (Nat.le_refl _) (by simp only []; omega)
      simp only [allocateLoop, hne, if_false]
      apply ih (by omega) (by omega)
      intro j hj1 hj2
      apply hlow j _ hj2
      omega

theorem allocateWorkItem_first (workItems : WorkItems) (i : Fin MAX_WORK_ITEMS)
    (hfree : (workItems i).state = WorkItemState.ITEM_FREE)
    (hlow : ∀ j : Fin MAX_WORK_ITEMS, j.val < i.val →
      (workItems j).state ≠ WorkItemState.ITEM_FREE) :
    allocateWorkItem workItems =
      (Function.update workItems i
        { workItems i with state := WorkItemState.ITEM_ALLOCATED }, (i.val : Int)) :=
  allocateLoop_first workItems i MAX_WORK_ITEMS (Nat.le_refl _) (by simp) hfree
    (fun j _ hj => hlow j hj)

theorem allocateWorkItem_none (workItems : WorkItems)
    (h : ∀ j : Fin MAX_WORK_ITEMS, (workItems j).state ≠ WorkItemState.ITEM_FREE) :
    allocateWorkItem workItems = (workItems, -1) :=
  allocateLoop_none workItems MAX_WORK_ITEMS (fun j _ => h j)

/-- Every array either has a lowest FREE slot or none at all. -/
theorem lowest_free_or_none (workItems : WorkItems) :
    (∃ i : Fin MAX_WORK_ITEMS, (workItems i).state = WorkItemState.ITEM_FREE ∧
      ∀ j : Fin MAX_WORK_ITEMS, j.val < i.val →
        (workItems j).state ≠ WorkItemState.ITEM_FREE) ∨
    (∀ j : Fin MAX_WORK_ITEMS, (workItems j).state ≠ WorkItemState.ITEM_FREE) := by
  by_cases h : ∃ k : Nat, ∃ hk : k < MAX_WORK_ITEMS,
      (workItems ⟨k, hk⟩).state = WorkItemState.ITEM_FREE
  · left
    obtain ⟨hk, hfree⟩ := Nat.find_spec h
    refine ⟨⟨Nat.find h, hk⟩, hfree, ?_⟩
    intro j hj hjfree
    exact Nat.find_min h hj ⟨j.isLt, hjfree⟩
  · right
    intro j hj
    exact h ⟨j.val, j.isLt, hj⟩

theorem not_free_iff (s : WorkItemState) :
    s ≠ WorkItemState.ITEM_FREE ↔ s = WorkItemState.ITEM_ALLOCATED := by
  cases s <;> simp

/-! ## Lemmas: enqueue and dequeue -/

theorem addWorkQueueItem_rejected (q : WorkQueue) (operation : I2COperation)
    (buffer : Option Mem) (bufferSize : Int)
    (h : ∀ j : Fin MAX_WORK_ITEMS, (q.workItems j).state ≠ WorkItemState.ITEM_FREE) :
    addWorkQueueItem q operation buffer bufferSize = .ok q := by
  simp [addWorkQueueItem, allocateWorkItem_none q.workItems h]

theorem addWorkQueueItem_accepted (q : WorkQueue) (operation : I2COperation)
    (buffer : Option Mem) (bufferSize : Int) (i : Fin MAX_WORK_ITEMS)
    (hfree : (q.workItems i).state = WorkItemState.ITEM_FREE)
    (hlow : ∀ j : Fin MAX_WORK_ITEMS, j.val < i.val →
      (q.workItems j).state ≠ WorkItemState.ITEM_FREE)
    (hsize : buffer.isSome = true → bufferSize ≤ 32)
    (hroom : q.workQueue.length < MAX_WORK_ITEMS) :
    addWorkQueueItem q operation buffer bufferSize =
      .ok { workItems := Function.update q.workItems i
              { state := WorkItemState.ITEM_ALLOCATED
                operation := operation
                buffer :=
                  if (Request.mk operation buffer bufferSize).hasPayload = true then
                    (Request.mk operation buffer bufferSize).payload
                  else (q.workItems i).buffer }
            workQueue := q.workQueue ++ [i.val] } := by
  have hi : ((i.val : Int)).toNat = i.val := Int.toNat_natCast _
  have hlt : ((i.val : Int)).toNat < MAX_WORK_ITEMS := by rw [hi]; exact i.isLt
  have hge : (i.val : Int) ≥ 0 := Int.natCast_nonneg _
  have hfin : (⟨((i.val : Int)).toNat, hlt⟩ : Fin MAX_WORK_ITEMS) = i := Fin.ext hi
  simp only [addWorkQueueItem, allocateWorkItem_first q.workItems i hfree hlow, hge, hlt,
    if_true, dite_true, hfin, Function.update_same, hi]
  cases buffer with
  | none =>
    simp [Request.hasPayload, hroom, Function.update_idem]
  | some buf =>
    by_cases hpos : bufferSize > 0
    · have h32 : bufferSize ≤ 32 := hsize rfl
      have hfit : bufferSize.toNat ≤ BUFFER_SIZE := by
        simp only [BUFFER_SIZE]
        omega
      simp [Request.hasPayload, Request.payload, hpos, hfit, hroom]
    · simp [Request.hasPayload, hpos, hroom]

theorem holds_allocated (q : WorkQueue) (l : List Nat) (p : List (Request × List Byte))
    (h : List.Forall₂ q.Holds l p) :
    ∀ index ∈ l, ∃ hlt : index < MAX_WORK_ITEMS,
      (q.workItems ⟨index, hlt⟩).state = WorkItemState.ITEM_ALLOCATED := by
  induction h with
  | nil => intro index hmem; simp at hmem
  | cons hab _ ih =>
    intro index hmem
    rcases List.mem_cons.1 hmem with rfl | hmem
    · obtain ⟨hlt, hst, -⟩ := hab
      exact ⟨hlt, hst⟩
    · exact ih index hmem

theorem holds_of_agree (q q1 : WorkQueue) (i : Fin MAX_WORK_ITEMS) (l : List Nat)
    (p : List (Request × List Byte)) (h : List.Forall₂ q.Holds l p) (hni : i.val ∉ l)
    (hagree : ∀ j : Fin MAX_WORK_ITEMS, j ≠ i → q1.workItems j = q.workItems j) :
    List.Forall₂ q1.Holds l p := by
  induction h with
  | nil => exact List.Forall₂.nil
  | @cons a b l1 l2 hab _ ih =>
    have hne : a ≠ i.val := fun e => hni (e ▸ List.mem_cons_self _ _)
    refine List.Forall₂.cons ?_ (ih (fun hm => hni (List.mem_cons_of_mem _ hm)))
    obtain ⟨hlt, hst, hop, hbuf⟩ := hab
    have hj : (⟨a, hlt⟩ : Fin MAX_WORK_ITEMS) ≠ i := fun e => hne (congrArg Fin.val e)
    refine ⟨hlt, ?_, ?_, ?_⟩
    · rw [hagree _ hj]; exact hst
    · rw [hagree _ hj]; exact hop
    · rw [hagree _ hj]; exact hbuf

theorem fifo_has_room (q : WorkQueue) (i : Fin MAX_WORK_ITEMS) (hnd : q.workQueue.Nodup)
    (hall : ∀ index ∈ q.workQueue, ∃ hlt : index < MAX_WORK_ITEMS,
      (q.workItems ⟨index, hlt⟩).state = WorkItemState.ITEM_ALLOCATED)
    (hfree : (q.workItems i).state = WorkItemState.ITEM_FREE) :
    i.val ∉ q.workQueue ∧ q.workQueue.length < MAX_WORK_ITEMS := by
  have hni : i.val ∉ q.workQueue := by
    intro hmem
    obtain ⟨hlt, hst⟩ := hall i.val hmem
    have e : (⟨i.val, hlt⟩ : Fin MAX_WORK_ITEMS) = i := Fin.ext rfl
    rw [e, hfree] at hst
    exact WorkItemState.noConfusion hst
  refine ⟨hni, ?_⟩
  have hsub : q.workQueue ⊆ (List.range MAX_WORK_ITEMS).erase i.val := by
    intro index hmem
    obtain ⟨hlt, -⟩ := hall index hmem
    have hne : index ≠ i.val := fun e => hni (e ▸ hmem)
    exact (List.mem_erase_of_ne hne).2 (List.mem_range.2 hlt)
  have hle := (List.subperm_of_subset hnd hsub).length_le
  rw [List.length_erase_of_mem (List.mem_range.2 i.isLt), List.length_range] at hle
  have : MAX_WORK_ITEMS = 20 := rfl
  omega

theorem bufferAt_fin (q : WorkQueue) (i : Fin MAX_WORK_ITEMS) :
    q.bufferAt i.val = (q.workItems i).buffer := by
  simp only [WorkQueue.bufferAt, i.isLt, dite_true, Fin.eta]

theorem step_add_accepted (s : QueueRun) (r : Request) (i : Fin MAX_WORK_ITEMS)
    (hfree : (s.queue.workItems i).state = WorkItemState.ITEM_FREE)
    (hlow : ∀ j : Fin MAX_WORK_ITEMS, j.val < i.val →
      (s.queue.workItems j).state ≠ WorkItemState.ITEM_FREE)
    (hfit : r.buffer.isSome = true → r.bufferSize ≤ 32)
    (hroom : s.queue.workQueue.length < MAX_WORK_ITEMS) :
    s.step (.add r) = .ok
      { queue :=
          { workItems := Function.update s.queue.workItems i
              { state := WorkItemState.ITEM_ALLOCATED
                operation := r.operation
                buffer := if r.hasPayload = true then r.payload
                  else (s.queue.workItems i).buffer }
            workQueue := s.queue.workQueue ++ [i.val] }
        accepted := s.accepted ++
          [(r, if r.hasPayload = true then r.payload else (s.queue.workItems i).buffer)]
        called := s.called } := by
  have hadd := addWorkQueueItem_accepted s.queue r.operation r.buffer r.bufferSize i hfree hlow
    hfit hroom
  have halloc := allocateWorkItem_first s.queue.workItems i hfree hlow
  have hge : (i.val : Int) ≥ 0 := Int.natCast_nonneg _
  have hi : ((i.val : Int)).toNat = i.val := Int.toNat_natCast _
  have e : (Request.mk r.operation r.buffer r.bufferSize) = r := rfl
  rw [e] at hadd
  simp only [QueueRun.step, hadd, halloc, hge, if_true, hi, bufferAt_fin, Function.update_same]

theorem step_add_rejected (s : QueueRun) (r : Request)
    (hnone : ∀ j : Fin MAX_WORK_ITEMS, (s.queue.workItems j).state ≠ WorkItemState.ITEM_FREE) :
    s.step (.add r) = .ok s := by
  have hadd := addWorkQueueItem_rejected s.queue r.operation r.buffer r.bufferSize hnone
  have halloc := allocateWorkItem_none s.queue.workItems hnone
  simp only [QueueRun.step, hadd, halloc]
  rfl

theorem step_add_ordered (s : QueueRun) (r : Request)
    (hfit : r.buffer.isSome = true → r.bufferSize ≤ 32) (hord : s.Ordered) :
    ∃ s1, s.step (.add r) = .ok s1 ∧ s1.Ordered := by
  obtain ⟨hnd, hstored, done, pending, hacc, hdone, hpend⟩ := hord
  have hall := holds_allocated s.queue _ _ hpend
  rcases lowest_free_or_none s.queue.workItems with ⟨i, hfree, hlow⟩ | hnone
  · obtain ⟨hni, hroom⟩ := fifo_has_room s.queue i hnd hall hfree
    refine ⟨_, step_add_accepted s r i hfree hlow hfit hroom, ?_⟩
    refine ⟨?_, ?_, done, pending ++ [(r, if r.hasPayload = true then r.payload
      else (s.queue.workItems i).buffer)], ?_, hdone, ?_⟩
    · exact List.nodup_append.2 ⟨hnd, List.nodup_singleton _, by
        intro a ha hb
        rw [List.mem_singleton] at hb
        exact hni (hb ▸ ha)⟩
    · intro a ha
      rcases List.mem_append.1 ha with ha | ha
      · exact hstored a ha
      · rw [List.mem_singleton] at ha
        subst ha
        intro hp
        simp only [hp, if_true]
    · simp only [hacc, List.append_assoc]
    · apply List.rel_append
      · apply holds_of_agree s.queue _ i _ _ hpend hni
        intro j hj
        exact Function.update_noteq hj _ _
      · refine List.Forall₂.cons ?_ List.Forall₂.nil
        refine ⟨i.isLt, ?_, ?_, ?_⟩
        · simp only [Fin.eta, Function.update_same]
        · simp only [Fin.eta, Function.update_same]
        · simp only [Fin.eta, Function.update_same]
  · exact ⟨s, step_add_rejected s r hnone, hnd, hstored, done, pending, hacc, hdone, hpend⟩

theorem processWorkQueue_empty (q : WorkQueue) (h : q.workQueue = []) :
    processWorkQueue q = .ok (q, none) := by
  simp only [processWorkQueue, h]

theorem processWorkQueue_head (q : WorkQueue) (index : Nat) (rest : List Nat)
    (h : q.workQueue = index :: rest) (hlt : index < MAX_WORK_ITEMS) :
    processWorkQueue q =
      .ok ({ workItems := Function.update q.workItems ⟨index, hlt⟩
                { q.workItems ⟨index, hlt⟩ with state := WorkItemState.ITEM_FREE }
             workQueue := rest },
        some (dispatch (q.workItems ⟨index, hlt⟩).operation (q.workItems ⟨index, hlt⟩).buffer)) := by
  simp only [processWorkQueue, h, hlt, dite_true]

theorem dispatchedAs_dispatch (a : Request × List Byte) :
    DispatchedAs a (dispatch a.1.operation a.2) := by
  unfold DispatchedAs
  cases a.1.operation <;> simp [dispatch]

/-- One `processWorkQueue` call in an ordered run: with an item waiting, it
calls the handler of the oldest waiting request; with none, it calls nothing. -/
theorem step_process_next (s : QueueRun) (hord : s.Ordered) :
    ∃ s1 hs, s.step .process = .ok s1 ∧ s1.Ordered ∧ s1.accepted = s.accepted ∧
      s1.called = s.called ++ hs ∧
      List.Forall₂ DispatchedAs ((s.accepted.drop s.called.length).take 1) hs ∧
      s1.queue.workQueue = s.queue.workQueue.drop 1 := by
  obtain ⟨hnd, hstored, done, pending, hacc, hdone, hpend⟩ := hord
  have hdrop : s.accepted.drop s.called.length = pending := by
    rw [hacc, ← hdone.length_eq]
    exact List.drop_left' rfl
  rw [hdrop]
  cases hq : s.queue.workQueue with
  | nil =>
    rw [hq] at hpend
    cases hpend
    have hstep : s.step .process = .ok s := by
      simp only [QueueRun.step, processWorkQueue_empty s.queue hq]
    exact ⟨s, [], hstep,
      ⟨hnd, hstored, done, [], hacc, hdone, by rw [hq]; exact List.Forall₂.nil⟩, rfl,
      (List.append_nil _).symm, List.Forall₂.nil, by rw [hq]; rfl⟩
  | cons index rest =>
    rw [hq] at hpend hnd
    cases hpend with
    | @cons _ r _ prest hab hrest =>
      obtain ⟨hlt, hst, hop, hbuf⟩ := hab
      have hni : index ∉ rest := (List.nodup_cons.1 hnd).1
      have hstep : s.step .process = .ok
          { queue :=
              { workItems := Function.update s.queue.workItems ⟨index, hlt⟩
                  { s.queue.workItems ⟨index, hlt⟩ with state := WorkItemState.ITEM_FREE }
                workQueue := rest }
            accepted := s.accepted
            called := s.called ++ [dispatch (s.queue.workItems ⟨index, hlt⟩).operation
              (s.queue.workItems ⟨index, hlt⟩).buffer] } := by
        simp only [QueueRun.step, processWorkQueue_head s.queue index rest hq hlt]
      refine ⟨_, [dispatch (s.queue.workItems ⟨index, hlt⟩).operation
          (s.queue.workItems ⟨index, hlt⟩).buffer], hstep, ?_, rfl, rfl, ?_, rfl⟩
      · refine ⟨(List.nodup_cons.1 hnd).2, hstored, done ++ [r], prest, ?_, ?_, ?_⟩
        · simp only [hacc, List.append_assoc, List.singleton_append]
        · apply List.rel_append hdone
          refine List.Forall₂.cons ?_ List.Forall₂.nil
          rw [hop, hbuf]
          exact dispatchedAs_dispatch r
        · apply holds_of_agree s.queue _ ⟨index, hlt⟩ _ _ hrest hni
          intro j hj
          exact Function.update_noteq hj _ _
      · refine List.Forall₂.cons ?_ List.Forall₂.nil
        rw [hop, hbuf]
        exact dispatchedAs_dispatch r

theorem step_process_ordered (s : QueueRun) (hord : s.Ordered) :
    ∃ s1, s.step .process = .ok s1 ∧ s1.Ordered := by
  obtain ⟨s1, -, hstep, hord1, -⟩ := step_process_next s hord
  exact ⟨s1, hstep, hord1⟩

theorem start_ordered : QueueRun.start.Ordered :=
  ⟨List.nodup_nil, fun a ha => absurd ha (List.not_mem_nil a), [], [], rfl, List.Forall₂.nil,
    List.Forall₂.nil⟩

theorem run_ordered (calls : List QueueCall) (s : QueueRun) (hord : s.Ordered)
    (hfit : ∀ c ∈ calls, c.Fits) :
    ∃ s1, s.run calls = .ok s1 ∧ s1.Ordered := by
  induction calls generalizing s with
  | nil => exact ⟨s, rfl, hord⟩
  | cons c rest ih =>
    have hstep : ∃ s1, s.step c = .ok s1 ∧ s1.Ordered := by
      cases c with
      | add r => exact step_add_ordered s r (hfit (.add r) (List.mem_cons_self _ _)) hord
      | process => exact step_process_ordered s hord
    obtain ⟨s1, hs1, hord1⟩ := hstep
    obtain ⟨s2, hs2, hord2⟩ := ih s1 hord1 (fun x hx => hfit x (List.mem_cons_of_mem _ hx))
    exact ⟨s2, by simp only [QueueRun.run, hs1, hs2], hord2⟩

theorem ordered_consistent (s : QueueRun) (hord : s.Ordered) : s.queue.Consistent := by
  obtain ⟨hnd, -, done, pending, -, -, hpend⟩ := hord
  exact ⟨hnd, holds_allocated s.queue _ _ hpend⟩

theorem ordered_called (s : QueueRun) (hord : s.Ordered) :
    List.Forall₂ DispatchedAs (s.accepted.take s.called.length) s.called ∧
      s.called.length ≤ s.accepted.length := by
  obtain ⟨-, -, done, pending, hacc, hdone, -⟩ := hord
  have hlen := hdone.length_eq
  rw [hacc, ← hlen]
  simp only [List.take_left', List.length_append]
  exact ⟨hdone, by omega⟩

theorem ordered_count (s : QueueRun) (hord : s.Ordered) :
    s.called.length + s.queue.workQueue.length = s.accepted.length := by
  obtain ⟨-, -, done, pending, hacc, hdone, hpend⟩ := hord
  rw [hacc, List.length_append, hdone.length_eq, hpend.length_eq]

theorem take_succ_split {α : Type} (l : List α) (m k : Nat) (hk : k = (l.take 1).length) :
    l.take (m + 1) = l.take 1 ++ (l.drop k).take m := by
  subst hk
  cases l <;> simp

/-- Successive `processWorkQueue` calls in an ordered run call the handlers of
the waiting requests, oldest first, and stop calling when none is left. -/
theorem run_process_next (m : Nat) (s : QueueRun) (hord : s.Ordered) :
    ∃ s1 hs, s.run (List.replicate m QueueCall.process) = .ok s1 ∧ s1.Ordered ∧
      s1.accepted = s.accepted ∧ s1.called = s.called ++ hs ∧
      List.Forall₂ DispatchedAs ((s.accepted.drop s.called.length).take m) hs ∧
      s1.queue.workQueue = s.queue.workQueue.drop m := by
  induction m generalizing s with
  | zero =>
    exact ⟨s, [], rfl, hord, rfl, (List.append_nil _).symm, by
      rw [List.take_zero]; exact List.Forall₂.nil, rfl⟩
  | succ m ih =>
    obtain ⟨s1, hs1, hstep, hord1, hacc1, hcalled1, hdisp1, hq1⟩ := step_process_next s hord
    obtain ⟨s2, hs2, hrun, hord2, hacc2, hcalled2, hdisp2, hq2⟩ := ih s1 hord1
    refine ⟨s2, hs1 ++ hs2, ?_, hord2, hacc2.trans hacc1,
      by rw [hcalled2, hcalled1, List.append_assoc], ?_, ?_⟩
    · simp only [List.replicate_succ, QueueRun.run, hstep]
      exact hrun
    · rw [take_succ_split _ m hs1.length hdisp1.length_eq.symm]
      apply List.rel_append hdisp1
      rw [hacc1, hcalled1, List.length_append] at hdisp2
      rw [List.drop_drop]
      exact hdisp2
    · rw [hq2, hq1, List.drop_drop, Nat.add_comm]

/-! ## Lemmas: a burst of requests on the initialised queue -/

theorem run_append (s s1 : QueueRun) (a b : List QueueCall) (h : s.run a = .ok s1) :
    s.run (a ++ b) = s1.run b := by
  induction a generalizing s with
  | nil =>
    simp only [QueueRun.run, Except.ok.injEq] at h
    rw [List.nil_append, h]
  | cons c rest ih =>
    simp only [List.cons_append, QueueRun.run] at h ⊢
    cases hc : s.step c with
    | error e => rw [hc] at h; exact Except.noConfusion h
    | ok s2 =>
      rw [hc] at h
      simp only [] at h ⊢
      exact ih s2 h

theorem payload_of_no_payload (r : Request) (h : ¬ r.hasPayload = true) :
    r.payload = List.replicate BUFFER_SIZE 0 := by
  cases hb : r.buffer with
  | none => simp [Request.payload, hb]
  | some buf =>
    by_cases hpos : r.bufferSize > 0
    · exact absurd (by simp [Request.hasPayload, hb, hpos]) h
    · simp [Request.payload, hb, hpos]

theorem run_rejected (more : List Request) (s : QueueRun)
    (hfull : ∀ j : Fin MAX_WORK_ITEMS, (s.queue.workItems j).state ≠ WorkItemState.ITEM_FREE) :
    s.run (more.map QueueCall.add) = .ok s := by
  induction more with
  | nil => rfl
  | cons r rest ih =>
    have hstep : s.step (.add r) = .ok s := step_add_rejected s r hfull
    simp only [List.map_cons, QueueRun.run, hstep]
    exact ih

theorem burst_prefix (reqs : List Request) (hlen : reqs.length ≤ MAX_WORK_ITEMS)
    (hfit : ∀ r ∈ reqs, r.buffer.isSome = true → r.bufferSize ≤ 32) :
    ∃ s, QueueRun.start.run (reqs.map QueueCall.add) = .ok s ∧
      s.queue.workQueue = List.range reqs.length ∧
      s.accepted = reqs.map (fun r => (r, r.payload)) ∧ s.called = [] ∧
      (∀ (i : Fin MAX_WORK_ITEMS) (r : Request), reqs[i.val]? = some r →
        s.queue.workItems i =
          { state := WorkItemState.ITEM_ALLOCATED, operation := r.operation,
            buffer := r.payload }) ∧
      (∀ i : Fin MAX_WORK_ITEMS, reqs.length ≤ i.val →
        s.queue.workItems i =
          { state := WorkItemState.ITEM_FREE, operation := I2COperation.OP_TIME_REQUEST,
            buffer := List.replicate BUFFER_SIZE 0 }) := by
  induction reqs using List.reverseRecOn with
  | nil =>
    refine ⟨QueueRun.start, rfl, rfl, rfl, rfl, ?_, ?_⟩
    · intro i r hr
      simp at hr
    · intro i _
      rfl
  | append_singleton front r ih =>
    have hlen1 : front.length < MAX_WORK_ITEMS := by
      simp only [List.length_append, List.length_singleton] at hlen
      omega
    obtain ⟨s, hrun, hq, hacc, hcalled, hheld, hfree⟩ :=
      ih (by omega) (fun x hx => hfit x (List.mem_append_left _ hx))
    have hslot := hfree ⟨front.length, hlen1⟩ (Nat.le_refl _)
    have hfr : (s.queue.workItems ⟨front.length, hlen1⟩).state = WorkItemState.ITEM_FREE := by
      rw [hslot]
    have hlow : ∀ j : Fin MAX_WORK_ITEMS, j.val < front.length →
        (s.queue.workItems j).state ≠ WorkItemState.ITEM_FREE := by
      intro j hj
      obtain ⟨x, hx⟩ : ∃ x, front[j.val]? = some x :=
        ⟨front[j.val], List.getElem?_eq_getElem hj⟩
      rw [hheld j x hx]
      exact fun e => WorkItemState.noConfusion e
    have hroom : s.queue.workQueue.length < MAX_WORK_ITEMS := by
      rw [hq, List.length_range]
      exact hlen1
    have hbuf : (if r.hasPayload = true then r.payload
        else (s.queue.workItems ⟨front.length, hlen1⟩).buffer) = r.payload := by
      by_cases hp : r.hasPayload = true
      · rw [if_pos hp]
      · rw [if_neg hp, hslot, payload_of_no_payload r hp]
    have hstep0 := step_add_accepted s r ⟨front.length, hlen1⟩ hfr hlow
      (hfit r (List.mem_append_right _ (List.mem_singleton_self _))) hroom
    rw [hbuf] at hstep0
    obtain ⟨s1, hstep, hw, hfifo, hacc1, hcalled1⟩ : ∃ s1, s.step (.add r) = .ok s1 ∧
        s1.queue.workItems = Function.update s.queue.workItems ⟨front.length, hlen1⟩
          { state := WorkItemState.ITEM_ALLOCATED
            operation := r.operation
            buffer := r.payload } ∧
        s1.queue.workQueue = s.queue.workQueue ++ [front.length] ∧
        s1.accepted = s.accepted ++ [(r, r.payload)] ∧ s1.called = s.called :=
      ⟨_, hstep0, rfl, rfl, rfl, rfl⟩
    refine ⟨s1, ?_, ?_, ?_, ?_, ?_, ?_⟩
    · rw [List.map_append, run_append _ s _ _ hrun]
      simp only [List.map_cons, List.map_nil, QueueRun.run, hstep]
    · simp only [hfifo, hq, List.length_append, List.length_singleton, List.range_succ]
    · simp only [hacc1, hacc, List.map_append, List.map_cons, List.map_nil]
    · rw [hcalled1]
      exact hcalled
    · intro i x hx
      by_cases hi : i.val = front.length
      · have hie : i = ⟨front.length, hlen1⟩ := Fin.ext hi
        have hxr : x = r := by
          rw [hi, List.getElem?_append_right (Nat.le_refl _)] at hx
          simpa using hx.symm
        subst hxr
        simp only [hw, hie, Function.update_same]
      · have hne : i ≠ ⟨front.length, hlen1⟩ := fun e => hi (congrArg Fin.val e)
        have hlt : i.val < front.length := by
          have hsome : i.val < (front ++ [r]).length := by
            by_contra hcon
            rw [List.getElem?_eq_none (by omega)] at hx
            exact Option.noConfusion hx
          simp only [List.length_append, List.length_singleton] at hsome
          omega
        rw [List.getElem?_append_left hlt] at hx
        rw [hw, Function.update_noteq hne]
        exact hheld i x hx
    · intro i hi
      simp only [List.length_append, List.length_singleton] at hi
      have hne : i ≠ ⟨front.length, hlen1⟩ := fun e => by
        have := congrArg Fin.val e
        simp only [] at this
        omega
      rw [hw, Function.update_noteq hne]
      exact hfree i (by omega)

/-! ## Claims about the work queue -/

/-- C17: `allocateWorkItem` returns the lowest index whose slot is FREE, marks
that slot ALLOCATED and changes nothing else in the array; when all twenty slots
are ALLOCATED it returns -1 and `addWorkQueueItem` leaves slots and FIFO as they
were; after `initialiseWorkQueue` every slot is FREE and the FIFO is empty. -/
theorem allocate_lowest_free (workItems : WorkItems) (i : Fin MAX_WORK_ITEMS)
    (full : WorkQueue) (operation : I2COperation) (buffer : Option Mem) (bufferSize : Int)
    (hfree : (workItems i).state = WorkItemState.ITEM_FREE)
    (hlow : ∀ j : Fin MAX_WORK_ITEMS, j.val < i.val →
      (workItems j).state = WorkItemState.ITEM_ALLOCATED)
    (hfull : ∀ j : Fin MAX_WORK_ITEMS,
      (full.workItems j).state = WorkItemState.ITEM_ALLOCATED) :
    (allocateWorkItem workItems).2 = (i.val : Int) ∧
      (allocateWorkItem workItems).1 i =
        { state := WorkItemState.ITEM_ALLOCATED
          operation := (workItems i).operation
          buffer := (workItems i).buffer } ∧
      (∀ j : Fin MAX_WORK_ITEMS, j ≠ i → (allocateWorkItem workItems).1 j = workItems j) ∧
      allocateWorkItem full.workItems = (full.workItems, -1) ∧
      addWorkQueueItem full operation buffer bufferSize = .ok full ∧
      (∀ j : Fin MAX_WORK_ITEMS,
        (initialiseWorkQueue.workItems j).state = WorkItemState.ITEM_FREE) ∧
      initialiseWorkQueue.workQueue = [] := by
  have hlow1 : ∀ j : Fin MAX_WORK_ITEMS, j.val < i.val →
      (workItems j).state ≠ WorkItemState.ITEM_FREE := by
    intro j hj e
    have := hlow j hj
    rw [e] at this
    exact WorkItemState.noConfusion this
  have hfull1 : ∀ j : Fin MAX_WORK_ITEMS,
      (full.workItems j).state ≠ WorkItemState.ITEM_FREE := by
    intro j e
    have := hfull j
    rw [e] at this
    exact WorkItemState.noConfusion this
  have ha := allocateWorkItem_first workItems i hfree hlow1
  refine ⟨?_, ?_, ?_, allocateWorkItem_none full.workItems hfull1,
    addWorkQueueItem_rejected full operation buffer bufferSize hfull1, fun _ => rfl, rfl⟩
  · rw [ha]
  · rw [ha]
    exact Function.update_same _ _ _
  · intro j hj
    rw [ha]
    exact Function.update_noteq hj _ _

theorem allocate_lowest_free_witness :
    (allocateWorkItem demoSlots).2 = 2 ∧
      ((allocateWorkItem demoSlots).1 ⟨2, by decide⟩).state = WorkItemState.ITEM_ALLOCATED ∧
      allocateWorkItem demoFull.workItems = (demoFull.workItems, -1) :=
  have h := allocate_lowest_free demoSlots ⟨2, by decide⟩ demoFull I2COperation.OP_SEND_REQUEST none 0
    (by decide) (by decide) (by decide)
  ⟨h.1, congrArg WorkItem.state h.2.1, h.2.2.2.1⟩

/-- C18 (as stated, refuted): a send request with no payload (n = 0) that is
given the slot a sender record used before leaves the bytes of that record in
the slot buffer; the buffer is not zero-filled. -/
theorem enqueue_without_payload_keeps_buffer :
    (QueueRun.start.run demoReuse).toOption.map
        (fun s => (s.accepted.length, s.queue.workQueue, (s.queue.workItems ⟨0, by decide⟩).state,
          (s.queue.workItems ⟨0, by decide⟩).operation, (s.queue.workItems ⟨0, by decide⟩).buffer)) =
      some (2, [0], WorkItemState.ITEM_ALLOCATED, I2COperation.OP_SEND_REQUEST,
        [0x41, 0x42, 0x43] ++ List.replicate 29 0) ∧
    ([0x41, 0x42, 0x43] ++ List.replicate 29 0 : List Byte) ≠ List.replicate 32 0 := by
  decide

/-- C18 (amended): when `addWorkQueueItem` is given a slot (the lowest FREE one,
in a queue whose FIFO names only ALLOCATED slots, each once), the slot
afterwards is ALLOCATED with the operation tag of the call, its index is
appended at the tail of the FIFO and no other slot changes; with a non-null
payload of 1 to 32 bytes the slot buffer is those bytes followed by zero bytes up
to 32, whatever the slot held before; with a null payload or a size of 0 or
less the slot buffer keeps what it held. -/
theorem enqueue_stores_payload (q : WorkQueue) (operation : I2COperation)
    (buffer : Option Mem) (bufferSize : Int) (i : Fin MAX_WORK_ITEMS)
    (hq : q.Consistent)
    (hfree : (q.workItems i).state = WorkItemState.ITEM_FREE)
    (hlow : ∀ j : Fin MAX_WORK_ITEMS, j.val < i.val →
      (q.workItems j).state = WorkItemState.ITEM_ALLOCATED)
    (hsize : buffer.isSome = true → bufferSize ≤ 32) :
    ∃ q1, addWorkQueueItem q operation buffer bufferSize = .ok q1 ∧
      q1.workQueue = q.workQueue ++ [i.val] ∧
      (q1.workItems i).state = WorkItemState.ITEM_ALLOCATED ∧
      (q1.workItems i).operation = operation ∧
      (∀ buf, buffer = some buf → 0 < bufferSize →
        (q1.workItems i).buffer =
          buf.read 0 bufferSize.toNat ++ List.replicate (32 - bufferSize.toNat) 0 ∧
        (q1.workItems i).buffer.length = 32) ∧
      ((buffer = none ∨ bufferSize ≤ 0) → (q1.workItems i).buffer = (q.workItems i).buffer) ∧
      ∀ j : Fin MAX_WORK_ITEMS, j ≠ i → q1.workItems j = q.workItems j := by
  have hlow1 : ∀ j : Fin MAX_WORK_ITEMS, j.val < i.val →
      (q.workItems j).state ≠ WorkItemState.ITEM_FREE := by
    intro j hj e
    have := hlow j hj
    rw [e] at this
    exact WorkItemState.noConfusion this
  obtain ⟨-, hroom⟩ := fifo_has_room q i hq.1 hq.2 hfree
  refine ⟨_, addWorkQueueItem_accepted q operation buffer bufferSize i hfree hlow1 hsize hroom,
    rfl, ?_, ?_, ?_, ?_, ?_⟩
  · simp only [Function.update_same]
  · simp only [Function.update_same]
  · intro buf hbuf hpos
    subst hbuf
    have h32 : bufferSize ≤ 32 := hsize rfl
    simp only [Function.update_same, Request.hasPayload, Request.payload, Option.isSome_some,
      Bool.true_and, decide_eq_true_eq, gt_iff_lt, hpos, if_true, BUFFER_SIZE, true_and]
    simp only [List.length_append, Mem.read, List.length_map, List.length_range,
      List.length_replicate]
    omega
  · intro hno
    simp only [Function.update_same]
    rw [if_neg]
    rcases hno with hnone | hle
    · simp [Request.hasPayload, hnone]
    · have : ¬ bufferSize > 0 := by omega
      simp [Request.hasPayload, this]
  · intro j hj
    exact Function.update_noteq hj _ _

theorem enqueue_stores_payload_witness :
    ∃ q1, addWorkQueueItem demoWaiting I2COperation.OP_SENDER_RECORD
        (some (Mem.ofList [0x41, 0x42, 0x43])) 3 = .ok q1 ∧
      q1.workQueue = demoWaiting.workQueue ++ [2] ∧
      (q1.workItems ⟨2, by decide⟩).operation = I2COperation.OP_SENDER_RECORD ∧
      (q1.workItems ⟨2, by decide⟩).buffer = [0x41, 0x42, 0x43] ++ List.replicate 29 0 :=
  have h := enqueue_stores_payload demoWaiting I2COperation.OP_SENDER_RECORD
    (some (Mem.ofList [0x41, 0x42, 0x43])) 3 ⟨2, by decide⟩ (by decide) (by decide) (by decide) (by decide)
  h.imp fun q1 hq1 =>
    ⟨hq1.1, hq1.2.1, hq1.2.2.2.1,
      ((hq1.2.2.2.2.1 (Mem.ofList [0x41, 0x42, 0x43]) rfl (by decide)).1).trans (by decide)⟩

/-- C19: on the initialised queue, a burst of more than 20 requests with no
dequeue in between is served by accepting exactly the first 20: they wait in
the FIFO in request order, slot i holds the tag and payload of request i, and
the later requests change nothing.  After the burst, m calls of
`processWorkQueue` call exactly min(m, 20) handlers: the k-th is the handler
that belongs to the tag of the k-th request of the burst, with that request's
payload, and the FIFO holds the slots of the requests not yet served.  And
after any sequence of enqueue and dequeue calls from the initialised queue,
every accepted request has either been dispatched or waits in the FIFO; the
handlers called so far are, in order, those of the first accepted requests,
each the handler of its request's tag with the buffer that request's slot held
when its enqueue returned, which is the request's payload when it carries one;
and n further calls of `processWorkQueue` change no accepted request and call,
in the order of acceptance, the handlers of the next accepted requests, as many
as wait but no more than n.  Payloads are at most 32 bytes long. -/
theorem burst_and_fifo_order (reqs : List Request) (calls : List QueueCall) (m n : Nat)
    (hk : 20 < reqs.length)
    (hreqs : ∀ r ∈ reqs, r.Fits)
    (hcalls : ∀ c ∈ calls, c.Fits) :
    (∃ s, QueueRun.start.run (reqs.map QueueCall.add) = .ok s ∧
      s.accepted.map Prod.fst = reqs.take 20 ∧ s.called = [] ∧
      s.queue.workQueue = List.range 20 ∧
      ∀ (i : Fin MAX_WORK_ITEMS) (r : Request), reqs[i.val]? = some r →
        s.queue.workItems i =
          { state := WorkItemState.ITEM_ALLOCATED, operation := r.operation,
            buffer := r.payload }) ∧
    (∃ s, QueueRun.start.run
        (reqs.map QueueCall.add ++ List.replicate m QueueCall.process) = .ok s ∧
      s.accepted.map Prod.fst = reqs.take 20 ∧
      s.called.length = min m 20 ∧
      List.Forall₂ (fun r called => DispatchedAs (r, r.payload) called)
        (reqs.take (min m 20)) s.called ∧
      s.queue.workQueue = (List.range 20).drop m) ∧
    (∃ s, QueueRun.start.run calls = .ok s ∧
      s.called.length + s.queue.workQueue.length = s.accepted.length ∧
      List.Forall₂ DispatchedAs (s.accepted.take s.called.length) s.called ∧
      (∀ a ∈ s.accepted, a.1.hasPayload = true → a.2 = a.1.payload) ∧
      ∃ s1 next, s.run (List.replicate n QueueCall.process) = .ok s1 ∧
        s1.accepted = s.accepted ∧ s1.called = s.called ++ next ∧
        List.Forall₂ DispatchedAs ((s.accepted.drop s.called.length).take n) next ∧
        next.length = min n s.queue.workQueue.length ∧
        s1.queue.workQueue = s.queue.workQueue.drop n) := by
  have hburst : ∃ s, QueueRun.start.run (reqs.map QueueCall.add) = .ok s ∧
      s.accepted = (reqs.take 20).map (fun r => (r, r.payload)) ∧ s.called = [] ∧
      s.queue.workQueue = List.range 20 ∧
      ∀ (i : Fin MAX_WORK_ITEMS) (r : Request), reqs[i.val]? = some r →
        s.queue.workItems i =
          { state := WorkItemState.ITEM_ALLOCATED, operation := r.operation,
            buffer := r.payload } := by
    have hlen20 : (reqs.take 20).length = 20 := by
      rw [List.length_take]
      omega
    obtain ⟨s, hrun, hq, hacc, hcalled, hheld, -⟩ := burst_prefix (reqs.take 20)
      (by rw [hlen20]; exact Nat.le_refl _)
      (fun r hr hb => hreqs r (List.mem_of_mem_take hr) hb)
    have hfull : ∀ j : Fin MAX_WORK_ITEMS,
        (s.queue.workItems j).state ≠ WorkItemState.ITEM_FREE := by
      intro j
      have hj : j.val < (reqs.take 20).length := by
        rw [hlen20]
        exact j.isLt
      rw [hheld j _ (List.getElem?_eq_getElem hj)]
      exact fun e => WorkItemState.noConfusion e
    refine ⟨s, ?_, hacc, hcalled, by rw [hq, hlen20], ?_⟩
    · have hsplit : reqs.map QueueCall.add =
          (reqs.take 20).map QueueCall.add ++ (reqs.drop 20).map QueueCall.add := by
        rw [← List.map_append, List.take_append_drop]
      rw [hsplit, run_append _ s _ _ hrun]
      exact run_rejected _ s hfull
    · intro i r hr
      apply hheld i r
      rw [List.getElem?_take]
      simp only [hr, ite_eq_left_iff, not_lt]
      intro hcon
      have := i.isLt
      have : MAX_WORK_ITEMS = 20 := rfl
      omega
  obtain ⟨s, hrun, hacc, hcalled, hq, hheld⟩ := hburst
  have hfst : s.accepted.map Prod.fst = reqs.take 20 := by
    rw [hacc, List.map_map]
    exact List.map_id _
  refine ⟨⟨s, hrun, hfst, hcalled, hq, hheld⟩, ?_, ?_⟩
  · obtain ⟨s0, hrun0, hord0⟩ := run_ordered (reqs.map QueueCall.add) QueueRun.start
      start_ordered (by
        intro c hc
        obtain ⟨r, hr, rfl⟩ := List.mem_map.1 hc
        exact hreqs r hr)
    have e : s0 = s := Except.ok.inj (hrun0.symm.trans hrun)
    subst e
    obtain ⟨s1, hs, hrun1, -, hacc1, hcalled1, hdisp, hq1⟩ := run_process_next m s0 hord0
    rw [hcalled, List.nil_append] at hcalled1
    rw [hcalled, List.length_nil, List.drop_zero, hacc, ← List.map_take, List.take_take,
      List.forall₂_map_left_iff, ← hcalled1] at hdisp
    have hlen := hdisp.length_eq
    rw [List.length_take] at hlen
    refine ⟨s1, by rw [run_append _ s0 _ _ hrun]; exact hrun1, by rw [hacc1]; exact hfst,
      by rw [← hlen]; omega, hdisp, by rw [hq1, hq]⟩
  · obtain ⟨s2, hrun2, hord2⟩ := run_ordered calls QueueRun.start start_ordered hcalls
    have h := ordered_called s2 hord2
    have hcount := ordered_count s2 hord2
    obtain ⟨s3, next, hrun3, -, hacc3, hcalled3, hdisp3, hq3⟩ := run_process_next n s2 hord2
    have hlen := hdisp3.length_eq
    rw [List.length_take, List.length_drop] at hlen
    exact ⟨s2, hrun2, hcount, h.1, hord2.2.1, s3, next, hrun3, hacc3, hcalled3, hdisp3,
      by rw [← hlen]; omega, hq3⟩

theorem burst_and_fifo_order_witness :
    (∃ s, QueueRun.start.run (demoFlood.map QueueCall.add) = .ok s ∧
      s.accepted.map Prod.fst = demoFlood.take 20 ∧ s.called = [] ∧
      s.queue.workQueue = List.range 20) ∧
    (∃ s, QueueRun.start.run
        (demoFlood.map QueueCall.add ++ List.replicate 3 QueueCall.process) = .ok s ∧
      s.called.length = 3 ∧
      List.Forall₂ (fun r called => DispatchedAs (r, r.payload) called)
        (demoFlood.take 3) s.called ∧
      s.queue.workQueue = (List.range 20).drop 3) ∧
    (∃ s, QueueRun.start.run demoBacklog = .ok s ∧
      s.called.length + s.queue.workQueue.length = s.accepted.length ∧
      List.Forall₂ DispatchedAs (s.accepted.take s.called.length) s.called ∧
      ∃ s1 next, s.run (List.replicate 5 QueueCall.process) = .ok s1 ∧
        s1.called = s.called ++ next ∧
        List.Forall₂ DispatchedAs ((s.accepted.drop s.called.length).take 5) next ∧
        next.length = min 5 s.queue.workQueue.length) ∧
    (QueueRun.start.run (demoBacklog ++ List.replicate 5 QueueCall.process)).toOption.map
        (fun s => s.called) =
      some [Handler.processSenderRecord
          ([5, 0x47, 0x38, 0x4B, 0x49, 0x47, 0] ++ List.replicate 25 0),
        Handler.processReceiverRecord ([1, 0x41, 0, 0, 0, 0, 0] ++ List.replicate 25 0),
        Handler.processSendRequest] :=
  have h := burst_and_fifo_order demoFlood demoBacklog 3 5 (by decide) (by decide) (by decide)
  ⟨h.1.imp fun _ hs => ⟨hs.1, hs.2.1, hs.2.2.1, hs.2.2.2.1⟩,
    h.2.1.imp fun _ hs => ⟨hs.1, hs.2.2.1, hs.2.2.2.1, hs.2.2.2.2⟩,
    h.2.2.imp fun _ hs => ⟨hs.1, hs.2.1, hs.2.2.1,
      hs.2.2.2.2.imp fun _ h1 => h1.imp fun _ h2 =>
        ⟨h2.1, h2.2.2.1, h2.2.2.2.1, h2.2.2.2.2.1⟩⟩,
    by decide⟩

/-- C20: one call of `processWorkQueue` handles at most one item.  With an
empty FIFO it changes nothing and calls no handler.  Otherwise it takes the
head index off the FIFO, calls exactly the handler selected by the operation
tag of that slot (`processSendRequest` without argument, the other four with
the slot buffer), marks that slot FREE without touching its tag or buffer, and
leaves the other slots and the rest of the FIFO as they were. -/
theorem processWorkQueue_one_item (idle q : WorkQueue) (index : Nat) (rest : List Nat)
    (hidle : idle.workQueue = [])
    (hq : q.workQueue = index :: rest)
    (hlt : index < MAX_WORK_ITEMS) :
    processWorkQueue idle = .ok (idle, none) ∧
    ∃ q1 called, processWorkQueue q = .ok (q1, some called) ∧
      q1.workQueue = rest ∧
      ((q.workItems ⟨index, hlt⟩).operation = I2COperation.OP_TIME_REQUEST →
        called = Handler.processTimeRequest (q.workItems ⟨index, hlt⟩).buffer) ∧
      ((q.workItems ⟨index, hlt⟩).operation = I2COperation.OP_SENDER_RECORD →
        called = Handler.processSenderRecord (q.workItems ⟨index, hlt⟩).buffer) ∧
      ((q.workItems ⟨index, hlt⟩).operation = I2COperation.OP_SENDER_SOFTWARE_RECORD →
        called = Handler.processSenderSoftwareRecord (q.workItems ⟨index, hlt⟩).buffer) ∧
      ((q.workItems ⟨index, hlt⟩).operation = I2COperation.OP_RECEIVER_RECORD →
        called = Handler.processReceiverRecord (q.workItems ⟨index, hlt⟩).buffer) ∧
      ((q.workItems ⟨index, hlt⟩).operation = I2COperation.OP_SEND_REQUEST →
        called = Handler.processSendRequest) ∧
      q1.workItems ⟨index, hlt⟩ =
        { state := WorkItemState.ITEM_FREE
          operation := (q.workItems ⟨index, hlt⟩).operation
          buffer := (q.workItems ⟨index, hlt⟩).buffer } ∧
      ∀ j : Fin MAX_WORK_ITEMS, j ≠ ⟨index, hlt⟩ → q1.workItems j = q.workItems j := by
  refine ⟨?_, ?_⟩
  · simp only [processWorkQueue, hidle]
  · refine ⟨_, _, by simp only [processWorkQueue, hq, hlt, dite_true]; rfl, rfl, ?_, ?_, ?_, ?_, ?_,
      ?_, ?_⟩
    · intro h; rw [h]; rfl
    · intro h; rw [h]; rfl
    · intro h; rw [h]; rfl
    · intro h; rw [h]; rfl
    · intro h; rw [h]; rfl
    · exact Function.update_same _ _ _
    · intro j hj
      exact Function.update_noteq hj _ _

theorem processWorkQueue_one_item_witness :
    processWorkQueue initialiseWorkQueue = .ok (initialiseWorkQueue, none) ∧
    ∃ q1 called, processWorkQueue demoWaiting = .ok (q1, some called) ∧
      q1.workQueue = [0] ∧
      called = Handler.processReceiverRecord (List.replicate 32 0x55) ∧
      (q1.workItems ⟨1, by decide⟩).state = WorkItemState.ITEM_FREE :=
  have h := processWorkQueue_one_item initialiseWorkQueue demoWaiting 1 [0] (by decide)
    (by decide) (by decide)
  ⟨h.1, h.2.imp fun _ hq1 => hq1.imp fun _ hc =>
    ⟨hc.1, hc.2.1, (hc.2.2.2.2.2.1 (by decide)).trans (by decide),
      congrArg WorkItem.state hc.2.2.2.2.2.2.2.1⟩⟩

/-! ## Lemmas: the payload helpers of main.cpp end to end -/

theorem strlen_append_nul (c tail : List Byte) (h : ∀ b ∈ c, b ≠ 0) :
    SafeString.strlen (c ++ 0 :: tail) = c.length := by
  induction c with
  | nil => simp [SafeString.strlen]
  | cons x xs ih =>
    have hx : x ≠ 0 := h x (List.mem_cons_self _ _)
    have hrec := ih (fun b hb => h b (List.mem_cons_of_mem _ hb))
    rw [List.cons_append]
    simp only [SafeString.strlen, hx, if_false, List.length_cons]
    exact congrArg (· + 1) hrec

theorem poke_append (bytes pre rest : List Byte) (h : bytes.length ≤ rest.length) :
    poke (pre ++ rest) pre.length bytes = pre ++ bytes ++ rest.drop bytes.length := by
  induction bytes generalizing pre rest with
  | nil => simp [poke]
  | cons b bs ih =>
    cases rest with
    | nil => simp at h
    | cons r rs =>
      simp only [List.length_cons, Nat.add_le_add_iff_right] at h
      have hset : (pre ++ r :: rs).set pre.length b = (pre ++ [b]) ++ rs := by
        simp
      have hlen : pre.length + 1 = (pre ++ [b]).length := by simp
      simp only [poke, hset]
      rw [hlen, ih (pre ++ [b]) rs h]
      simp

theorem poke_zero (bytes buffer : List Byte) (h : bytes.length ≤ buffer.length) :
    poke buffer 0 bytes = bytes ++ buffer.drop bytes.length := by
  have := poke_append bytes [] buffer h
  simpa using this

theorem addSenderRecord_eq (cs grid : List Byte) (hcs : ∀ b ∈ cs, b ≠ 0)
    (hgrid : ∀ b ∈ grid, b ≠ 0) (hfit : 1 + cs.length + 1 + grid.length < 32) :
    (Main.addSenderRecord Main.encodedBuff 32 (cs ++ [0]) (grid ++ [0])).1 =
      toByte cs.length :: cs ++ (toByte grid.length :: grid ++
        List.replicate (32 - (1 + cs.length + 1 + grid.length)) 0) := by
  have h1 := strlen_append_nul cs [] hcs
  have h2 := strlen_append_nul grid [] hgrid
  simp only [Main.addSenderRecord, h1, h2, hfit, if_true, List.nil_append,
    List.take_left']
  rw [poke_zero]
  · simp only [Main.encodedBuff, List.drop_replicate, List.length_append, List.length_cons,
      List.length_nil, List.append_assoc, List.cons_append, List.nil_append]
    have e : 32 - (cs.length + (grid.length + 1) + 1) =
        32 - (1 + cs.length + 1 + grid.length) := by omega
    rw [e]
  · simp only [Main.encodedBuff, List.length_replicate, List.length_append, List.length_cons,
      List.length_nil]
    omega

theorem addSenderSoftwareRecord_eq (sw : List Byte) (hsw : ∀ b ∈ sw, b ≠ 0)
    (hfit : 1 + sw.length < 32) :
    (Main.addSenderSoftwareRecord Main.encodedBuff 32 (sw ++ [0])).1 =
      toByte sw.length :: sw ++ List.replicate (32 - (1 + sw.length)) 0 := by
  have h1 := strlen_append_nul sw [] hsw
  simp only [Main.addSenderSoftwareRecord, h1, hfit, if_true, List.nil_append,
    List.take_left']
  rw [poke_zero]
  · simp only [Main.encodedBuff, List.drop_replicate, List.length_append, List.length_cons,
      List.length_nil, List.append_assoc, List.cons_append, List.nil_append]
    have e : 32 - (sw.length + 1) = 32 - (1 + sw.length) := by omega
    rw [e]
  · simp only [Main.encodedBuff, List.length_replicate, List.length_append, List.length_cons,
      List.length_nil]
    omega

theorem addReceivedRecord_helper_eq (c : List Byte) (f : Nat) (snr : Byte)
    (hc : ∀ b ∈ c, b ≠ 0) (hfit : c.length + 6 < 32) :
    (Main.addReceivedRecord Main.encodedBuff 32 (c ++ [0]) f snr).1 =
      toByte c.length :: c ++ (storeLE32 f ++ (snr ::
        List.replicate (32 - (c.length + 6)) 0)) := by
  have h1 := strlen_append_nul c [] hc
  have hfit1 : 1 + c.length + 4 + 1 < 32 := by omega
  simp only [Main.addReceivedRecord, h1, hfit1, if_true, List.nil_append, List.take_left']
  rw [poke_zero]
  · simp only [Main.encodedBuff, List.drop_replicate, List.length_append, List.length_cons,
      List.length_nil, List.append_assoc, List.cons_append, List.nil_append, storeLE32]
  · simp only [Main.encodedBuff, List.length_replicate, List.length_append, List.length_cons,
      List.length_nil, storeLE32]
    omega

theorem createSenderRecord_ofList (self : PskReporter) (cs grid tail : List Byte)
    (h1 : cs.length ≤ 255) (h2 : grid.length ≤ 255) :
    self.createSenderRecord
        (some (Mem.ofList (toByte cs.length :: cs ++ (toByte grid.length :: grid ++ tail)))) =
      ({ self with reporterCallsign := ⟨cs⟩, reporterGridSquare := ⟨grid⟩ }, true) := by
  have r1 := readLengthPrefixedString_ofList [] cs (toByte grid.length :: grid ++ tail) h1
  have r2 := readLengthPrefixedString_ofList (toByte cs.length :: cs) grid tail h2
  simp only [List.nil_append, List.length_nil, List.cons_append, List.length_cons,
    List.append_assoc] at r1 r2
  have e : cs.length + 1 = 0 + 1 + cs.length := by omega
  rw [e] at r2
  simp only [PskReporter.createSenderRecord, List.cons_append, List.append_assoc, r1, r2]

theorem createSenderSoftwareRecord_ofList (self : PskReporter) (sw tail : List Byte)
    (h1 : sw.length ≤ 255) :
    self.createSenderSoftwareRecord (some (Mem.ofList (toByte sw.length :: sw ++ tail))) =
      ({ self with decodingSoftware := ⟨sw⟩ }, true) := by
  have r1 := readLengthPrefixedString_ofList [] sw tail h1
  simp only [List.nil_append, List.length_nil, List.cons_append] at r1
  simp only [PskReporter.createSenderSoftwareRecord, List.cons_append, r1]

theorem payload_fields (c tail : List Byte) (f : Nat) (snr : Byte) (hc : c.length ≤ 255) :
    payloadCallsign (Mem.ofList (toByte c.length :: c ++ (storeLE32 f ++ (snr :: tail)))) = ⟨c⟩ ∧
      payloadFrequency (Mem.ofList (toByte c.length :: c ++ (storeLE32 f ++ (snr :: tail))))
        = f % 2 ^ 32 ∧
      payloadSnr (Mem.ofList (toByte c.length :: c ++ (storeLE32 f ++ (snr :: tail)))) = snr := by
  have r1 := readLengthPrefixedString_ofList [] c (storeLE32 f ++ (snr :: tail)) hc
  simp only [List.nil_append, List.length_nil, List.cons_append] at r1
  have hoff : ∀ k, Mem.ofList (toByte c.length :: c ++ (storeLE32 f ++ (snr :: tail)))
      (0 + 1 + c.length + k) = Mem.ofList (storeLE32 f ++ (snr :: tail)) k := by
    intro k
    have := Mem.ofList_append_right (toByte c.length :: c) (storeLE32 f ++ (snr :: tail)) k
    simp only [List.length_cons] at this
    have e : 0 + 1 + c.length + k = c.length + 1 + k := by omega
    rw [e]
    exact this
  refine ⟨?_, ?_, ?_⟩
  · simp only [payloadCallsign, List.cons_append, r1]
  · simp only [payloadFrequency, List.cons_append, r1, loadLE32]
    have h0 := hoff 0
    have h1 := hoff 1
    have h2 := hoff 2
    have h3 := hoff 3
    simp only [Nat.add_zero, List.cons_append] at h0 h1 h2 h3
    rw [h0, h1, h2, h3]
    simp only [Mem.ofList, storeLE32, List.cons_append, List.nil_append, List.getD_cons_succ,
      List.getD_cons_zero, toByte_val]
    omega
  · simp only [payloadSnr, List.cons_append, r1]
    have h4 := hoff 4
    simp only [List.cons_append] at h4
    rw [h4]
    simp [Mem.ofList, storeLE32]

theorem ingest_eq (randomIdentifier : Nat) (testMode : Bool) (cs grid sw c : List Byte)
    (f : Nat) (snr : Byte) (now : Nat)
    (hcs : ∀ b ∈ cs, b ≠ 0) (hgrid : ∀ b ∈ grid, b ≠ 0) (hsw : ∀ b ∈ sw, b ≠ 0)
    (hc : ∀ b ∈ c, b ≠ 0)
    (hid : 1 + cs.length + 1 + grid.length < 32) (hswl : 1 + sw.length < 32)
    (hcl : c.length + 6 < 32) :
    Main.ingest (PskReporter.new randomIdentifier testMode) (cs ++ [0]) (grid ++ [0])
        (sw ++ [0]) (c ++ [0]) f snr now =
      { currentSequenceNumber := 0
        randomIdentifier := randomIdentifier
        testMode := testMode
        reporterCallsign := ⟨cs⟩
        reporterGridSquare := ⟨grid⟩
        decodingSoftware := ⟨sw⟩
        recordList := [ReceivedRecord.new ⟨c⟩ (f % 2 ^ 32) snr now] } := by
  have hp := payload_fields c (List.replicate (32 - (c.length + 6)) 0) f snr (by omega)
  simp only [Main.ingest, addSenderRecord_eq cs grid hcs hgrid hid,
    addSenderSoftwareRecord_eq sw hsw hswl, addReceivedRecord_helper_eq c f snr hc hcl,
    createSenderRecord_ofList _ cs grid _ (by omega : cs.length ≤ 255)
      (by omega : grid.length ≤ 255),
    createSenderSoftwareRecord_ofList _ sw _ (by omega : sw.length ≤ 255)]
  rw [addReceivedRecord_some, if_pos]
  · simp only [hp.1, hp.2.1, hp.2.2, PskReporter.new, List.nil_append]
  · simp [PskReporter.new]

theorem getD_drop_eq (l : List Byte) (k i : Nat) : (l.drop k).getD i 0 = l.getD (k + i) 0 := by
  simp only [List.getD_eq_getElem?_getD, List.getElem?_drop]

theorem readBE16_drop (l : List Byte) (k i : Nat) :
    readBE16 (l.drop k) i = readBE16 l (k + i) := by
  simp only [readBE16, getD_drop_eq, Nat.add_assoc]

theorem getD_append_right (a b : List Byte) (i : Nat) :
    (a ++ b).getD (a.length + i) 0 = b.getD i 0 :=
  Mem.ofList_append_right a b i

theorem getD_append_at (a rest : List Byte) (b : Byte) :
    (a ++ b :: rest).getD a.length 0 = b := by
  have h := getD_append_right a (b :: rest) 0
  simpa using h

theorem readBE32_append_at (a rest : List Byte) (x : Nat) :
    readBE32 (a ++ (htonl x ++ rest)) a.length = x % 2 ^ 32 := by
  have h0 := getD_append_right a (htonl x ++ rest) 0
  have h1 := getD_append_right a (htonl x ++ rest) 1
  have h2 := getD_append_right a (htonl x ++ rest) 2
  have h3 := getD_append_right a (htonl x ++ rest) 3
  simp only [Nat.add_zero] at h0
  rw [readBE32, h0, h1, h2, h3]
  simp only [htonl, List.cons_append, List.nil_append, List.getD_cons_succ,
    List.getD_cons_zero, toByte_val]
  omega

theorem send_tail (self : PskReporter) (env : Env) (hne : self.recordList ≠ [])
    (hc : env.wifiConnected = true) (hs : env.wifiSta = true) (ha : env.allocOk = true)
    (hfit : 104 + self.encodeReporterRecord.2 + self.encodeReceivedRecords.2
      ≤ MAX_BUFFER_SIZE + 1) :
    ∃ d, (self.send env).datagram = some d ∧
      d.data.drop 104 =
        region self.encodeReporterRecord.1 self.encodeReporterRecord.2
          ++ region self.encodeReceivedRecords.1 self.encodeReceivedRecords.2 := by
  rw [send_eq_of_guard self env hne hc hs ha, if_pos hfit]
  refine ⟨_, rfl, ?_⟩
  simp [htons, htonl, rxFormatHeader, txFormatHeader]

/-! ## Claim: end to end -/

/-- C11: identity strings and one spot are put into 32-byte payloads by the
helpers `addSenderRecord`, `addSenderSoftwareRecord` and `addReceivedRecord` of
main.cpp, ingested into a fresh aggregator by `createSenderRecord`,
`createSenderSoftwareRecord` and `PskReporter::addReceivedRecord`, and sent.
The packet then holds, from offset 104, a record with tag 0x9992 whose three
length-prefixed strings read back as the identity strings, and after it a
record with tag 0x9993 that runs to the end of the packet and holds exactly one
entry: the callsign, the frequency as a big-endian 32-bit value, the SNR byte
(then mode "FT8", info-source 1 and the time of ingestion), followed by fewer
than 4 padding bytes.  Strings are NUL-free C strings that fit the helpers'
32-byte buffer; the frequency is a 32-bit value. -/
theorem end_to_end_roundtrip (randomIdentifier : Nat) (testMode : Bool)
    (cs grid sw c : List Byte) (f : Nat) (snr : Byte) (now : Nat) (env : Env)
    (hcs : ∀ b ∈ cs, b ≠ 0) (hgrid : ∀ b ∈ grid, b ≠ 0) (hsw : ∀ b ∈ sw, b ≠ 0)
    (hc : ∀ b ∈ c, b ≠ 0)
    (hid : 1 + cs.length + 1 + grid.length < 32) (hswl : 1 + sw.length < 32)
    (hcl : c.length + 6 < 32) (hf : f < 2 ^ 32)
    (hwifi : env.wifiConnected = true) (hsta : env.wifiSta = true)
    (halloc : env.allocOk = true) :
    ∃ d, ((Main.ingest (PskReporter.new randomIdentifier testMode) (cs ++ [0]) (grid ++ [0])
        (sw ++ [0]) (c ++ [0]) f snr now).send env).datagram = some d ∧
      (d.data.drop 104).take 2 = [0x99, 0x92] ∧
      readLengthPrefixedString (Mem.ofList (d.data.drop 104)) 4 = (⟨cs⟩, 5 + cs.length) ∧
      readLengthPrefixedString (Mem.ofList (d.data.drop 104)) (5 + cs.length) =
        (⟨grid⟩, 6 + cs.length + grid.length) ∧
      readLengthPrefixedString (Mem.ofList (d.data.drop 104)) (6 + cs.length + grid.length) =
        (⟨sw⟩, 7 + cs.length + grid.length + sw.length) ∧
      7 + cs.length + grid.length + sw.length ≤ readBE16 d.data 106 ∧
      (d.data.drop (104 + readBE16 d.data 106)).take 2 = [0x99, 0x93] ∧
      readBE16 (d.data.drop (104 + readBE16 d.data 106)) 2 =
        (d.data.drop (104 + readBE16 d.data 106)).length ∧
      readLengthPrefixedString (Mem.ofList (d.data.drop (104 + readBE16 d.data 106))) 4 =
        (⟨c⟩, 5 + c.length) ∧
      readBE32 (d.data.drop (104 + readBE16 d.data 106)) (5 + c.length) = f ∧
      (d.data.drop (104 + readBE16 d.data 106)).getD (9 + c.length) 0 = snr ∧
      readLengthPrefixedString (Mem.ofList (d.data.drop (104 + readBE16 d.data 106)))
        (10 + c.length) = (⟨[0x46, 0x54, 0x38]⟩, 14 + c.length) ∧
      (d.data.drop (104 + readBE16 d.data 106)).getD (14 + c.length) 0 = 1 ∧
      readBE32 (d.data.drop (104 + readBE16 d.data 106)) (15 + c.length) = now % 2 ^ 32 ∧
      19 + c.length ≤ (d.data.drop (104 + readBE16 d.data 106)).length ∧
      (d.data.drop (104 + readBE16 d.data 106)).length < 19 + c.length + 4 := by
  rw [ingest_eq randomIdentifier testMode cs grid sw c f snr now hcs hgrid hsw hc hid hswl hcl]
  rw [Nat.mod_eq_of_lt hf]
  have henc : ((ReceivedRecord.new ⟨c⟩ f snr now).encode []).1 =
      toByte c.length :: (c ++ (htonl f ++ (snr :: (toByte 3 :: ([0x46, 0x54, 0x38] ++
        (1 :: (htonl (now % 2 ^ 32) ++ []))))))) := by
    have hmode : SafeString.ofCStr modeFT8 = ⟨[0x46, 0x54, 0x38]⟩ := by decide
    have htime : toUInt32 (toInt32 (now % 2 ^ 32)) = now % 2 ^ 32 := by
      rw [toUInt32_toInt32, Nat.mod_mod]
    simp only [ReceivedRecord.encode, ReceivedRecord.new, writeLengthPrefixedString_eq, hmode,
      SafeString.length, htime]
    simp
  have hencl : ((ReceivedRecord.new ⟨c⟩ f snr now).encode []).1.length = 15 + c.length := by
    rw [encode_length]
    have h3 : (SafeString.ofCStr modeFT8).data.length = 3 := by decide
    simp only [ReceivedRecord.new, SafeString.length, h3]
    omega
  have hR := pad4_eq (7 + cs.length + grid.length + sw.length) (by omega)
  have hB := pad4_eq (4 + (15 + c.length)) (by omega)
  have hfit : 104 + (PskReporter.encodeReporterRecord
      { currentSequenceNumber := 0, randomIdentifier := randomIdentifier, testMode := testMode,
        reporterCallsign := ⟨cs⟩, reporterGridSquare := ⟨grid⟩, decodingSoftware := ⟨sw⟩,
        recordList := [ReceivedRecord.new ⟨c⟩ f snr now] }).2 +
      (PskReporter.encodeReceivedRecords
      { currentSequenceNumber := 0, randomIdentifier := randomIdentifier, testMode := testMode,
        reporterCallsign := ⟨cs⟩, reporterGridSquare := ⟨grid⟩, decodingSoftware := ⟨sw⟩,
        recordList := [ReceivedRecord.new ⟨c⟩ f snr now] }).2 ≤ MAX_BUFFER_SIZE + 1 := by
    rw [encodeReporterRecord_eq, encodeReceivedRecords_eq _ (by simp)]
    simp only [SafeString.length, List.map_cons, List.map_nil, List.flatten_cons,
      List.flatten_nil, List.append_nil, hencl, hR, hB, MAX_BUFFER_SIZE]
    omega
  obtain ⟨d, hd, hX⟩ := send_tail
    { currentSequenceNumber := 0, randomIdentifier := randomIdentifier, testMode := testMode,
      reporterCallsign := ⟨cs⟩, reporterGridSquare := ⟨grid⟩, decodingSoftware := ⟨sw⟩,
      recordList := [ReceivedRecord.new ⟨c⟩ f snr now] } env (by simp) hwifi hsta halloc hfit
  refine ⟨d, hd, ?_⟩
  rw [encodeReporterRecord_eq, encodeReceivedRecords_eq _ (by simp)] at hX
  simp only [SafeString.length, List.map_cons, List.map_nil, List.flatten_cons,
    List.flatten_nil, List.append_nil, hencl, hR, hB] at hX
  rw [region_eq _ _ (by
      simp only [List.length_cons, List.length_append, htons, List.length_nil]
      omega),
    region_eq _ _ (by
      simp only [List.length_cons, List.length_append, htons, List.length_nil, hencl]
      omega)] at hX
  have hR16 : (7 + cs.length + grid.length + sw.length + 3) / 4 * 4 % 2 ^ 16 =
      (7 + cs.length + grid.length + sw.length + 3) / 4 * 4 := Nat.mod_eq_of_lt (by omega)
  have hB16 : (4 + (15 + c.length) + 3) / 4 * 4 % 2 ^ 16 = (4 + (15 + c.length) + 3) / 4 * 4 :=
    Nat.mod_eq_of_lt (by omega)
  rw [hR16, hB16] at hX
  simp only [List.length_cons, List.length_append, htons, List.length_nil, hencl,
    List.cons_append, List.nil_append] at hX
  have hR106 : readBE16 d.data 106 = (7 + cs.length + grid.length + sw.length + 3) / 4 * 4 := by
    have h := readBE16_drop d.data 104 2
    rw [hX] at h
    rw [show (106 : Nat) = 104 + 2 from rfl, ← h]
    simp only [readBE16, List.getD_cons_succ, List.getD_cons_zero, toByte_val]
    omega
  rw [hR106]
  generalize hr1 : toByte ((7 + cs.length + grid.length + sw.length + 3) / 4 * 4 / 2 ^ 8) = r1
    at hX
  generalize hr2 : toByte ((7 + cs.length + grid.length + sw.length + 3) / 4 * 4) = r2 at hX
  generalize hpadR : List.replicate ((7 + cs.length + grid.length + sw.length + 3) / 4 * 4 -
    (cs.length + (grid.length + (sw.length + 1) + 1) + 1 + 1 + 1 + 1 + 1)) (0 : Byte) = padR at hX
  have hpadRl : padR.length = (7 + cs.length + grid.length + sw.length + 3) / 4 * 4 -
      (7 + cs.length + grid.length + sw.length) := by
    rw [← hpadR, List.length_replicate]
    omega
  have hbatl : (153 :: 147 :: toByte ((4 + (15 + c.length) + 3) / 4 * 4 / 2 ^ 8) ::
      toByte ((4 + (15 + c.length) + 3) / 4 * 4) ::
      (((ReceivedRecord.new ⟨c⟩ f snr now).encode []).1 ++
        List.replicate ((4 + (15 + c.length) + 3) / 4 * 4 - (15 + c.length + 1 + 1 + 1 + 1)) 0) :
        List Byte).length = (4 + (15 + c.length) + 3) / 4 * 4 := by
    simp only [List.length_cons, List.length_append, hencl, List.length_replicate]
    omega
  have hb16 : readBE16 (153 :: 147 :: toByte ((4 + (15 + c.length) + 3) / 4 * 4 / 2 ^ 8) ::
      toByte ((4 + (15 + c.length) + 3) / 4 * 4) ::
      (((ReceivedRecord.new ⟨c⟩ f snr now).encode []).1 ++
        List.replicate ((4 + (15 + c.length) + 3) / 4 * 4 - (15 + c.length + 1 + 1 + 1 + 1)) 0) :
        List Byte) 2 = (4 + (15 + c.length) + 3) / 4 * 4 := by
    simp only [readBE16, List.getD_cons_succ, List.getD_cons_zero, toByte_val]
    omega
  generalize hb1 : toByte ((4 + (15 + c.length) + 3) / 4 * 4 / 2 ^ 8) = b1 at hX hbatl hb16
  generalize hb2 : toByte ((4 + (15 + c.length) + 3) / 4 * 4) = b2 at hX hbatl hb16
  generalize hpadB : List.replicate ((4 + (15 + c.length) + 3) / 4 * 4 -
    (15 + c.length + 1 + 1 + 1 + 1)) (0 : Byte) = padB at hX hbatl hb16
  rw [henc] at hX hbatl hb16
  have hbat : d.data.drop (104 + (7 + cs.length + grid.length + sw.length + 3) / 4 * 4) =
      153 :: 147 :: b1 :: b2 :: (toByte c.length :: (c ++ (htonl f ++ (snr :: (toByte 3 ::
        ([0x46, 0x54, 0x38] ++ (1 :: (htonl (now % 2 ^ 32) ++ []))))))) ++ padB) := by
    have hsplit : d.data.drop 104 =
        (153 :: 146 :: r1 :: r2 :: toByte cs.length ::
          (cs ++ toByte grid.length :: (grid ++ toByte sw.length :: sw) ++ padR)) ++
        (153 :: 147 :: b1 :: b2 :: (toByte c.length :: (c ++ (htonl f ++ (snr :: (toByte 3 ::
          ([0x46, 0x54, 0x38] ++ (1 :: (htonl (now % 2 ^ 32) ++ []))))))) ++ padB)) := by
      rw [hX]
      simp
    rw [← List.drop_drop, hsplit]
    apply List.drop_left'
    simp only [List.length_cons, List.length_append, hpadRl]
    omega
  generalize d.data.drop 104 = XL at hX ⊢
  generalize d.data.drop (104 + (7 + cs.length + grid.length + sw.length + 3) / 4 * 4) = BL
    at hbat ⊢
  have hlen4 : ∀ x : Nat, (htonl x).length = 4 := fun _ => rfl
  rw [← hbat] at hX
  have shape : XL = [153, 146, r1, r2] ++ (toByte cs.length :: cs ++ (toByte grid.length ::
      grid ++ (toByte sw.length :: sw ++ (padR ++ BL)))) := by
    rw [hX]
    simp
  have q := read_three_strings [153, 146, r1, r2] cs grid sw (padR ++ BL) (by omega) (by omega)
    (by omega)
  refine ⟨?_, ?_, ?_, ?_, ?_, ?_, ?_, ?_, ?_, ?_, ?_, ?_, ?_, ?_, ?_⟩
  · rw [hX]
    rfl
  · rw [shape, show (4 : Nat) = ([153, 146, r1, r2] : List Byte).length from rfl, q.1]
    simp only [List.length_cons, List.length_nil, Prod.mk.injEq, true_and]
  · rw [shape, show 5 + cs.length = ([153, 146, r1, r2] : List Byte).length + 1 + cs.length
      from by simp only [List.length_cons, List.length_nil], q.2.1]
    simp only [List.length_cons, List.length_nil, Prod.mk.injEq, true_and]; omega
  · rw [shape, show 6 + cs.length + grid.length =
      ([153, 146, r1, r2] : List Byte).length + 1 + cs.length + 1 + grid.length
      from by simp only [List.length_cons, List.length_nil]; omega, q.2.2]
    simp only [List.length_cons, List.length_nil, Prod.mk.injEq, true_and]; omega
  · omega
  · rw [hbat]
    rfl
  · rw [hbat, hb16, hbatl]
  · have shape : BL = [153, 147, b1, b2] ++ (toByte c.length :: c ++ ((htonl f ++ (snr ::
        (toByte 3 :: ([0x46, 0x54, 0x38] ++ (1 :: (htonl (now % 2 ^ 32) ++ [])))))) ++ padB)) := by
      rw [hbat]
      simp
    have q := readLengthPrefixedString_ofList [153, 147, b1, b2] c
      ((htonl f ++ (snr :: (toByte 3 :: ([0x46, 0x54, 0x38] ++
        (1 :: (htonl (now % 2 ^ 32) ++ [])))))) ++ padB) (by omega)
    rw [shape, show (4 : Nat) = ([153, 147, b1, b2] : List Byte).length from rfl, q]
    simp only [List.length_cons, List.length_nil, Prod.mk.injEq, true_and]
  · have shape : BL = ([153, 147, b1, b2, toByte c.length] ++ c) ++ (htonl f ++ ((snr ::
        (toByte 3 :: ([0x46, 0x54, 0x38] ++ (1 :: (htonl (now % 2 ^ 32) ++ []))))) ++ padB)) := by
      rw [hbat]
      simp
    rw [shape, show 5 + c.length = ([153, 147, b1, b2, toByte c.length] ++ c).length
      from by simp only [List.length_cons, List.length_nil, List.length_append],
      readBE32_append_at, Nat.mod_eq_of_lt hf]
  · have shape : BL = ([153, 147, b1, b2, toByte c.length] ++ c ++ htonl f) ++ (snr ::
        ((toByte 3 :: ([0x46, 0x54, 0x38] ++ (1 :: (htonl (now % 2 ^ 32) ++ [])))) ++ padB)) := by
      rw [hbat]
      simp
    rw [shape, show 9 + c.length = ([153, 147, b1, b2, toByte c.length] ++ c ++ htonl f).length
      from by simp only [List.length_cons, List.length_nil, List.length_append, hlen4]; omega,
      getD_append_at]
  · have shape : BL = ([153, 147, b1, b2, toByte c.length] ++ c ++ htonl f ++ [snr]) ++
        (toByte ([0x46, 0x54, 0x38] : List Byte).length :: [0x46, 0x54, 0x38] ++
          ((1 :: (htonl (now % 2 ^ 32) ++ [])) ++ padB)) := by
      rw [hbat]
      simp
    have q := readLengthPrefixedString_ofList
      ([153, 147, b1, b2, toByte c.length] ++ c ++ htonl f ++ [snr]) [0x46, 0x54, 0x38]
      ((1 :: (htonl (now % 2 ^ 32) ++ [])) ++ padB) (by decide)
    rw [shape, show 10 + c.length =
      ([153, 147, b1, b2, toByte c.length] ++ c ++ htonl f ++ [snr]).length
      from by simp only [List.length_cons, List.length_nil, List.length_append, hlen4]; omega, q]
    simp only [List.length_cons, List.length_nil, List.length_append, hlen4, Prod.mk.injEq,
      true_and]; omega
  · have shape : BL = ([153, 147, b1, b2, toByte c.length] ++ c ++ htonl f ++
        [snr, toByte 3, 0x46, 0x54, 0x38]) ++ (1 :: ((htonl (now % 2 ^ 32) ++ []) ++ padB)) := by
      rw [hbat]
      simp
    rw [shape, show 14 + c.length = ([153, 147, b1, b2, toByte c.length] ++ c ++ htonl f ++
        [snr, toByte 3, 0x46, 0x54, 0x38]).length
      from by simp only [List.length_cons, List.length_nil, List.length_append, hlen4]; omega,
      getD_append_at]
  · have shape : BL = ([153, 147, b1, b2, toByte c.length] ++ c ++ htonl f ++
        [snr, toByte 3, 0x46, 0x54, 0x38, 1]) ++ (htonl (now % 2 ^ 32) ++ padB) := by
      rw [hbat]
      simp
    rw [shape, show 15 + c.length = ([153, 147, b1, b2, toByte c.length] ++ c ++ htonl f ++
        [snr, toByte 3, 0x46, 0x54, 0x38, 1]).length
      from by simp only [List.length_cons, List.length_nil, List.length_append, hlen4]; omega,
      readBE32_append_at, Nat.mod_mod]
  · rw [hbat, hbatl]
    omega
  · rw [hbat, hbatl]
    omega

theorem end_to_end_roundtrip_witness :
    ∃ d, ((Main.ingest (PskReporter.new 0xDEADBEEF true) (demoCallsign ++ [0]) (demoGrid ++ [0])
        (demoSoftwareName ++ [0]) (demoSpotCallsign ++ [0]) 14031000 0xF6 1700000000).send
          envOnline).datagram = some d ∧
      readLengthPrefixedString (Mem.ofList (d.data.drop 104)) 4 =
        (⟨demoCallsign⟩, 5 + demoCallsign.length) ∧
      readLengthPrefixedString (Mem.ofList (d.data.drop (104 + readBE16 d.data 106))) 4 =
        (⟨demoSpotCallsign⟩, 5 + demoSpotCallsign.length) ∧
      readBE32 (d.data.drop (104 + readBE16 d.data 106)) (5 + demoSpotCallsign.length) =
        14031000 ∧
      (d.data.drop (104 + readBE16 d.data 106)).getD (9 + demoSpotCallsign.length) 0 = 0xF6 :=
  (end_to_end_roundtrip 0xDEADBEEF true demoCallsign demoGrid demoSoftwareName demoSpotCallsign
    14031000 0xF6 1700000000 envOnline (by simp [demoCallsign]) (by simp [demoGrid])
    (by simp [demoSoftwareName]) (by simp [demoSpotCallsign])
    (by decide) (by decide) (by decide) (by decide) rfl rfl rfl).imp
    fun _ h => ⟨h.1, h.2.2.1, h.2.2.2.2.2.2.2.2.1, h.2.2.2.2.2.2.2.2.2.1,
      h.2.2.2.2.2.2.2.2.2.2.1⟩

/-! ## Claim: byte order of the frequency -/

theorem htonl_loadLE32 (m : Mem) (p : Nat) :
    htonl (loadLE32 m p) = [m (p + 3), m (p + 2), m (p + 1), m p] := by
  have h0 := (m p).isLt
  have h1 := (m (p + 1)).isLt
  have h2 := (m (p + 2)).isLt
  have h3 := (m (p + 3)).isLt
  simp only [htonl, loadLE32, toByte, List.cons.injEq, and_true]
  refine ⟨?_, ?_, ?_, ?_⟩ <;> apply Fin.ext <;> simp only [] <;> omega

/-- C24: when `addReceivedRecord` accepts a payload, the record it appends has
as frequency the 4 bytes after the callsign taken as a 32-bit value least
significant byte first (no byte-order conversion on the little-endian target),
and `ReceivedRecord::encode` writes that value most significant byte first: the
4 frequency bytes of the new record, in its own encoding and in the batch of
`encodeReceivedRecords`, are the 4 frequency bytes of the payload in reverse
order. -/
theorem frequency_bytes_reversed (self : PskReporter) (now : Nat) (buf : Mem)
    (bufIn : List Byte) (hok : (self.addReceivedRecord now (some buf)).2 = true) :
    ∃ r, (self.addReceivedRecord now (some buf)).1.recordList = self.recordList ++ [r] ∧
      r.frequency = (buf (1 + (buf 0).val)).val + 2 ^ 8 * (buf (1 + (buf 0).val + 1)).val
        + 2 ^ 16 * (buf (1 + (buf 0).val + 2)).val + 2 ^ 24 * (buf (1 + (buf 0).val + 3)).val ∧
      ((r.encode bufIn).1.drop (bufIn.length + 1 + (buf 0).val)).take 4 =
        [buf (1 + (buf 0).val + 3), buf (1 + (buf 0).val + 2), buf (1 + (buf 0).val + 1),
          buf (1 + (buf 0).val)] ∧
      (((self.addReceivedRecord now (some buf)).1.encodeReceivedRecords.1.drop
          (4 + ((self.recordList.map (fun x => (x.encode []).1)).flatten).length
            + 1 + (buf 0).val)).take 4 =
        [buf (1 + (buf 0).val + 3), buf (1 + (buf 0).val + 2), buf (1 + (buf 0).val + 1),
          buf (1 + (buf 0).val)]) := by
  have hstep := addReceivedRecord_some self now buf
  by_cases hc : self.recordList.length < 40 ∧
      payloadCallsign buf ∉ self.recordList.map (fun r => r.callsign)
  · rw [if_pos hc] at hstep
    have hcl : (payloadCallsign buf).data.length = (buf 0).val := by
      simp [payloadCallsign, readLengthPrefixedString, SafeString.ofBuf, Mem.read]
    have hfreq : payloadFrequency buf = loadLE32 buf (1 + (buf 0).val) := by
      simp [payloadFrequency, readLengthPrefixedString, Nat.add_comm]
    have hshape : ∀ pre : List Byte,
        pre ++ ((ReceivedRecord.new (payloadCallsign buf) (payloadFrequency buf) (payloadSnr buf)
          now).encode []).1 =
        (pre ++ toByte (payloadCallsign buf).length :: (payloadCallsign buf).data) ++
          ([buf (1 + (buf 0).val + 3), buf (1 + (buf 0).val + 2), buf (1 + (buf 0).val + 1),
            buf (1 + (buf 0).val)] ++
            (payloadSnr buf :: (writeLengthPrefixedString [] (SafeString.ofCStr modeFT8) ++
              1 :: htonl (toUInt32 (toInt32 (now % 2 ^ 32)))))) := by
      intro pre
      simp only [ReceivedRecord.encode, ReceivedRecord.new, writeLengthPrefixedString_eq, hfreq,
        htonl_loadLE32, List.nil_append, List.append_assoc, List.cons_append]
    have henc : ∀ pre : List Byte,
        ((pre ++ ((ReceivedRecord.new (payloadCallsign buf) (payloadFrequency buf)
          (payloadSnr buf) now).encode []).1).drop (pre.length + 1 + (buf 0).val)).take 4 =
        [buf (1 + (buf 0).val + 3), buf (1 + (buf 0).val + 2), buf (1 + (buf 0).val + 1),
          buf (1 + (buf 0).val)] := by
      intro pre
      rw [hshape pre, List.drop_left' (by
        simp only [List.length_append, List.length_cons, hcl]; omega)]
      exact List.take_left' rfl
    refine ⟨ReceivedRecord.new (payloadCallsign buf) (payloadFrequency buf) (payloadSnr buf) now,
      by rw [hstep], ?_, ?_, ?_⟩
    · simp only [ReceivedRecord.new, hfreq, loadLE32]
    · rw [encode_eq]
      exact henc bufIn
    · rw [hstep]
      rw [encodeReceivedRecords_eq _ (by simp)]
      simp only [List.map_append, List.map_cons, List.map_nil, List.flatten_append,
        List.flatten_cons, List.flatten_nil, List.append_nil]
      have h := henc (0x99 :: 0x93 :: (htons (pad4 (4 + ((self.recordList.map
        (fun r => (r.encode []).1)).flatten ++ ((ReceivedRecord.new (payloadCallsign buf)
          (payloadFrequency buf) (payloadSnr buf) now).encode []).1).length) % 2 ^ 16) ++
        (self.recordList.map (fun r => (r.encode []).1)).flatten))
      simp only [List.cons_append, List.append_assoc, List.length_cons, List.length_append,
        htons, List.length_nil] at h ⊢
      rw [← h]
      congr 2
      omega
  · rw [if_neg hc] at hstep
    rw [hstep] at hok
    exact absurd hok (by simp)

theorem frequency_bytes_reversed_witness :
    ∃ r, ((PskReporter.new 1 false).addReceivedRecord 1700000000 (some demoSpot)).1.recordList =
        (PskReporter.new 1 false).recordList ++ [r] ∧
      r.frequency = 14031000 ∧
      ((r.encode []).1.drop 8).take 4 = [0x00, 0xD6, 0x18, 0x98] ∧
      ((((PskReporter.new 1 false).addReceivedRecord 1700000000
        (some demoSpot)).1.encodeReceivedRecords.1.drop 12).take 4 = [0x00, 0xD6, 0x18, 0x98]) :=
  (frequency_bytes_reversed (PskReporter.new 1 false) 1700000000 demoSpot [] (by decide)).imp
    fun _ h => ⟨h.1, h.2.1, h.2.2.1, h.2.2.2⟩

/-! ## Lemmas: the FIFO never fills up -/

theorem addWorkQueueItem_overrun (q : WorkQueue) (operation : I2COperation)
    (buf : Mem) (bufferSize : Int) (i : Fin MAX_WORK_ITEMS)
    (hfree : (q.workItems i).state = WorkItemState.ITEM_FREE)
    (hlow : ∀ j : Fin MAX_WORK_ITEMS, j.val < i.val →
      (q.workItems j).state ≠ WorkItemState.ITEM_FREE)
    (hsize : 32 < bufferSize) :
    addWorkQueueItem q operation (some buf) bufferSize = .error Fault.outOfBounds := by
  have hi : ((i.val : Int)).toNat = i.val := Int.toNat_natCast _
  have hlt : ((i.val : Int)).toNat < MAX_WORK_ITEMS := by rw [hi]; exact i.isLt
  have hge : (i.val : Int) ≥ 0 := Int.natCast_nonneg _
  have hpos : bufferSize > 0 := by omega
  have hfit : ¬ bufferSize.toNat ≤ BUFFER_SIZE := by
    simp only [BUFFER_SIZE]
    omega
  simp only [addWorkQueueItem, allocateWorkItem_first q.workItems i hfree hlow, hge, hlt,
    if_true, dite_true, hpos, hfit, if_false]

theorem step_add_cases (s : QueueRun) (r : Request) (hord : s.Ordered) :
    s.step (.add r) = .error Fault.outOfBounds ∨ ∃ s1, s.step (.add r) = .ok s1 ∧ s1.Ordered := by
  by_cases hfit : r.Fits
  · exact Or.inr (step_add_ordered s r hfit hord)
  · simp only [Request.Fits, BUFFER_SIZE, Classical.not_imp, not_le] at hfit
    obtain ⟨hsome, hsize⟩ := hfit
    obtain ⟨buf, hbuf⟩ := Option.isSome_iff_exists.1 hsome
    rcases lowest_free_or_none s.queue.workItems with ⟨i, hfree, hlow⟩ | hnone
    · left
      have h := addWorkQueueItem_overrun s.queue r.operation buf r.bufferSize i hfree hlow
        (by exact_mod_cast hsize)
      simp only [QueueRun.step, hbuf, h]
    · exact Or.inr ⟨s, step_add_rejected s r hnone, hord⟩

theorem run_cases (calls : List QueueCall) (s : QueueRun) (hord : s.Ordered) :
    s.run calls = .error Fault.outOfBounds ∨ ∃ s1, s.run calls = .ok s1 ∧ s1.Ordered := by
  induction calls generalizing s with
  | nil => exact Or.inr ⟨s, rfl, hord⟩
  | cons c rest ih =>
    have hstep : s.step c = .error Fault.outOfBounds ∨ ∃ s1, s.step c = .ok s1 ∧ s1.Ordered := by
      cases c with
      | add r => exact step_add_cases s r hord
      | process => exact Or.inr (step_process_ordered s hord)
    rcases hstep with he | ⟨s1, hs1, hord1⟩
    · left
      simp only [QueueRun.run, he]
    · rcases ih s1 hord1 with he | ⟨s2, hs2, hord2⟩
      · left
        simp only [QueueRun.run, hs1, he]
      · exact Or.inr ⟨s2, by simp only [QueueRun.run, hs1, hs2], hord2⟩

theorem allocated_le (q : WorkQueue) : q.allocated ≤ MAX_WORK_ITEMS := by
  unfold WorkQueue.allocated
  exact (List.length_filter_le _ _).trans (by simp)

theorem fifo_le_allocated (q : WorkQueue) (hcons : q.Consistent) :
    q.workQueue.length ≤ q.allocated := by
  obtain ⟨hnd, hall⟩ := hcons
  unfold WorkQueue.allocated
  rw [← List.length_map ((List.finRange MAX_WORK_ITEMS).filter
    (fun i => decide ((q.workItems i).state = WorkItemState.ITEM_ALLOCATED))) Fin.val]
  apply (List.subperm_of_subset hnd _).length_le
  intro index hmem
  obtain ⟨hlt, hst⟩ := hall index hmem
  exact List.mem_map.2 ⟨⟨index, hlt⟩, List.mem_filter.2 ⟨List.mem_finRange _, by simp [hst]⟩, rfl⟩

theorem addWorkQueueItem_not_blocked (q : WorkQueue) (hcons : q.Consistent)
    (operation : I2COperation) (buffer : Option Mem) (bufferSize : Int) :
    addWorkQueueItem q operation buffer bufferSize ≠ .error Fault.blocked := by
  rcases lowest_free_or_none q.workItems with ⟨i, hfree, hlow⟩ | hnone
  · obtain ⟨-, hroom⟩ := fifo_has_room q i hcons.1 hcons.2 hfree
    by_cases hfit : buffer.isSome = true → bufferSize ≤ 32
    · rw [addWorkQueueItem_accepted q operation buffer bufferSize i hfree hlow hfit hroom]
      exact fun h => Except.noConfusion h
    · simp only [Classical.not_imp, not_le] at hfit
      obtain ⟨buf, hbuf⟩ := Option.isSome_iff_exists.1 hfit.1
      rw [hbuf, addWorkQueueItem_overrun q operation buf bufferSize i hfree hlow hfit.2]
      exact fun h => Fault.noConfusion (Except.error.inj h)
  · rw [addWorkQueueItem_rejected q operation buffer bufferSize hnone]
    exact fun h => Except.noConfusion h

/-! ## Claim: the FIFO holds distinct ALLOCATED slots -/

/-- C26: take any sequence of `addWorkQueueItem` and `processWorkQueue` calls
made one after the other from `initialiseWorkQueue`.  The run never blocks on
a full FIFO, and it returns whenever no payload is longer than a slot buffer.
In every state it reaches, the FIFO holds pairwise distinct indices, each below
20 and each naming an ALLOCATED slot; the FIFO is no longer than the number of
ALLOCATED slots, which is at most 20; and the next `addWorkQueueItem`, whatever
its arguments, does not find the FIFO full. -/
theorem fifo_distinct_allocated (calls : List QueueCall) :
    QueueRun.start.run calls ≠ .error Fault.blocked ∧
      ((∀ c ∈ calls, c.Fits) → ∃ s, QueueRun.start.run calls = .ok s) ∧
      ∀ s, QueueRun.start.run calls = .ok s →
        s.queue.workQueue.Nodup ∧
        (∀ index ∈ s.queue.workQueue, ∃ h : index < MAX_WORK_ITEMS,
          (s.queue.workItems ⟨index, h⟩).state = WorkItemState.ITEM_ALLOCATED) ∧
        s.queue.workQueue.length ≤ s.queue.allocated ∧
        s.queue.allocated ≤ MAX_WORK_ITEMS ∧
        ∀ (operation : I2COperation) (buffer : Option Mem) (bufferSize : Int),
          addWorkQueueItem s.queue operation buffer bufferSize ≠ .error Fault.blocked := by
  refine ⟨?_, ?_, ?_⟩
  · rcases run_cases calls QueueRun.start start_ordered with he | ⟨s1, hs1, -⟩
    · rw [he]
      exact fun h => Fault.noConfusion (Except.error.inj h)
    · rw [hs1]
      exact fun h => Except.noConfusion h
  · intro hfit
    obtain ⟨s1, hs1, -⟩ := run_ordered calls QueueRun.start start_ordered hfit
    exact ⟨s1, hs1⟩
  · intro s hs
    rcases run_cases calls QueueRun.start start_ordered with he | ⟨s1, hs1, hord⟩
    · rw [he] at hs
      exact Except.noConfusion hs
    · rw [hs1] at hs
      have e : s1 = s := Except.ok.inj hs
      subst e
      have hcons := ordered_consistent s1 hord
      exact ⟨hcons.1, hcons.2, fifo_le_allocated s1.queue hcons, allocated_le s1.queue,
        addWorkQueueItem_not_blocked s1.queue hcons⟩

theorem fifo_distinct_allocated_witness :
    ∃ s, QueueRun.start.run demoTraffic = .ok s ∧ s.queue.workQueue.Nodup ∧
      s.queue.workQueue.length ≤ s.queue.allocated ∧ s.queue.allocated ≤ MAX_WORK_ITEMS ∧
      addWorkQueueItem s.queue I2COperation.OP_SEND_REQUEST none 0 ≠ .error Fault.blocked :=
  ((fifo_distinct_allocated demoTraffic).2.1 (by decide)).imp fun s hs =>
    have h := (fifo_distinct_allocated demoTraffic).2.2 s hs
    ⟨hs, h.1, h.2.2.1, h.2.2.2.1, h.2.2.2.2 _ _ _⟩

/-! ## Lemmas: size of the packet -/

theorem send_overrun_of_gt (self : PskReporter) (env : Env) (hne : self.recordList ≠ [])
    (hc : env.wifiConnected = true) (hs : env.wifiSta = true) (ha : env.allocOk = true)
    (hgt : MAX_BUFFER_SIZE + 1 <
      104 + self.encodeReporterRecord.2 + self.encodeReceivedRecords.2) :
    (self.send env).overrun = true ∧ (self.send env).datagram = none := by
  rw [send_eq_of_guard self env hne hc hs ha, if_neg (Nat.not_le.2 hgt)]
  exact ⟨rfl, rfl⟩

theorem addReceivedRecords_identity (calls : List (Nat × Mem)) (self : PskReporter) :
    (self.addReceivedRecords calls).1.reporterCallsign = self.reporterCallsign ∧
      (self.addReceivedRecords calls).1.reporterGridSquare = self.reporterGridSquare ∧
      (self.addReceivedRecords calls).1.decodingSoftware = self.decodingSoftware := by
  induction calls generalizing self with
  | nil => exact ⟨rfl, rfl, rfl⟩
  | cons c rest ih =>
    obtain ⟨now, buf⟩ := c
    have h := ih (self.addReceivedRecord now (some buf)).1
    have hstep := addReceivedRecord_some self now buf
    simp only [PskReporter.addReceivedRecords]
    rw [h.1, h.2.1, h.2.2, hstep]
    split <;> exact ⟨rfl, rfl, rfl⟩

theorem addReceivedRecords_forall (P : ReceivedRecord → Prop) (calls : List (Nat × Mem))
    (self : PskReporter) (hself : ∀ r ∈ self.recordList, P r)
    (hnew : ∀ c ∈ calls, P (ReceivedRecord.new (payloadCallsign c.2) (payloadFrequency c.2)
      (payloadSnr c.2) c.1)) :
    ∀ r ∈ (self.addReceivedRecords calls).1.recordList, P r := by
  induction calls generalizing self with
  | nil => exact hself
  | cons c rest ih =>
    obtain ⟨now, buf⟩ := c
    simp only [PskReporter.addReceivedRecords]
    apply ih _ _ (fun x hx => hnew x (List.mem_cons_of_mem _ hx))
    rw [addReceivedRecord_some self now buf]
    split
    · intro r hr
      rcases List.mem_append.1 hr with hr | hr
      · exact hself r hr
      · rw [List.mem_singleton] at hr
        rw [hr]
        exact hnew (now, buf) (List.mem_cons_self _ _)
    · exact hself

theorem sum_map_const (recs : List ReceivedRecord) (f : ReceivedRecord → Nat) (k : Nat)
    (h : ∀ r ∈ recs, f r = k) : (recs.map f).sum = k * recs.length := by
  induction recs with
  | nil => simp
  | cons r rest ih =>
    simp only [List.map_cons, List.sum_cons, List.length_cons,
      h r (List.mem_cons_self _ _), ih (fun x hx => h x (List.mem_cons_of_mem _ hx))]
    rw [Nat.mul_succ, Nat.add_comm]

/-! ## Claim: size of the packet -/

/-- C23 (evaluated at the failing input): forty received-record requests whose
32-byte slot buffers carry pairwise distinct 25-byte callsigns are all accepted
by a fresh aggregator, and the packet that `send` then assembles has 1716
bytes (64 of header, 40 of the first descriptor, 8 of reporter record, 1604 of
received records), more than the `MAX_BUFFER_SIZE` = 1471 of the packet buffer
and more than the 1472 elements of its array: `send` writes and reads past the
end of the array, and no datagram inside the array is handed to the sender. -/
theorem packet_overruns_buffer :
    ((PskReporter.new 0xDEADBEEF false).addReceivedRecords demoLongSpots).2 =
        List.replicate 40 true ∧
      104 + ((PskReporter.new 0xDEADBEEF false).addReceivedRecords
          demoLongSpots).1.encodeReporterRecord.2
        + ((PskReporter.new 0xDEADBEEF false).addReceivedRecords
          demoLongSpots).1.encodeReceivedRecords.2 = 1716 ∧
      MAX_BUFFER_SIZE < 1716 ∧ MAX_BUFFER_SIZE + 1 < 1716 ∧
      (((PskReporter.new 0xDEADBEEF false).addReceivedRecords demoLongSpots).1.send
          envOnline).overrun = true ∧
      (((PskReporter.new 0xDEADBEEF false).addReceivedRecords demoLongSpots).1.send
          envOnline).datagram = none := by
  have hfresh := addReceivedRecords_fresh demoLongSpots (PskReporter.new 0xDEADBEEF false)
    (by decide) (by decide) (by decide)
  have hid := addReceivedRecords_identity demoLongSpots (PskReporter.new 0xDEADBEEF false)
  have hlen : ((PskReporter.new 0xDEADBEEF false).addReceivedRecords
      demoLongSpots).1.recordList.length = 40 := by
    have h := congrArg List.length hfresh.2
    rw [List.length_map, List.length_append, List.length_map, List.length_map] at h
    exact h
  have hall := addReceivedRecords_forall
    (fun r => 12 + r.callsign.length + r.mode.length = 40) demoLongSpots
    (PskReporter.new 0xDEADBEEF false) (by decide) (by decide)
  have hne : ((PskReporter.new 0xDEADBEEF false).addReceivedRecords
      demoLongSpots).1.recordList ≠ [] := by
    intro h
    rw [h] at hlen
    exact absurd hlen (by decide)
  have hsize : 104 + ((PskReporter.new 0xDEADBEEF false).addReceivedRecords
        demoLongSpots).1.encodeReporterRecord.2
      + ((PskReporter.new 0xDEADBEEF false).addReceivedRecords
        demoLongSpots).1.encodeReceivedRecords.2 = 1716 := by
    rw [encodeReporterRecord_eq, encodeReceivedRecords_eq _ hne, encoded_length_sum,
      sum_map_const _ _ 40 hall, hlen, hid.1, hid.2.1, hid.2.2]
    have h1 : pad4 (7 + (PskReporter.new 0xDEADBEEF false).reporterCallsign.length
        + (PskReporter.new 0xDEADBEEF false).reporterGridSquare.length
        + (PskReporter.new 0xDEADBEEF false).decodingSoftware.length) = 8 := by decide
    have h2 : pad4 (4 + 40 * 40) = 1604 := by decide
    simp only [h1, h2]
  have hover := send_overrun_of_gt _ envOnline hne rfl rfl rfl
    (by rw [hsize]; decide)
  exact ⟨hfresh.1, hsize, by decide, by decide, hover.1, hover.2⟩

/-! ## Claim: indexed read -/

/-- C22 (evaluated at the failing input): on a default-constructed `SafeString`
(`data` is NULL, `length` is 0) the read-only `operator[]` with index 0 does
not return the sentinel: 0 is not greater than the length, so it reads
`data[0]` through the NULL pointer.  The mutable `operator[]`, which tests
`index >= length`, returns a reference to `EmptyChar` at the same input. -/
theorem const_index_reads_null :
    demoDefault.length 0 = .ok 0 ∧
      demoDefault.c_str 0 = .ok none ∧
      demoDefault.opIndexConst 0 0 = .error MemFault.nullPointer ∧
      (demoDefault.opIndex 0 0).map Prod.snd = .ok CharRef.EmptyChar :=
  ⟨rfl, rfl, rfl, rfl⟩

/-! ## Claim: Format -/

/-- C25 (evaluated at the failing input): `Format` with the result "hi" on a
`SafeString` that holds "hello" returns true and writes in place; afterwards
`length()` is still 5, the array holds `h i NUL l o NUL`, and `operator==`
with a `SafeString` constructed from "hi" is false. -/
theorem format_in_place_keeps_length :
    ∃ s1, demoShared.Format 0 (some demoHi) = .ok (s1, true) ∧
      s1.length 0 = .ok 5 ∧
      s1.c_str 0 = .ok (some [0x68, 0x69, 0x00, 0x6C, 0x6F, 0x00]) ∧
      (s1.constructCStr (some (demoHi ++ [0]))).1.opEq 0 (s1.constructCStr (some (demoHi ++ [0]))).2
        = .ok false ∧
      (s1.constructCStr (some (demoHi ++ [0]))).1.length (s1.constructCStr (some (demoHi ++ [0]))).2
        = .ok 2 :=
  ⟨_, rfl, rfl, rfl, rfl, rfl⟩

/-! ## Lemmas: the heap operations of SafeString -/

namespace Store

theorem pData_ok {s : Store} {this p : Nat} (h : s.handles.getD this none = some p) :
    s.pData this = .ok p := by
  simp only [pData, h]

theorem pData_inv {s : Store} {this p : Nat} (h : s.pData this = .ok p) :
    s.handles.getD this none = some p := by
  unfold pData at h
  split at h
  · next q hq => rw [hq]; exact congrArg some (Except.ok.inj h)
  · exact Except.noConfusion h

theorem deref_ok {s : Store} {p : Nat} {sd : StringData} (h : s.blocks p = some sd) :
    s.deref p = .ok sd := by
  simp only [deref, h]

theorem deref_inv {s : Store} {p : Nat} {sd : StringData} (h : s.deref p = .ok sd) :
    s.blocks p = some sd := by
  unfold deref at h
  split at h
  · next q hq => rw [hq]; exact congrArg some (Except.ok.inj h)
  · exact Except.noConfusion h

theorem lt_length_of_getD {l : List (Option Nat)} {this p : Nat}
    (h : l.getD this none = some p) : this < l.length := by
  by_contra hge
  rw [List.getD_eq_default _ _ (by omega)] at h
  exact Option.noConfusion h

theorem count_set_of_getD (l : List (Option Nat)) (this p : Nat) (x y : Option Nat)
    (h : l.getD this none = some p) :
    (l.set this x).count y + (if some p = y then 1 else 0) =
      l.count y + (if x = y then 1 else 0) := by
  have hlt := lt_length_of_getD h
  have hget : l[this] = some p := by
    rw [List.getD_eq_getElem _ _ hlt] at h
    exact h
  have hle : (if some p = y then 1 else 0) ≤ l.count y := by
    split
    · next e => rw [← e, ← hget]; exact List.count_pos_iff.2 (List.getElem_mem _)
    · exact Nat.zero_le _
  rw [List.count_set _ _ _ _ hlt, hget]
  simp only [beq_iff_eq]
  omega

theorem copy_eq {s : Store} {other p : Nat} {sd : StringData}
    (hp : s.handles.getD other none = some p) (hsd : s.blocks p = some sd) :
    s.copy other = .ok
      ({ s with
          blocks := Function.update s.blocks p (some { sd with refCount := sd.refCount + 1 })
          handles := s.handles ++ [some p] }, s.handles.length) := by
  simp only [copy, pData_ok hp, deref_ok hsd, bind, Except.bind, pure, Except.pure, setBlock,
    newObject]

theorem count_concat_some (l : List (Option Nat)) (a q : Nat) :
    (l ++ [some a]).count (some q) = l.count (some q) + (if a = q then 1 else 0) := by
  rw [List.count_append, List.count_singleton]
  by_cases h : a = q
  · simp [h]
  · simp [h]

theorem two_handles {l : List (Option Nat)} {this other p : Nat} (hne : this ≠ other)
    (h1 : l.getD this none = some p) (h2 : l.getD other none = some p) :
    2 ≤ l.count (some p) := by
  have hc := count_set_of_getD l this p none (some p) h1
  have hlt := lt_length_of_getD h2
  have hmem : some p ∈ l.set this none := by
    have hlt2 : other < (l.set this none).length := by rw [List.length_set]; exact hlt
    have hget : (l.set this none)[other] = some p := by
      rw [List.getElem_set_ne hne]
      rw [List.getD_eq_getElem _ _ hlt] at h2
      exact h2
    rw [← hget]
    exact List.getElem_mem _
  have hpos := List.count_pos_iff.2 hmem
  simp only [if_true, if_neg (show ¬ (none : Option Nat) = some p from nofun)] at hc
  omega

theorem below_next {s : Store} (hv : s.Valid) {p : Nat} {sd : StringData}
    (h : s.blocks p = some sd) : p < s.next := by
  by_contra hge
  rw [hv.fresh p (by omega)] at h
  exact Option.noConfusion h

theorem live_block {s : Store} (hv : s.Valid) {this p : Nat}
    (h : s.handles.getD this none = some p) : ∃ sd, s.blocks p = some sd := by
  cases hb : s.blocks p with
  | some sd => exact ⟨sd, rfl⟩
  | none =>
    have hz := hv.freed p hb
    have hlt := lt_length_of_getD h
    have hmem : some p ∈ s.handles := by
      rw [List.getD_eq_getElem _ _ hlt] at h
      rw [← h]
      exact List.getElem_mem _
    exact absurd hz (Nat.pos_iff_ne_zero.1 (List.count_pos_iff.2 hmem))

theorem valid_init : Store.init.Valid :=
  ⟨fun _ _ => rfl, fun _ _ => rfl, fun _ _ h => Option.noConfusion h⟩

theorem valid_emptyChar {s : Store} (hv : s.Valid) (v : Byte) :
    Valid { s with EmptyChar := v } :=
  ⟨hv.fresh, hv.freed, hv.counted⟩

theorem valid_setData {s : Store} (hv : s.Valid) {p : Nat} {sd sd1 : StringData}
    (hsd : s.blocks p = some sd) (hrc : sd1.refCount = sd.refCount) (hwf : sd1.WellFormed) :
    Valid (s.setBlock p (some sd1)) := by
  refine ⟨?_, ?_, ?_⟩
  · intro q hq
    have hlt := below_next hv hsd
    have hq1 : s.next ≤ q := hq
    simp only [setBlock, Function.update_apply, if_neg (show q ≠ p by omega)]
    exact hv.fresh q hq1
  · intro q hq
    simp only [setBlock, Function.update_apply] at hq
    split at hq
    · exact Option.noConfusion hq
    · exact hv.freed q hq
  · intro q qd hq
    simp only [setBlock, Function.update_apply] at hq
    split at hq
    · next e =>
      have e1 : sd1 = qd := Option.some.inj hq
      subst e1
      subst e
      have h := hv.counted q sd hsd
      exact ⟨by rw [hrc]; exact h.1, by rw [hrc]; exact h.2.1, hwf⟩
    · exact hv.counted q qd hq

theorem valid_gain_new {s : Store} (hv : s.Valid) {sd : StringData} (hrc : sd.refCount = 1)
    (hwf : sd.WellFormed) (l : List (Option Nat))
    (hl : ∀ y, l.count (some y) = s.handles.count (some y) + (if s.next = y then 1 else 0)) :
    Valid { s with
      blocks := Function.update s.blocks s.next (some sd)
      next := s.next + 1
      handles := l } := by
  have hz : s.handles.count (some s.next) = 0 := hv.freed s.next (hv.fresh s.next (Nat.le_refl _))
  refine ⟨?_, ?_, ?_⟩
  · intro q hq
    have hq1 : s.next + 1 ≤ q := hq
    simp only [Function.update_apply, if_neg (show q ≠ s.next by omega)]
    exact hv.fresh q (by omega)
  · intro q hq
    simp only [Function.update_apply] at hq
    split at hq
    · exact Option.noConfusion hq
    · next hne =>
      have h := hv.freed q hq
      simp only [handleCount] at h
      simp only [handleCount, hl, h, if_neg (show ¬ s.next = q from fun e => hne e.symm)]
  · intro q qd hq
    simp only [Function.update_apply] at hq
    simp only [handleCount, hl]
    split at hq
    · next e =>
      have e1 : sd = qd := Option.some.inj hq
      subst e1
      subst e
      simp only [if_true, hz, hrc]
      exact ⟨by norm_num, by norm_num, hwf⟩
    · next hne =>
      have h := hv.counted q qd hq
      simp only [if_neg (show ¬ s.next = q from fun e => hne e.symm), Nat.add_zero]
      exact h

theorem valid_gain {s : Store} (hv : s.Valid) {p : Nat} {sd : StringData}
    (hsd : s.blocks p = some sd) (l : List (Option Nat))
    (hl : ∀ y, l.count (some y) = s.handles.count (some y) + (if p = y then 1 else 0)) :
    Valid { s with
      blocks := Function.update s.blocks p (some { sd with refCount := sd.refCount + 1 })
      handles := l } := by
  have hlt := below_next hv hsd
  have hc := hv.counted p sd hsd
  refine ⟨?_, ?_, ?_⟩
  · intro q hq
    have hq1 : s.next ≤ q := hq
    simp only [Function.update_apply, if_neg (show q ≠ p by omega)]
    exact hv.fresh q hq1
  · intro q hq
    simp only [Function.update_apply] at hq
    split at hq
    · exact Option.noConfusion hq
    · next hne =>
      have h := hv.freed q hq
      simp only [handleCount] at h
      simp only [handleCount, hl, h, if_neg (show ¬ p = q from fun e => hne e.symm)]
  · intro q qd hq
    simp only [Function.update_apply] at hq
    simp only [handleCount, hl]
    split at hq
    · next e =>
      have e1 := Option.some.inj hq
      subst e1
      subst e
      simp only [if_true]
      simp only [handleCount] at hc
      exact ⟨by push_cast; omega, by show 1 ≤ sd.refCount + 1; omega, hc.2.2⟩
    · next hne =>
      have h := hv.counted q qd hq
      simp only [if_neg (show ¬ p = q from fun e => hne e.symm), Nat.add_zero]
      exact h

theorem count_set_dead (l : List (Option Nat)) (this q : Nat) (hlt : this < l.length)
    (h : l.getD this none = none) (y : Nat) :
    (l.set this (some q)).count (some y) = l.count (some y) + (if q = y then 1 else 0) := by
  have hget : l[this] = none := by
    rw [List.getD_eq_getElem _ _ hlt] at h
    exact h
  rw [List.count_set _ _ _ _ hlt, hget]
  by_cases e : q = y
  · simp [e]
  · simp [e]

end Store

namespace Store

theorem count_retarget (s : Store) {this p : Nat} (x : Option Nat) (q : Nat)
    (hp : s.handles.getD this none = some p) :
    (s.handles.set this x).count (some q) + (if p = q then 1 else 0) =
      s.handles.count (some q) + (if x = some q then 1 else 0) := by
  have h := count_set_of_getD s.handles this p x (some q) hp
  simp only [Option.some.injEq] at h
  exact h

theorem valid_drop {s : Store} (hv : s.Valid) {this p : Nat} {sd : StringData}
    (hp : s.handles.getD this none = some p) (hsd : s.blocks p = some sd) :
    Valid { s with
      blocks := Function.update s.blocks p
        (if sd.refCount - 1 = 0 then none else some { sd with refCount := sd.refCount - 1 })
      handles := s.handles.set this none } := by
  have hlt := below_next hv hsd
  have hc := hv.counted p sd hsd
  simp only [handleCount] at hc
  refine ⟨?_, ?_, ?_⟩
  · intro q hq
    have hq1 : s.next ≤ q := hq
    simp only [Function.update_apply, if_neg (show q ≠ p by omega)]
    exact hv.fresh q hq1
  · intro q hq
    have hcq := count_retarget s none q hp
    simp only [if_neg (show ¬ (none : Option Nat) = some q from nofun)] at hcq
    simp only [Function.update_apply] at hq
    simp only [handleCount]
    split at hq
    · next e =>
      subst e
      split at hq
      · simp only [if_true] at hcq
        omega
      · exact Option.noConfusion hq
    · next hne =>
      have h := hv.freed q hq
      simp only [handleCount] at h
      omega
  · intro q qd hq
    have hcq := count_retarget s none q hp
    simp only [if_neg (show ¬ (none : Option Nat) = some q from nofun)] at hcq
    simp only [Function.update_apply] at hq
    simp only [handleCount]
    split at hq
    · next e =>
      subst e
      split at hq
      · exact Option.noConfusion hq
      · next hnz =>
        have e1 := Option.some.inj hq
        subst e1
        simp only [if_true] at hcq
        exact ⟨by show sd.refCount - 1 = _; omega, by show 1 ≤ sd.refCount - 1; omega, hc.2.2⟩
    · next hne =>
      have h := hv.counted q qd hq
      simp only [handleCount] at h
      simp only [if_neg (show ¬ p = q from fun e => hne e.symm)] at hcq
      exact ⟨by omega, h.2.1, h.2.2⟩

end Store

namespace Store

theorem bind_ok_inv {α β : Type} {x : Except MemFault α} {f : α → Except MemFault β} {b : β}
    (h : x >>= f = .ok b) : ∃ a, x = .ok a ∧ f a = .ok b := by
  cases x with
  | error e => exact Except.noConfusion h
  | ok a => exact ⟨a, rfl, h⟩

theorem getD_concat_lt (l : List (Option Nat)) (x : Option Nat) {this : Nat}
    (h : this < l.length) : (l ++ [x]).getD this none = l.getD this none :=
  List.getD_append l [x] none this h

theorem getD_concat_self (l : List (Option Nat)) (x : Option Nat) :
    (l ++ [x]).getD l.length none = x := by
  rw [List.getD_append_right l [x] none l.length (Nat.le_refl _), Nat.sub_self]
  rfl

theorem getD_set_self (l : List (Option Nat)) (x : Option Nat) {this : Nat}
    (h : this < l.length) : (l.set this x).getD this none = x := by
  rw [List.getD_eq_getElem _ _ (by rw [List.length_set]; exact h), List.getElem_set_self]

theorem getD_set_ne (l : List (Option Nat)) (x : Option Nat) {this other : Nat}
    (h : this ≠ other) : (l.set this x).getD other none = l.getD other none := by
  simp only [List.getD_eq_getElem?_getD, List.getElem?_set_ne h]

theorem release_eq {s : Store} {p : Nat} {sd : StringData} (hsd : s.blocks p = some sd) :
    s.release p = .ok (s.setBlock p
      (if sd.refCount - 1 = 0 then none else some { sd with refCount := sd.refCount - 1 })) := by
  simp only [release, deref_ok hsd, bind, Except.bind, pure, Except.pure]
  split <;> rfl

theorem destroy_eq {s : Store} {this p : Nat} {sd : StringData}
    (hp : s.handles.getD this none = some p) (hsd : s.blocks p = some sd) :
    s.destroy this = .ok { s with
      blocks := Function.update s.blocks p
        (if sd.refCount - 1 = 0 then none else some { sd with refCount := sd.refCount - 1 })
      handles := s.handles.set this none } := by
  simp only [destroy, pData_ok hp, release_eq hsd, bind, Except.bind, pure, Except.pure, setBlock]

theorem detach_eq {s : Store} {this p : Nat} {sd : StringData}
    (hp : s.handles.getD this none = some p) (hsd : s.blocks p = some sd) :
    s.detach this = .ok (if sd.refCount > 1 then
      { s with
        blocks := Function.update (Function.update s.blocks s.next
            (some (StringData.ofBuf (sd.data.map Mem.ofList) sd.length)))
          p (some { sd with refCount := sd.refCount - 1 })
        next := s.next + 1
        handles := s.handles.set this (some s.next) }
      else s) := by
  simp only [detach, pData_ok hp, deref_ok hsd, bind, Except.bind, pure, Except.pure, alloc,
    setBlock]
  split <;> rfl

theorem wf_empty : StringData.empty.WellFormed := rfl

theorem wf_ofBuf (str : Option Mem) (len : Nat) : (StringData.ofBuf str len).WellFormed := by
  cases str with
  | none => simp [StringData.WellFormed, StringData.ofBuf]
  | some m => simp [StringData.WellFormed, StringData.ofBuf, Mem.read]

theorem alloc_object_valid {s : Store} (hv : s.Valid) {sd : StringData} (hrc : sd.refCount = 1)
    (hwf : sd.WellFormed) : ((s.alloc sd).1.newObject (s.alloc sd).2).1.Valid :=
  valid_gain_new hv hrc hwf _ (fun y => count_concat_some s.handles s.next y)

theorem construct_valid {s : Store} (hv : s.Valid) : s.construct.1.Valid :=
  alloc_object_valid hv rfl wf_empty

theorem constructLen_valid {s : Store} (hv : s.Valid) (len : Nat) : (s.constructLen len).1.Valid :=
  alloc_object_valid hv rfl (wf_ofBuf none len)

theorem constructBuf_valid {s : Store} (hv : s.Valid) (str : Option Mem) (len : Nat) :
    (s.constructBuf str len).1.Valid := by
  cases str with
  | none => exact alloc_object_valid hv rfl wf_empty
  | some m => exact alloc_object_valid hv rfl (wf_ofBuf (some m) len)

theorem constructCStr_valid {s : Store} (hv : s.Valid) (str : Option (List Byte)) :
    (s.constructCStr str).1.Valid := by
  cases str with
  | none => exact alloc_object_valid hv rfl wf_empty
  | some l => exact alloc_object_valid hv rfl (wf_ofBuf _ _)

theorem copy_valid {s : Store} (hv : s.Valid) {other : Nat} {r : Store × Nat}
    (h : s.copy other = .ok r) : r.1.Valid := by
  unfold copy at h
  obtain ⟨p, hp, h⟩ := bind_ok_inv h
  obtain ⟨sd, hsd, h⟩ := bind_ok_inv h
  have e := Except.ok.inj h
  subst e
  exact valid_gain hv (deref_inv hsd) _ (fun y => count_concat_some s.handles p y)

theorem destroy_valid {s s1 : Store} (hv : s.Valid) {this : Nat}
    (h : s.destroy this = .ok s1) : s1.Valid := by
  have h0 := h
  unfold destroy at h0
  obtain ⟨p, hp, -⟩ := bind_ok_inv h0
  obtain ⟨sd, hsd⟩ := live_block hv (pData_inv hp)
  rw [destroy_eq (pData_inv hp) hsd] at h
  have e := Except.ok.inj h
  subst e
  exact valid_drop hv (pData_inv hp) hsd

end Store

namespace Store

theorem valid_detached {s : Store} (hv : s.Valid) {this p : Nat} {sd : StringData}
    (hp : s.handles.getD this none = some p) (hsd : s.blocks p = some sd)
    (hrc : sd.refCount > 1) (nb : StringData) (hnb : nb.refCount = 1) (hwf : nb.WellFormed) :
    Valid { s with
      blocks := Function.update (Function.update s.blocks s.next (some nb))
        p (some { sd with refCount := sd.refCount - 1 })
      next := s.next + 1
      handles := s.handles.set this (some s.next) } := by
  have hlt := lt_length_of_getD hp
  have hD := valid_drop hv hp hsd
  rw [if_neg (show ¬ sd.refCount - 1 = 0 by omega)] at hD
  have hl : ∀ y, (s.handles.set this (some s.next)).count (some y) =
      (s.handles.set this none).count (some y) + (if s.next = y then 1 else 0) := by
    intro y
    have h := count_set_dead (s.handles.set this none) this s.next
      (by rw [List.length_set]; exact hlt) (getD_set_self _ _ hlt) y
    rw [List.set_set] at h
    exact h
  have h := valid_gain_new hD hnb hwf (s.handles.set this (some s.next)) hl
  have hne : s.next ≠ p := Nat.ne_of_gt (below_next hv hsd)
  rw [Function.update_comm hne]
  exact h

/-- After `detach` the object has a block of its own: the reference count is 1,
the length is the old one, and no other object has moved. -/
theorem detach_live {s : Store} (hv : s.Valid) {this p : Nat} {sd : StringData}
    (hp : s.handles.getD this none = some p) (hsd : s.blocks p = some sd) :
    ∃ s1 p1 sd1, s.detach this = .ok s1 ∧ s1.Valid ∧
      s1.handles.getD this none = some p1 ∧ s1.blocks p1 = some sd1 ∧
      sd1.refCount = 1 ∧ sd1.length = sd.length ∧
      s1.handles.length = s.handles.length ∧ s1.EmptyChar = s.EmptyChar ∧
      (sd1.data = none → sd.data = none ∧ sd.refCount = 1) := by
  have hlt := lt_length_of_getD hp
  have hc := hv.counted p sd hsd
  by_cases hrc : sd.refCount > 1
  · refine ⟨{ s with
        blocks := Function.update (Function.update s.blocks s.next
            (some (StringData.ofBuf (sd.data.map Mem.ofList) sd.length)))
          p (some { sd with refCount := sd.refCount - 1 })
        next := s.next + 1
        handles := s.handles.set this (some s.next) },
      s.next, StringData.ofBuf (sd.data.map Mem.ofList) sd.length, ?_,
      valid_detached hv hp hsd hrc _ rfl (wf_ofBuf _ _), ?_, ?_, rfl, rfl, ?_, rfl, ?_⟩
    · rw [detach_eq hp hsd, if_pos hrc]
    · exact getD_set_self _ _ hlt
    · have hne : s.next ≠ p := Nat.ne_of_gt (below_next hv hsd)
      simp only [Function.update_apply, if_neg hne, if_true]
    · simp only [List.length_set]
    · intro hnone
      exact Option.noConfusion hnone
  · refine ⟨s, p, sd, ?_, hv, hp, hsd, by omega, rfl, rfl, rfl, fun h => ⟨h, by omega⟩⟩
    rw [detach_eq hp hsd, if_neg hrc]

theorem detach_valid {s s1 : Store} (hv : s.Valid) {this : Nat}
    (h : s.detach this = .ok s1) : s1.Valid := by
  have h0 := h
  unfold detach at h0
  obtain ⟨p, hp, -⟩ := bind_ok_inv h0
  obtain ⟨sd, hsd⟩ := live_block hv (pData_inv hp)
  obtain ⟨s2, -, -, h2, hv2, -⟩ := detach_live hv (pData_inv hp) hsd
  rw [h2] at h
  exact Except.ok.inj h ▸ hv2

theorem assign_live {s : Store} (hv : s.Valid) {this other p q : Nat} (hne : this ≠ other)
    (hp : s.handles.getD this none = some p) (hq : s.handles.getD other none = some q) :
    ∃ s1, s.assign this other = .ok s1 ∧ s1.Valid ∧
      s1.handles = s.handles.set this (some q) ∧ s1.next = s.next ∧
      s1.EmptyChar = s.EmptyChar := by
  have hlt := lt_length_of_getD hp
  obtain ⟨sd, hsd⟩ := live_block hv hp
  have hD := valid_drop hv hp hsd
  have hqD : (s.handles.set this none).getD other none = some q := by
    rw [getD_set_ne _ _ hne]
    exact hq
  obtain ⟨od, hod⟩ := live_block hD hqD
  have hl : ∀ y, (s.handles.set this (some q)).count (some y) =
      (s.handles.set this none).count (some y) + (if q = y then 1 else 0) := by
    intro y
    have h := count_set_dead (s.handles.set this none) this q
      (by rw [List.length_set]; exact hlt) (getD_set_self _ _ hlt) y
    rw [List.set_set] at h
    exact h
  have hfin := valid_gain hD hod (s.handles.set this (some q)) hl
  refine ⟨_, ?_, hfin, rfl, rfl, rfl⟩
  have hq1 : (s.setBlock p (if sd.refCount - 1 = 0 then none
      else some { sd with refCount := sd.refCount - 1 })).handles.getD other none = some q := hq
  have hod1 : (s.setBlock p (if sd.refCount - 1 = 0 then none
      else some { sd with refCount := sd.refCount - 1 })).blocks q = some od := hod
  simp only [assign, if_neg hne, pData_ok hp, release_eq hsd, pData_ok hq1, deref_ok hod1, bind,
    Except.bind, pure, Except.pure]
  rfl

theorem assign_valid {s s1 : Store} (hv : s.Valid) {this other : Nat}
    (h : s.assign this other = .ok s1) : s1.Valid := by
  by_cases hne : this = other
  · simp only [assign, if_pos hne, pure, Except.pure] at h
    exact Except.ok.inj h ▸ hv
  · have h0 := h
    simp only [assign, if_neg hne] at h0
    obtain ⟨p, hp, h0⟩ := bind_ok_inv h0
    obtain ⟨sd, hsd⟩ := live_block hv (pData_inv hp)
    rw [release_eq hsd] at h0
    obtain ⟨sR, hR, h0⟩ := bind_ok_inv h0
    obtain ⟨q, hq, -⟩ := bind_ok_inv h0
    have e := Except.ok.inj hR
    subst e
    have hq1 : s.handles.getD other none = some q := pData_inv hq
    obtain ⟨s2, h2, hv2, -⟩ := assign_live hv hne (pData_inv hp) hq1
    rw [h2] at h
    exact Except.ok.inj h ▸ hv2

end Store

namespace Store

theorem getRefCount_ok {s : Store} {this p : Nat} {sd : StringData}
    (hp : s.handles.getD this none = some p) (hsd : s.blocks p = some sd) :
    s.getRefCount this = .ok sd.refCount := by
  simp only [getRefCount, pData_ok hp, deref_ok hsd, bind, Except.bind, pure, Except.pure]

theorem length_ok {s : Store} {this p : Nat} {sd : StringData}
    (hp : s.handles.getD this none = some p) (hsd : s.blocks p = some sd) :
    s.length this = .ok sd.length := by
  simp only [length, pData_ok hp, deref_ok hsd, bind, Except.bind, pure, Except.pure]

theorem c_str_ok {s : Store} {this p : Nat} {sd : StringData}
    (hp : s.handles.getD this none = some p) (hsd : s.blocks p = some sd) :
    s.c_str this = .ok sd.data := by
  simp only [c_str, pData_ok hp, deref_ok hsd, bind, Except.bind, pure, Except.pure]

theorem store_cell_eq {s : Store} {p index : Nat} {sd : StringData} {d : List Byte} (v : Byte)
    (hsd : s.blocks p = some sd) (hd : sd.data = some d) (hlt : index < d.length) :
    s.store (CharRef.cell p index) v =
      .ok (s.setBlock p (some { sd with data := some (d.set index v) })) := by
  simp only [store, deref_ok hsd, hd, hlt, if_true, bind, Except.bind, pure, Except.pure]

theorem load_cell_eq {s : Store} {p index : Nat} {sd : StringData} {d : List Byte}
    (hsd : s.blocks p = some sd) (hd : sd.data = some d) (hlt : index < d.length) :
    s.load (CharRef.cell p index) = .ok (d.get ⟨index, hlt⟩) := by
  simp only [load, deref_ok hsd, hd, hlt, dite_true, bind, Except.bind, pure, Except.pure]

theorem vsnprintf_eq {s : Store} {p : Nat} {sd : StringData} {d : List Byte} (text : List Byte)
    (hsd : s.blocks p = some sd) (hd : sd.data = some d) (hle : text.length + 1 ≤ d.length) :
    s.vsnprintf p text = .ok (s.setBlock p
      (some { sd with data := some (text ++ [0] ++ d.drop (text.length + 1)) })) := by
  simp only [vsnprintf, deref_ok hsd, hd, hle, if_true, bind, Except.bind, pure, Except.pure]

theorem wf_set {sd : StringData} {d : List Byte} (hwf : sd.WellFormed) (hd : sd.data = some d)
    (index : Nat) (v : Byte) :
    StringData.WellFormed { sd with data := some (d.set index v) } := by
  simp only [StringData.WellFormed, hd] at hwf
  simp only [StringData.WellFormed, List.length_set]
  exact hwf

theorem wf_text {sd : StringData} {d : List Byte} (hwf : sd.WellFormed) (hd : sd.data = some d)
    (text : List Byte) (hle : text.length + 1 ≤ d.length) :
    StringData.WellFormed { sd with data := some (text ++ [0] ++ d.drop (text.length + 1)) } := by
  simp only [StringData.WellFormed, hd] at hwf
  simp only [StringData.WellFormed, List.length_append, List.length_drop, List.length_cons,
    List.length_nil]
  omega

theorem store_valid {s s1 : Store} (hv : s.Valid) {r : CharRef} {v : Byte}
    (h : s.store r v = .ok s1) : s1.Valid := by
  cases r with
  | EmptyChar =>
    simp only [store, pure, Except.pure] at h
    exact Except.ok.inj h ▸ valid_emptyChar hv v
  | cell p index =>
    have h0 := h
    simp only [store] at h0
    obtain ⟨sd, hsd, h0⟩ := bind_ok_inv h0
    have hb := deref_inv hsd
    cases hd : sd.data with
    | none =>
      simp only [hd] at h0
      exact Except.noConfusion h0
    | some d =>
      by_cases hlt : index < d.length
      · rw [store_cell_eq v hb hd hlt] at h
        exact Except.ok.inj h ▸ valid_setData hv hb rfl (wf_set (hv.counted p sd hb).2.2 hd index v)
      · simp only [hd, hlt, if_false] at h0
        exact Except.noConfusion h0

theorem storeAt_valid {s s1 : Store} (hv : s.Valid) {ptr : Option Nat} {index : Nat} {v : Byte}
    (h : s.storeAt ptr index v = .ok s1) : s1.Valid := by
  cases ptr with
  | none => exact Except.noConfusion h
  | some p =>
    have h1 : s.store (CharRef.cell p index) v = .ok s1 := h
    exact store_valid hv h1

theorem vsnprintf_valid {s s1 : Store} (hv : s.Valid) {p : Nat} {text : List Byte}
    (h : s.vsnprintf p text = .ok s1) : s1.Valid := by
  have h0 := h
  simp only [vsnprintf] at h0
  obtain ⟨sd, hsd, h0⟩ := bind_ok_inv h0
  have hb := deref_inv hsd
  cases hd : sd.data with
  | none =>
    simp only [hd] at h0
    exact Except.noConfusion h0
  | some d =>
    by_cases hle : text.length + 1 ≤ d.length
    · rw [vsnprintf_eq text hb hd hle] at h
      exact Except.ok.inj h ▸ valid_setData hv hb rfl (wf_text (hv.counted p sd hb).2.2 hd text hle)
    · simp only [hd, hle, if_false] at h0
      exact Except.noConfusion h0

theorem opIndex_valid {s : Store} (hv : s.Valid) {this : Nat} {index : Int}
    {r : Store × CharRef} (h : s.opIndex this index = .ok r) : r.1.Valid := by
  simp only [opIndex] at h
  obtain ⟨p, -, h⟩ := bind_ok_inv h
  obtain ⟨sd, -, h⟩ := bind_ok_inv h
  split at h
  · exact Except.ok.inj h ▸ hv
  · obtain ⟨s1, h1, h⟩ := bind_ok_inv h
    obtain ⟨p1, -, h⟩ := bind_ok_inv h
    exact Except.ok.inj h ▸ detach_valid hv h1

theorem get_valid {s : Store} (hv : s.Valid) {this : Nat} {r : Store × Option Nat}
    (h : s.get this = .ok r) : r.1.Valid := by
  simp only [get] at h
  obtain ⟨s1, h1, h⟩ := bind_ok_inv h
  obtain ⟨p, -, h⟩ := bind_ok_inv h
  obtain ⟨sd, -, h⟩ := bind_ok_inv h
  exact Except.ok.inj h ▸ detach_valid hv h1

theorem Format_eq (s : Store) (this : Nat) (text : List Byte) :
    s.Format this (some text) =
      s.detach this >>= fun s1 => s1.pData this >>= fun p => s1.deref p >>= fun sd =>
        if sd.length ≥ text.length then
          s1.vsnprintf p text >>= fun s2 => pure (s2, true)
        else
          (s1.constructLen text.length).1.pData (s1.constructLen text.length).2 >>= fun q =>
            (s1.constructLen text.length).1.vsnprintf q text >>= fun s3 =>
              s3.assign this (s1.constructLen text.length).2 >>= fun s4 =>
                s4.destroy (s1.constructLen text.length).2 >>= fun s5 => pure (s5, true) :=
  rfl

theorem Format_valid {s : Store} (hv : s.Valid) {this : Nat} {text : Option (List Byte)}
    {r : Store × Bool} (h : s.Format this text = .ok r) : r.1.Valid := by
  cases text with
  | none => exact Except.ok.inj h ▸ hv
  | some text =>
    rw [Format_eq] at h
    obtain ⟨s1, h1, h⟩ := bind_ok_inv h
    obtain ⟨p, -, h⟩ := bind_ok_inv h
    obtain ⟨sd, -, h⟩ := bind_ok_inv h
    have hv1 := detach_valid hv h1
    split at h
    · obtain ⟨s2, h2, h⟩ := bind_ok_inv h
      exact Except.ok.inj h ▸ vsnprintf_valid hv1 h2
    · obtain ⟨q, -, h⟩ := bind_ok_inv h
      obtain ⟨s3, h3, h⟩ := bind_ok_inv h
      obtain ⟨s4, h4, h⟩ := bind_ok_inv h
      obtain ⟨s5, h5, h⟩ := bind_ok_inv h
      exact Except.ok.inj h ▸ destroy_valid
        (assign_valid (vsnprintf_valid (constructLen_valid hv1 _) h3) h4) h5

theorem exec_valid {s s1 : Store} (hv : s.Valid) {c : Stmt} (h : s.exec c = .ok s1) :
    s1.Valid := by
  cases c with
  | construct => exact Except.ok.inj h ▸ construct_valid hv
  | constructCStr str => exact Except.ok.inj h ▸ constructCStr_valid hv str
  | constructBuf str len => exact Except.ok.inj h ▸ constructBuf_valid hv str len
  | constructLen len => exact Except.ok.inj h ▸ constructLen_valid hv len
  | copy other =>
    simp only [exec] at h
    obtain ⟨r, hr, h⟩ := bind_ok_inv h
    exact Except.ok.inj h ▸ copy_valid hv hr
  | destroy this => exact destroy_valid hv h
  | assign this other => exact assign_valid hv h
  | opIndex this index =>
    simp only [exec] at h
    obtain ⟨r, hr, h⟩ := bind_ok_inv h
    exact Except.ok.inj h ▸ opIndex_valid hv hr
  | get this =>
    simp only [exec] at h
    obtain ⟨r, hr, h⟩ := bind_ok_inv h
    exact Except.ok.inj h ▸ get_valid hv hr
  | setIndex this index v =>
    simp only [exec] at h
    obtain ⟨r, hr, h⟩ := bind_ok_inv h
    exact store_valid (opIndex_valid hv hr) h
  | setGet this index v =>
    simp only [exec] at h
    obtain ⟨r, hr, h⟩ := bind_ok_inv h
    exact storeAt_valid (get_valid hv hr) h
  | Format this text =>
    simp only [exec] at h
    obtain ⟨r, hr, h⟩ := bind_ok_inv h
    exact Except.ok.inj h ▸ Format_valid hv hr

theorem run_valid (prog : List Stmt) {s s1 : Store} (hv : s.Valid) (h : s.run prog = .ok s1) :
    s1.Valid := by
  induction prog generalizing s with
  | nil => exact Except.ok.inj h ▸ hv
  | cons c rest ih =>
    simp only [run] at h
    obtain ⟨s2, h2, h⟩ := bind_ok_inv h
    exact ih (exec_valid hv h2) h

end Store

namespace Store

theorem opIndex_live {s : Store} (hv : s.Valid) {this p : Nat} {sd : StringData}
    (hp : s.handles.getD this none = some p) (hsd : s.blocks p = some sd) {index : Int}
    (h0 : 0 ≤ index) (hlt : index.toNat < sd.length) :
    ∃ s1 p1, s.detach this = .ok s1 ∧ s1.handles.getD this none = some p1 ∧
      s.opIndex this index = .ok (s1, CharRef.cell p1 index.toNat) := by
  obtain ⟨s1, p1, sd1, hdet, -, hp1, -⟩ := detach_live hv hp hsd
  refine ⟨s1, p1, hdet, hp1, ?_⟩
  have hcond : ¬ (index < 0 ∨ index.toNat ≥ sd.length) := by omega
  simp only [opIndex, pData_ok hp, deref_ok hsd, bind, Except.bind, pure, Except.pure,
    if_neg hcond, hdet, pData_ok hp1]

theorem get_live {s : Store} (hv : s.Valid) {this p : Nat} {sd : StringData}
    (hp : s.handles.getD this none = some p) (hsd : s.blocks p = some sd) :
    ∃ s1 p1 sd1, s.detach this = .ok s1 ∧ s1.handles.getD this none = some p1 ∧
      s1.blocks p1 = some sd1 ∧
      s.get this = .ok (s1, sd1.data.map (fun _ => p1)) := by
  obtain ⟨s1, p1, sd1, hdet, -, hp1, hsd1, -⟩ := detach_live hv hp hsd
  refine ⟨s1, p1, sd1, hdet, hp1, hsd1, ?_⟩
  simp only [get, bind, Except.bind, pure, Except.pure, hdet, pData_ok hp1, deref_ok hsd1]

theorem destroy_live {s : Store} (hv : s.Valid) {this p : Nat}
    (hp : s.handles.getD this none = some p) :
    ∃ s1, s.destroy this = .ok s1 ∧ s1.Valid ∧ s1.handles = s.handles.set this none := by
  obtain ⟨sd, hsd⟩ := live_block hv hp
  exact ⟨_, destroy_eq hp hsd, valid_drop hv hp hsd, rfl⟩

theorem refCount_of_count {s : Store} (hv : s.Valid) {this p : Nat}
    (hp : s.handles.getD this none = some p) (hc : s.handles.count (some p) = 1) :
    s.getRefCount this = .ok 1 := by
  obtain ⟨sd, hsd⟩ := live_block hv hp
  have h := (hv.counted p sd hsd).1
  simp only [handleCount, hc] at h
  rw [getRefCount_ok hp hsd, h]
  rfl

/-- The reallocating branch of `Format`: a temporary of the new size takes the
text and is assigned to the object, whose old block goes. -/
theorem Format_grow {s1 : Store} (hv1 : s1.Valid) {this p1 : Nat} (text : List Byte)
    (hp1 : s1.handles.getD this none = some p1) :
    ∃ s5, ((s1.constructLen text.length).1.pData (s1.constructLen text.length).2 >>= fun q =>
        (s1.constructLen text.length).1.vsnprintf q text >>= fun s3 =>
          s3.assign this (s1.constructLen text.length).2 >>= fun s4 =>
            s4.destroy (s1.constructLen text.length).2 >>= fun s5 =>
              (pure (s5, true) : Except MemFault (Store × Bool))) = .ok (s5, true) ∧
      s5.Valid ∧ s5.getRefCount this = .ok 1 := by
  have hlt := lt_length_of_getD hp1
  obtain ⟨sd1, hsd1⟩ := live_block hv1 hp1
  have hne1 : p1 ≠ s1.next := Nat.ne_of_lt (below_next hv1 hsd1)
  have hv2 := constructLen_valid hv1 text.length
  have htemp : (s1.constructLen text.length).2 = s1.handles.length := rfl
  have hh2 : (s1.constructLen text.length).1.handles = s1.handles ++ [some s1.next] := rfl
  have hq : (s1.constructLen text.length).1.handles.getD (s1.constructLen text.length).2 none
      = some s1.next := by
    rw [hh2, htemp]
    exact getD_concat_self _ _
  have hb2 : (s1.constructLen text.length).1.blocks s1.next =
      some (StringData.ofBuf none text.length) := by
    simp only [constructLen, alloc, newObject, Function.update_same]
  have hvs := vsnprintf_eq (d := List.replicate (text.length + 1) 0) text hb2 rfl
    (by simp only [List.length_replicate]; exact Nat.le_refl _)
  have hv3 := vsnprintf_valid hv2 hvs
  have hnet : this ≠ (s1.constructLen text.length).2 := by rw [htemp]; omega
  have hp3 : (((s1.constructLen text.length).1.setBlock s1.next
      (some { StringData.ofBuf none text.length with
        data := some (text ++ [0] ++ (List.replicate (text.length + 1) 0).drop
          (text.length + 1)) })).handles.getD this none) = some p1 := by
    show (s1.constructLen text.length).1.handles.getD this none = some p1
    rw [hh2, getD_concat_lt _ _ hlt]
    exact hp1
  obtain ⟨s4, h4, hv4, hh4, -⟩ := assign_live hv3 hnet hp3 hq
  have hh4e : s4.handles = (s1.handles ++ [some s1.next]).set this (some s1.next) := by
    rw [hh4]
    rfl
  have hq4 : s4.handles.getD (s1.constructLen text.length).2 none = some s1.next := by
    rw [hh4e, getD_set_ne _ _ hnet, htemp]
    exact getD_concat_self _ _
  obtain ⟨s5, h5, hv5, hh5⟩ := destroy_live hv4 hq4
  refine ⟨s5, ?_, hv5, ?_⟩
  · simp only [pData_ok hq, hvs, h4, h5, bind, Except.bind, pure, Except.pure]
  · have hp2 : (s1.handles ++ [some s1.next]).getD this none = some p1 := by
      rw [getD_concat_lt _ _ hlt]
      exact hp1
    have hc0 : s1.handles.count (some s1.next) = 0 :=
      hv1.freed s1.next (hv1.fresh s1.next (Nat.le_refl _))
    have hc2 := count_concat_some s1.handles s1.next s1.next
    have hc3 := count_set_of_getD (s1.handles ++ [some s1.next]) this p1 (some s1.next)
      (some s1.next) hp2
    have hq4e : ((s1.handles ++ [some s1.next]).set this (some s1.next)).getD
        s1.handles.length none = some s1.next := by
      rw [← hh4e, ← htemp]
      exact hq4
    have hc4 := count_set_of_getD ((s1.handles ++ [some s1.next]).set this (some s1.next))
      s1.handles.length s1.next none (some s1.next) hq4e
    simp only [if_true, if_neg (show ¬ some p1 = some s1.next from
      fun e => hne1 (Option.some.inj e)),
      if_neg (show ¬ (none : Option Nat) = some s1.next from nofun)] at hc2 hc3 hc4
    apply refCount_of_count hv5
    · rw [hh5, hh4e, htemp, getD_set_ne _ _ (Ne.symm (by rw [← htemp]; exact hnet)),
        getD_set_self _ _ (by rw [List.length_append]; omega)]
    · rw [hh5, hh4e, htemp]
      omega

theorem Format_live {s : Store} (hv : s.Valid) {this p : Nat} {sd : StringData}
    (hp : s.handles.getD this none = some p) (hsd : s.blocks p = some sd) (text : List Byte)
    (hok : text ≠ [] ∨ sd.data ≠ none ∨ sd.refCount > 1) :
    ∃ s1, s.Format this (some text) = .ok (s1, true) ∧ s1.Valid ∧
      s1.getRefCount this = .ok 1 := by
  obtain ⟨s1, p1, sd1, hdet, hv1, hp1, hsd1, hrc1, hlen1, -, -, hnull⟩ := detach_live hv hp hsd
  by_cases hfit : sd1.length ≥ text.length
  · have hwf := (hv1.counted p1 sd1 hsd1).2.2
    cases hd : sd1.data with
    | none =>
      exfalso
      obtain ⟨hn, hone⟩ := hnull hd
      simp only [StringData.WellFormed, hd] at hwf
      rcases hok with h | h | h
      · exact h (List.length_eq_zero.1 (by omega))
      · exact h hn
      · omega
    | some d =>
      simp only [StringData.WellFormed, hd] at hwf
      have hvs := vsnprintf_eq text hsd1 hd (by omega)
      refine ⟨_, ?_, vsnprintf_valid hv1 hvs, ?_⟩
      · rw [Format_eq]
        simp only [hdet, pData_ok hp1, deref_ok hsd1, bind, Except.bind, pure, Except.pure,
          if_pos hfit, hvs]
      · have hb : (s1.setBlock p1 (some { sd1 with
            data := some (text ++ [0] ++ d.drop (text.length + 1)) })).blocks p1 =
            some { sd1 with data := some (text ++ [0] ++ d.drop (text.length + 1)) } := by
          simp only [setBlock, Function.update_same]
        rw [getRefCount_ok (s := s1.setBlock p1 _) hp1 hb]
        exact congrArg Except.ok hrc1
  · obtain ⟨s5, h5, hv5, hrc5⟩ := Format_grow hv1 text hp1
    refine ⟨s5, ?_, hv5, hrc5⟩
    rw [Format_eq]
    simp only [hdet, pData_ok hp1, deref_ok hsd1, bind, Except.bind, if_neg hfit] at h5 ⊢
    exact h5

theorem Format_null {s : Store} {this p : Nat} {sd : StringData}
    (hp : s.handles.getD this none = some p) (hsd : s.blocks p = some sd)
    (hd : sd.data = none) (hrc : ¬ sd.refCount > 1) (hlen : sd.length = 0) :
    s.Format this (some []) = .error MemFault.nullPointer := by
  rw [Format_eq]
  simp only [detach_eq hp hsd, if_neg hrc, pData_ok hp, deref_ok hsd, bind, Except.bind, hlen,
    List.length_nil, ge_iff_le, Nat.le_refl, if_true, vsnprintf, hd]

end Store

namespace Store

theorem read_getD (m : Mem) (p n j : Nat) (h : j < n) : (m.read p n).getD j 0 = m (p + j) := by
  simp [Mem.read, List.getD_eq_getElem?_getD, List.getElem?_map, List.getElem?_range h]

theorem read_length (m : Mem) (p n : Nat) : (m.read p n).length = n := by
  simp [Mem.read]

theorem opIndexConst_inside {s : Store} {this p : Nat} {sd : StringData} {d : List Byte}
    (hp : s.handles.getD this none = some p) (hsd : s.blocks p = some sd)
    (hd : sd.data = some d) (hlen : d.length = sd.length + 1) {j : Int} (h0 : 0 ≤ j)
    (hj : j.toNat ≤ sd.length) : s.opIndexConst this j = .ok (d.getD j.toNat 0) := by
  have hcond : ¬ (j < 0 ∨ j.toNat > sd.length) := by omega
  have hlt : j.toNat < d.length := by omega
  simp only [opIndexConst, pData_ok hp, deref_ok hsd, bind, Except.bind, if_neg hcond,
    load_cell_eq hsd hd hlt]
  rw [List.getD_eq_getElem _ _ hlt]
  rfl

theorem opIndexConst_congr {s t : Store} {this p q : Nat} {sd td : StringData}
    (hp : s.handles.getD this none = some p) (hsd : s.blocks p = some sd)
    (hq : t.handles.getD this none = some q) (htd : t.blocks q = some td)
    (hdata : td.data = sd.data) (hlen : td.length = sd.length)
    (he : t.EmptyChar = s.EmptyChar) (j : Int) :
    t.opIndexConst this j = s.opIndexConst this j := by
  simp only [opIndexConst, pData_ok hp, deref_ok hsd, pData_ok hq, deref_ok htd, bind,
    Except.bind, load, hdata, hlen, he]

/-- The store after `a`, which shares its block with `b`, has detached and `v`
has been written at `index` of its new array. -/
theorem written_after_detach {s : Store} (hv : s.Valid) {a b p : Nat} {sd : StringData}
    {d : List Byte} (hab : a ≠ b) (hpa : s.handles.getD a none = some p)
    (hpb : s.handles.getD b none = some p) (hsd : s.blocks p = some sd)
    (hd : sd.data = some d) {index : Int} (h0 : 0 ≤ index) (hlt : index.toNat < sd.length)
    (v : Byte) :
    ∃ s2 s3, s.detach a = .ok s2 ∧ s2.handles.getD a none = some s.next ∧
      s2.blocks s.next = some (StringData.ofBuf (some (Mem.ofList d)) sd.length) ∧
      s2.store (CharRef.cell s.next index.toNat) v = .ok s3 ∧
      s.WroteThrough s3 a b index v := by
  have hc := hv.counted p sd hsd
  have hwf := hc.2.2
  simp only [StringData.WellFormed, hd] at hwf
  have hrc : sd.refCount > 1 := by
    have h2 := two_handles hab hpa hpb
    have h1 := hc.1
    simp only [handleCount] at h1
    omega
  have hlta := lt_length_of_getD hpa
  have hne : s.next ≠ p := Nat.ne_of_gt (below_next hv hsd)
  obtain ⟨s2, hs2⟩ : ∃ s2 : Store, s2 = { s with
      blocks := Function.update (Function.update s.blocks s.next
          (some (StringData.ofBuf (sd.data.map Mem.ofList) sd.length)))
        p (some { sd with refCount := sd.refCount - 1 })
      next := s.next + 1
      handles := s.handles.set a (some s.next) } := ⟨_, rfl⟩
  have hdet : s.detach a = .ok s2 := by
    rw [detach_eq hpa hsd, if_pos hrc, hs2]
  have hnb : s2.blocks s.next = some (StringData.ofBuf (some (Mem.ofList d)) sd.length) := by
    rw [hs2]
    simp only [Function.update_apply, if_neg hne, if_true, hd, Option.map_some']
  have hp2 : s2.blocks p = some { sd with refCount := sd.refCount - 1 } := by
    rw [hs2]
    simp only [Function.update_same]
  have ha2 : s2.handles.getD a none = some s.next := by
    rw [hs2]
    exact getD_set_self _ _ hlta
  have hb2 : s2.handles.getD b none = some p := by
    rw [hs2]
    simp only [getD_set_ne _ _ hab]
    exact hpb
  have he2 : s2.EmptyChar = s.EmptyChar := by rw [hs2]
  have hi : index.toNat < ((Mem.ofList d).read 0 sd.length ++ [0]).length := by
    simp only [List.length_append, read_length, List.length_cons, List.length_nil]
    omega
  have hst := store_cell_eq v hnb rfl hi
  obtain ⟨s3, hs3⟩ : ∃ s3 : Store, s3 = s2.setBlock s.next
      (some { StringData.ofBuf (some (Mem.ofList d)) sd.length with
        data := some (((Mem.ofList d).read 0 sd.length ++ [0]).set index.toNat v) }) := ⟨_, rfl⟩
  have hst3 : s2.store (CharRef.cell s.next index.toNat) v = .ok s3 := by
    rw [hst, hs3]
  have hn3 : s3.blocks s.next = some { StringData.ofBuf (some (Mem.ofList d)) sd.length with
      data := some (((Mem.ofList d).read 0 sd.length ++ [0]).set index.toNat v) } := by
    rw [hs3]
    simp only [setBlock, Function.update_same]
  have hp3 : s3.blocks p = some { sd with refCount := sd.refCount - 1 } := by
    rw [hs3]
    simp only [setBlock, Function.update_apply, if_neg (Ne.symm hne)]
    exact hp2
  have ha3 : s3.handles.getD a none = some s.next := by rw [hs3]; exact ha2
  have hb3 : s3.handles.getD b none = some p := by rw [hs3]; exact hb2
  have he3 : s3.EmptyChar = s.EmptyChar := by rw [hs3]; exact he2
  have hlen3 : (((Mem.ofList d).read 0 sd.length ++ [0]).set index.toNat v).length =
      sd.length + 1 := by
    simp only [List.length_set, List.length_append, read_length, List.length_cons,
      List.length_nil]
  refine ⟨s2, s3, hdet, ha2, hnb, hst3, ?_, ?_, ?_, ?_, ?_, ?_⟩
  · rw [length_ok hpb hsd, length_ok hb3 hp3]
  · rw [c_str_ok hpb hsd, c_str_ok hb3 hp3]
  · intro j
    exact opIndexConst_congr hpb hsd hb3 hp3 rfl rfl he3 j
  · rw [length_ok hpa hsd, length_ok ha3 hn3]
    rfl
  · rw [opIndexConst_inside ha3 hn3 rfl hlen3 h0 (Nat.le_of_lt hlt)]
    congr 1
    rw [List.getD_eq_getElem _ _ (by rw [List.length_set]; exact hi), List.getElem_set_self]
  · intro j n hn hj0 hjn hji
    have hnn : sd.length = n := by
      rw [length_ok hpa hsd] at hn
      exact Except.ok.inj hn
    have hjl : j.toNat < sd.length := by omega
    rw [opIndexConst_inside ha3 hn3 rfl hlen3 hj0 (Nat.le_of_lt hjl),
      opIndexConst_inside hpa hsd hd hwf hj0 (Nat.le_of_lt hjl)]
    congr 1
    have hjne : index.toNat ≠ j.toNat := by omega
    rw [List.getD_eq_getElem?_getD, List.getElem?_set_ne hjne, ← List.getD_eq_getElem?_getD,
      List.getD_append _ _ _ _ (by rw [read_length]; exact hjl), read_getD _ _ _ _ hjl,
      Nat.zero_add]
    rfl

end Store

/-! ## Claim: copy-on-write isolation -/

theorem run_snoc (prog : List Stmt) (c : Stmt) (s : Store) :
    s.run (prog ++ [c]) = s.run prog >>= fun t => t.exec c := by
  induction prog generalizing s with
  | nil =>
    simp only [List.nil_append, Store.run, bind, Except.bind, pure, Except.pure]
    cases s.exec c <;> rfl
  | cons x rest ih =>
    simp only [List.cons_append, Store.run, bind, Except.bind]
    cases s.exec x with
    | error e => rfl
    | ok t => exact ih t

/-- C21: let `a` and `b` be two objects that share a block in a state reached
from the empty heap, as they do when `b` is a copy of `a`, and let `index` be
in range for `a`.  Writing `v` through the reference that the mutable
`operator[]` of `a` returns, or at `index` through the pointer that `a.get()`
returns, succeeds; afterwards `b` has the length, the array and every indexed
read it had before, while `a` has its old length, reads `v` at `index` and
reads what it read before at every other index in range.  The copy
constructor gives such a `b`: the copy is another object whose `pData` is that
of `a`, with the length and the array of `a`. -/
theorem copy_on_write_isolation (prog : List Stmt) (s : Store) (a b p n : Nat) (index : Int)
    (v : Byte) (hrun : Store.init.run prog = .ok s) (hab : a ≠ b)
    (ha : s.pData a = .ok p) (hb : s.pData b = .ok p) (hn : s.length a = .ok n)
    (h0 : 0 ≤ index) (hlt : index < n) :
    (∃ s2 r s3, s.opIndex a index = .ok (s2, r) ∧ s2.store r v = .ok s3 ∧
        s.WroteThrough s3 a b index v) ∧
      (∃ s2 ptr s3, s.get a = .ok (s2, ptr) ∧ s2.storeAt ptr index.toNat v = .ok s3 ∧
        s.WroteThrough s3 a b index v) ∧
      (∃ s1 c, s.copy a = .ok (s1, c) ∧ Store.init.run (prog ++ [Stmt.copy a]) = .ok s1 ∧
        c ≠ a ∧ s1.pData c = .ok p ∧ s1.pData a = .ok p ∧
        s1.length c = .ok n ∧ s1.c_str c = s.c_str a) := by
  have hv : s.Valid := Store.run_valid prog Store.valid_init hrun
  have hpa := Store.pData_inv ha
  have hpb := Store.pData_inv hb
  obtain ⟨sd, hsd⟩ := Store.live_block hv hpa
  have hlen : sd.length = n := by
    rw [Store.length_ok hpa hsd] at hn
    exact Except.ok.inj hn
  have hwf := (hv.counted p sd hsd).2.2
  have hin : index.toNat < sd.length := by omega
  cases hd : sd.data with
  | none =>
    simp only [StringData.WellFormed, hd] at hwf
    omega
  | some d =>
    obtain ⟨s2, s3, hdet, ha2, hnb, hst, hw⟩ :=
      Store.written_after_detach hv hab hpa hpb hsd hd h0 hin v
    refine ⟨?_, ?_, ?_⟩
    · obtain ⟨t, p1, hdet1, hp1, hop⟩ := Store.opIndex_live hv hpa hsd h0 hin
      rw [hdet] at hdet1
      have e := Except.ok.inj hdet1
      subst e
      rw [ha2] at hp1
      have e1 := Option.some.inj hp1
      subst e1
      exact ⟨s2, _, s3, hop, hst, hw⟩
    · obtain ⟨t, p1, sd1, hdet1, hp1, hsd1, hget⟩ := Store.get_live hv hpa hsd
      rw [hdet] at hdet1
      have e := Except.ok.inj hdet1
      subst e
      rw [ha2] at hp1
      have e1 := Option.some.inj hp1
      subst e1
      rw [hnb] at hsd1
      have e2 := Option.some.inj hsd1
      subst e2
      exact ⟨s2, _, s3, hget, hst, hw⟩
    · have hlta := Store.lt_length_of_getD hpa
      have hcopy := Store.copy_eq hpa hsd
      refine ⟨_, _, hcopy, ?_, Nat.ne_of_gt hlta, ?_, ?_, ?_, ?_⟩
      · rw [run_snoc, hrun]
        simp only [bind, Except.bind, Store.exec, hcopy, pure, Except.pure]
      · exact Store.pData_ok (Store.getD_concat_self _ _)
      · apply Store.pData_ok
        show (s.handles ++ [some p]).getD a none = some p
        rw [Store.getD_concat_lt _ _ hlta]
        exact hpa
      · rw [← hlen]
        have hblock : ({ s with
            blocks := Function.update s.blocks p (some { sd with refCount := sd.refCount + 1 })
            handles := s.handles ++ [some p] } : Store).blocks p =
            some { sd with refCount := sd.refCount + 1 } := Function.update_same _ _ _
        have hcopied := Store.length_ok (Store.getD_concat_self s.handles (some p)) hblock
        exact hcopied
      · rw [Store.c_str_ok hpa hsd]
        have hblock : ({ s with
            blocks := Function.update s.blocks p (some { sd with refCount := sd.refCount + 1 })
            handles := s.handles ++ [some p] } : Store).blocks p =
            some { sd with refCount := sd.refCount + 1 } := Function.update_same _ _ _
        have hcopied := Store.c_str_ok (Store.getD_concat_self s.handles (some p)) hblock
        exact hcopied

theorem copy_on_write_isolation_witness :
    Store.init.run demoCopyProgram = .ok demoCopied ∧
      (∃ s2 r s3, demoCopied.opIndex 0 1 = .ok (s2, r) ∧ s2.store r 0x41 = .ok s3 ∧
        demoCopied.WroteThrough s3 0 1 1 0x41) ∧
      (∃ s2 ptr s3, demoCopied.get 0 = .ok (s2, ptr) ∧ s2.storeAt ptr 1 0x41 = .ok s3 ∧
        demoCopied.WroteThrough s3 0 1 1 0x41) :=
  have h := copy_on_write_isolation demoCopyProgram demoCopied 0 1 0 5 1 0x41 rfl (by decide)
    rfl rfl rfl (by decide) (by decide)
  ⟨rfl, h.1, h.2.1⟩

/-! ## Claim: reference counts -/

/-- C27: in every state reached from the empty heap by constructing, copying,
assigning (to itself and between objects that already share a block too),
writing through `operator[]` and `get`, formatting and destroying `SafeString`
objects, the reference count of every allocated block is the number of live
objects whose `pData` points to it and is at least 1; an address holds no
block exactly when no live object points to it, so that a statement deletes a
block exactly when it takes away the last object pointing to it; every live
object points to an allocated block; and after the mutable `operator[]` with
an index in range, after `get` and after a `Format` that returns true the
reference count of the object's block is 1.  `Format` returns true whenever it
is given a non-empty text. -/
theorem refcount_matches_handles (prog : List Stmt) (s : Store)
    (hrun : Store.init.run prog = .ok s) :
    (∀ p sd, s.blocks p = some sd → sd.refCount = (s.handleCount p : Int) ∧ 1 ≤ sd.refCount) ∧
      (∀ p, s.blocks p = none ↔ s.handleCount p = 0) ∧
      (∀ (c : Stmt) (s1 : Store), s.exec c = .ok s1 → ∀ p,
        (s.blocks p ≠ none ∧ s1.blocks p = none) ↔
          (s.handleCount p ≠ 0 ∧ s1.handleCount p = 0)) ∧
      (∀ this p, s.pData this = .ok p → ∃ sd, s.blocks p = some sd) ∧
      (∀ (this n : Nat) (index : Int), s.length this = .ok n → 0 ≤ index → index < n →
        ∃ s1 r, s.opIndex this index = .ok (s1, r) ∧ s1.getRefCount this = .ok 1) ∧
      (∀ this p, s.pData this = .ok p →
        ∃ s1 ptr, s.get this = .ok (s1, ptr) ∧ s1.getRefCount this = .ok 1) ∧
      (∀ this text s1, s.Format this text = .ok (s1, true) → s1.getRefCount this = .ok 1) ∧
      (∀ this p text, s.pData this = .ok p → text ≠ [] →
        ∃ s1, s.Format this (some text) = .ok (s1, true)) := by
  have hv : s.Valid := Store.run_valid prog Store.valid_init hrun
  have hiff : ∀ (t : Store), t.Valid → ∀ p, t.blocks p = none ↔ t.handleCount p = 0 := by
    intro t ht p
    refine ⟨ht.freed p, fun hz => ?_⟩
    cases hb : t.blocks p with
    | none => rfl
    | some sd =>
      have h := ht.counted p sd hb
      rw [hz] at h
      exact absurd h.2.1 (by rw [h.1]; decide)
  refine ⟨fun p sd h => ⟨(hv.counted p sd h).1, (hv.counted p sd h).2.1⟩, hiff s hv, ?_, ?_, ?_,
    ?_, ?_, ?_⟩
  · intro c s1 h1 p
    have hv1 := Store.exec_valid hv h1
    exact and_congr (not_congr (hiff s hv p)) (hiff s1 hv1 p)
  · intro this p hp
    exact Store.live_block hv (Store.pData_inv hp)
  · intro this n index hn h0 hlt
    have hn0 := hn
    simp only [Store.length] at hn0
    obtain ⟨p, hp, hn0⟩ := Store.bind_ok_inv hn0
    obtain ⟨sd, hsd, hn0⟩ := Store.bind_ok_inv hn0
    have hlen : sd.length = n := Except.ok.inj hn0
    obtain ⟨s1, p1, sd1, hdet, -, hp1, hsd1, hrc1, -⟩ :=
      Store.detach_live hv (Store.pData_inv hp) (Store.deref_inv hsd)
    obtain ⟨s2, p2, hdet2, -, hop⟩ := Store.opIndex_live hv (Store.pData_inv hp)
      (Store.deref_inv hsd) h0 (by omega)
    rw [hdet] at hdet2
    have e := Except.ok.inj hdet2
    subst e
    refine ⟨s1, _, hop, ?_⟩
    rw [Store.getRefCount_ok hp1 hsd1, hrc1]
  · intro this p hp
    obtain ⟨sd, hsd⟩ := Store.live_block hv (Store.pData_inv hp)
    obtain ⟨s1, p1, sd1, hdet, -, hp1, hsd1, hrc1, -⟩ :=
      Store.detach_live hv (Store.pData_inv hp) hsd
    obtain ⟨s2, p2, sd2, hdet2, hp2, hsd2, hget⟩ := Store.get_live hv (Store.pData_inv hp) hsd
    rw [hdet] at hdet2
    have e := Except.ok.inj hdet2
    subst e
    refine ⟨s1, _, hget, ?_⟩
    rw [Store.getRefCount_ok hp1 hsd1, hrc1]
  · intro this text s1 h
    cases text with
    | none =>
      have e := Except.ok.inj h
      exact absurd (congrArg Prod.snd e) Bool.false_ne_true
    | some t =>
      have h0 := h
      rw [Store.Format_eq] at h0
      obtain ⟨sD, hD, -⟩ := Store.bind_ok_inv h0
      simp only [Store.detach] at hD
      obtain ⟨p, hp, -⟩ := Store.bind_ok_inv hD
      obtain ⟨sd, hsd⟩ := Store.live_block hv (Store.pData_inv hp)
      by_cases hok : t ≠ [] ∨ sd.data ≠ none ∨ sd.refCount > 1
      · obtain ⟨s2, h2, -, hrc⟩ := Store.Format_live hv (Store.pData_inv hp) hsd t hok
        rw [h2] at h
        have e : s2 = s1 := congrArg Prod.fst (Except.ok.inj h)
        rw [← e]
        exact hrc
      · simp only [not_or, not_not] at hok
        obtain ⟨ht, hd, hrc⟩ := hok
        have hwf := (hv.counted p sd hsd).2.2
        simp only [StringData.WellFormed, hd] at hwf
        rw [ht, Store.Format_null (Store.pData_inv hp) hsd hd hrc hwf] at h
        exact Except.noConfusion h
  · intro this p text hp ht
    obtain ⟨sd, hsd⟩ := Store.live_block hv (Store.pData_inv hp)
    obtain ⟨s1, h1, -⟩ := Store.Format_live hv (Store.pData_inv hp) hsd text (Or.inl ht)
    exact ⟨s1, h1⟩

theorem refcount_matches_handles_witness :
    Store.init.run demoProgram = .ok demoFinal ∧
      demoFinal.getRefCount 1 = .ok 2 ∧ demoFinal.getRefCount 6 = .ok 2 ∧
      demoFinal.handleCount 2 = 2 ∧
      (∀ p sd, demoFinal.blocks p = some sd →
        sd.refCount = (demoFinal.handleCount p : Int) ∧ 1 ≤ sd.refCount) ∧
      (∃ s1 r, demoFinal.opIndex 1 4 = .ok (s1, r) ∧ s1.getRefCount 1 = .ok 1) ∧
      (∃ s1 ptr, demoFinal.get 6 = .ok (s1, ptr) ∧ s1.getRefCount 6 = .ok 1) ∧
      (∃ s1, demoFinal.Format 3 (some demoHi) = .ok (s1, true) ∧ s1.getRefCount 3 = .ok 1) :=
  have h := refcount_matches_handles demoProgram demoFinal rfl
  ⟨rfl, rfl, rfl, rfl, h.1,
    h.2.2.2.2.1 1 5 4 rfl (by decide) (by decide),
    h.2.2.2.2.2.1 6 2 rfl,
    (h.2.2.2.2.2.2.2 3 6 demoHi rfl (by decide)).imp
      fun s1 h1 => ⟨h1, h.2.2.2.2.2.2.1 3 (some demoHi) s1 h1⟩⟩

end PskSpec
